import Mathlib

/-!
# Sudoku genetic algorithm: Puzzle, Population, GeneticAlgorithm

A shallow embedding of `Puzzle.cpp`, `Population.cpp` and `GeneticAlgorithm.cpp`.

* `ROWS = COLUMNS = 9` (Puzzle.h:29-30), so `ROWS * COLUMNS = 81`,
  `ROWS * (COLUMNS - 1) = 72`, `ROWS * COLUMNS - 1 = 80` and `COLUMNS - 2 = 7`;
  the loops below carry these numbers as literals.
* `char content[ROWS * COLUMNS]` is a function on `Fin 81`.
* C++ loops are recursive functions on the loop variables; their termination
  measures are the ones the loop bounds give.
* `int` values that index the grid are natural numbers (they start at 0 and only
  grow, and stay below 100); scores are integers in the range of the 32-bit `int`, and
  the decrement `--quality` of the three fitness passes is reduced modulo `2 ^ 32` into
  that range (`wrapInt`).
* The standard input `cin` is the list of the characters still to be read.
-/

/-! ## Definitions -/

/-- Number of rows, Puzzle.h:29. -/
abbrev ROWS : Nat := 9

/-- Number of columns, Puzzle.h:30. -/
abbrev COLUMNS : Nat := 9

/-- Perfect fitness, GeneticAlgorithm.h:17 (`ROWS * COLUMNS`). -/
abbrev IDEAL : Int := 81

/-- The private fields of `class Puzzle` (Puzzle.h:285-287). -/
structure Puzzle where
  fitLevel : Int
  notSet : Int
  content : Fin 81 → Char

/-- The read `content[k]`. The array has 81 cells; an index outside `0..80` is outside
the array and reads as the NUL character here. -/
def Puzzle.cell (p : Puzzle) (k : Nat) : Char :=
  if h : k < 81 then p.content ⟨k, h⟩ else Char.ofNat 0

/-- The write `content[k] = item`. -/
def Puzzle.store (p : Puzzle) (k : Nat) (item : Char) : Puzzle :=
  { p with content := fun x => if x.val = k then item else p.content x }

/-- Default constructor `Puzzle::Puzzle()` (Puzzle.cpp:202-208): `fitLevel` is
`ROWS * COLUMNS + 1`, `notSet` is `ROWS * COLUMNS`, every cell is `'0'`. -/
def Puzzle.new : Puzzle := ⟨82, 81, fun _ => '0'⟩

/-- The index held by a `Puzzle::PuzzleIterator` (field `cur`); the container pointer is
passed explicitly where the iterator is dereferenced. -/
structure PuzzleIterator where
  cur : Nat

/-- Prefix `operator++` of the iterator (Puzzle.cpp:83-91). -/
def PuzzleIterator.next (it : PuzzleIterator) : PuzzleIterator :=
  if it.cur < 81 then ⟨it.cur + 1⟩ else it

/-- Iterator to the first cell, `Puzzle::begin` (Puzzle.cpp:422-425). -/
def Puzzle.begin (_p : Puzzle) : PuzzleIterator := ⟨0⟩

/-- Dereference `*it` of an iterator into `p` (Puzzle.cpp:72-75). -/
def Puzzle.deref (p : Puzzle) (it : PuzzleIterator) : Char := p.cell it.cur

/-- Member `Puzzle::setCell` (Puzzle.cpp:412-415): `content[loc.cur] = item`, nothing else. -/
def Puzzle.setCell (p : Puzzle) (loc : PuzzleIterator) (item : Char) : Puzzle :=
  p.store loc.cur item

/-- Least value of the 32-bit `int`, `-2 ^ 31`. -/
abbrev INT_MIN : Int := -2147483648

/-- Greatest value of the 32-bit `int`, `2 ^ 31 - 1`. -/
abbrev INT_MAX : Int := 2147483647

/-- The value a 32-bit two's complement `int` holds for the exact result `x`: the
integer of the range `INT_MIN..INT_MAX` that differs from `x` by a multiple of `2 ^ 32`
(`4294967296`); it is `x` itself when `x` is in the range. C++ leaves signed overflow
undefined; the compiled code wraps, and so does this function. -/
def wrapInt (x : Int) : Int := (x + 2147483648) % 4294967296 - 2147483648

/-- Inner loop of `fitRow` (Puzzle.cpp:455-462), entered with `j`: true when it leaves
through `break`, that is when it decrements `quality`. -/
def rowScan (p : Puzzle) (i j : Nat) : Bool :=
  if j < (i / 9) * 9 + 9 then
    if p.cell j = p.cell i then true
    else rowScan p i (j + 1)
  else false
termination_by (i / 9) * 9 + 9 - j

/-- Outer loop of `fitRow` (Puzzle.cpp:446-464), entered with `i`; `quality` is a 32-bit
`int` and `--quality` is `wrapInt (quality - 1)`. -/
def fitRowLoop (p : Puzzle) (i : Nat) (quality : Int) : Int :=
  if i < 81 then
    if p.cell i = '0' then fitRowLoop p (i + 1) (wrapInt (quality - 1))
    else if rowScan p i (i + 1) then fitRowLoop p (i + 1) (wrapInt (quality - 1))
    else fitRowLoop p (i + 1) quality
  else quality
termination_by 81 - i

/-- Member `Puzzle::fitRow` (Puzzle.cpp:443-467); the parameter is a 32-bit `int`. -/
def Puzzle.fitRow (p : Puzzle) (quality : Int) : Int := fitRowLoop p 0 quality

/-- Inner loop of `fitColumn` (Puzzle.cpp:482-489), entered with `j`: true when it
leaves through `break`. -/
def colScan (p : Puzzle) (i j : Nat) : Bool :=
  if j < 81 then
    if p.cell j = p.cell i ∧ p.cell i ≠ '0' then true
    else colScan p i (j + 9)
  else false
termination_by 81 - j

/-- Outer loop of `fitColumn` (Puzzle.cpp:479-490), entered with `i`; `quality` is a
32-bit `int` and `--quality` is `wrapInt (quality - 1)`. -/
def fitColumnLoop (p : Puzzle) (i : Nat) (quality : Int) : Int :=
  if i < 72 then
    if colScan p i (i + 9) then fitColumnLoop p (i + 1) (wrapInt (quality - 1))
    else fitColumnLoop p (i + 1) quality
  else quality
termination_by 72 - i

/-- Member `Puzzle::fitColumn` (Puzzle.cpp:475-493); the parameter is a 32-bit `int`. -/
def Puzzle.fitColumn (p : Puzzle) (quality : Int) : Int := fitColumnLoop p 0 quality

/-- The `while` loop of `fitNonet` (Puzzle.cpp:519-534), entered with `temp`: true when
it leaves through `break`. The condition `temp - i < 3` has the same truth value on
natural numbers as on `int` (a negative difference is below 3 as well). -/
def nonetScan (p : Puzzle) (i temp : Nat) : Bool :=
  if temp - i < 3 ∨ (temp / 9) % 3 > (i / 9) % 3 then
    if p.cell temp = p.cell i then true
    else if temp % 3 > 1 then nonetScan p i (temp + 7)
    else nonetScan p i (temp + 1)
  else false
termination_by 27 * ((max (i + 3) (temp - 8) + 26) / 27) + 9 - temp
decreasing_by
  all_goals simp_wf
  all_goals simp only [Nat.max_def]
  all_goals split <;> split <;> omega

/-- Outer loop of `fitNonet` (Puzzle.cpp:506-536), entered with `i`; `quality` is a
32-bit `int` and `--quality` is `wrapInt (quality - 1)`. -/
def fitNonetLoop (p : Puzzle) (i : Nat) (quality : Int) : Int :=
  if i < 80 then
    if p.cell i ≠ '0' then
      if nonetScan p i (if i % 3 > 1 then i - 2 + 9 else i + 1) then
        fitNonetLoop p (i + 1) (wrapInt (quality - 1))
      else fitNonetLoop p (i + 1) quality
    else fitNonetLoop p (i + 1) quality
  else quality
termination_by 80 - i

/-- Member `Puzzle::fitNonet` (Puzzle.cpp:501-539); the parameter is a 32-bit `int`. -/
def Puzzle.fitNonet (p : Puzzle) (quality : Int) : Int := fitNonetLoop p 0 quality

/-- Member `Puzzle::fitness` (Puzzle.cpp:380-394), the value it returns. -/
def Puzzle.fitness (p : Puzzle) : Int :=
  if p.fitLevel ≤ 81 then p.fitLevel
  else p.fitNonet (p.fitColumn (p.fitRow 81))

/-- A call of `fitness()`: the value returned and the object after the call. The member
is `const` and no field is `mutable`, so the body assigns nothing. -/
def Puzzle.fitnessCall (p : Puzzle) : Int × Puzzle := (p.fitness, p)

/-- Member `Puzzle::size` (Puzzle.cpp:401-404). -/
def Puzzle.size (p : Puzzle) : Int := p.notSet

/-- The comparison `operator<` of puzzles (Puzzle.cpp:305-308). -/
def Puzzle.lt (a b : Puzzle) : Bool := decide (a.fitness > b.fitness)

/-- The C function `isspace` in the default locale: the space and the characters
`\t`, `\n`, `\v`, `\f`, `\r` (codes 9 to 13). Formatted extraction of a `char` skips
them. -/
def isspace (c : Char) : Bool := decide (c = ' ' ∨ (9 ≤ c.toNat ∧ c.toNat ≤ 13))

/-- The passes of the `while` loop of `operator>>` (Puzzle.cpp:261-274) after standard
input has run out: `cin >> temp` fails and leaves `temp` as it was, so each of the `n`
passes still to run stores the same digit `temp` again. -/
def refillLoop (temp : Char) : Nat → Nat → Puzzle → Puzzle
  | 0, _, dest => dest
  | n + 1, index, dest =>
    if temp = '0' then refillLoop temp n (index + 1) (dest.store index temp)
    else
      refillLoop temp n (index + 1) { (dest.store index temp) with notSet := dest.notSet - 1 }

/-- The `while` loop of `operator>>` (Puzzle.cpp:261-274): the characters still on
standard input, the local `temp` (`none` while it is uninitialised), `index` and `dest`.
`cin >> temp` skips white space and reads one character; at the end of the stream it
fails and `temp` keeps its value. The result is `none` when the loop reads the
uninitialised `temp` or never ends (the stream has run out and `temp` is not a digit).
The characters are ASCII (`isdigit` is defined on those). -/
def extractLoop : List Char → Option Char → Nat → Puzzle → Option Puzzle
  | [], temp, index, dest =>
    if index < 81 then
      match temp with
      | none => none
      | some t => if t.isDigit then some (refillLoop t (81 - index) index dest) else none
    else some dest
  | c :: rest, temp, index, dest =>
    if index < 81 then
      if isspace c then extractLoop rest temp index dest
      else if c = '0' then extractLoop rest (some c) (index + 1) (dest.store index c)
      else if c.isDigit then
        extractLoop rest (some c) (index + 1)
          { (dest.store index c) with notSet := dest.notSet - 1 }
      else extractLoop rest (some c) index dest
    else some dest

/-- Stream extraction `operator>>(istream& input, Puzzle& dest)` (Puzzle.cpp:252-277).
The body reads the global `cin` (Puzzle.cpp:263) and never the stream `input` it is
given, which it returns as it got it; so the characters consumed are those of standard
input, the list `cin` here, whatever stream the caller names. -/
def Puzzle.extract (cin : List Char) (dest : Puzzle) : Option Puzzle :=
  extractLoop cin none 0 { dest with notSet := 81 }

/-- The call `input >> dest` with both streams in view (Puzzle.cpp:252-277): `input` is
the stream named by the caller, `cin` is standard input. The result is the stream
returned, which is `input` as it came, and the puzzle, which is read from `cin`. -/
def Puzzle.extractFrom (input cin : List Char) (dest : Puzzle) :
    Option (List Char × Puzzle) :=
  (Puzzle.extract cin dest).map (fun p => (input, p))

/-- Cells in the same row. -/
def sameRow (i j : Nat) : Prop := i / 9 = j / 9

/-- Cells in the same column. -/
def sameColumn (i j : Nat) : Prop := i % 9 = j % 9

/-- Cells in the same 3x3 block: same band of three rows, same stack of three columns. -/
def sameBlock (i j : Nat) : Prop := i / 27 = j / 27 ∧ i % 9 / 3 = j % 9 / 3

instance sameRowDecidable (i j : Nat) : Decidable (sameRow i j) := by
  unfold sameRow; infer_instance

instance sameColumnDecidable (i j : Nat) : Decidable (sameColumn i j) := by
  unfold sameColumn; infer_instance

instance sameBlockDecidable (i j : Nat) : Decidable (sameBlock i j) := by
  unfold sameBlock; infer_instance

/-- Cell `i` is not empty and a later cell of its row holds the same character. -/
def rowDup (p : Puzzle) (i : Nat) : Prop :=
  p.cell i ≠ '0' ∧ ∃ j, j < 81 ∧ (i < j ∧ sameRow i j ∧ p.cell j = p.cell i)

/-- Cell `i` is not empty and a cell below it in its column holds the same character. -/
def columnDup (p : Puzzle) (i : Nat) : Prop :=
  p.cell i ≠ '0' ∧ ∃ j, j < 81 ∧ (i < j ∧ sameColumn i j ∧ p.cell j = p.cell i)

/-- Cell `i` is not empty and a cell of its block that comes later in row-major order
holds the same character. -/
def blockDup (p : Puzzle) (i : Nat) : Prop :=
  p.cell i ≠ '0' ∧ ∃ j, j < 81 ∧ (i < j ∧ sameBlock i j ∧ p.cell j = p.cell i)

instance rowDupDecidable (p : Puzzle) (i : Nat) : Decidable (rowDup p i) := by
  unfold rowDup; infer_instance

instance columnDupDecidable (p : Puzzle) (i : Nat) : Decidable (columnDup p i) := by
  unfold columnDup; infer_instance

instance blockDupDecidable (p : Puzzle) (i : Nat) : Decidable (blockDup p i) := by
  unfold blockDup; infer_instance

/-- The empty cells of the grid. -/
def emptyCells (p : Puzzle) : Finset Nat := (Finset.range 81).filter (fun i => p.cell i = '0')

/-- The cells with a later duplicate in their row. -/
def rowDupCells (p : Puzzle) : Finset Nat := (Finset.range 81).filter (fun i => rowDup p i)

/-- The cells with a duplicate below them in their column. -/
def columnDupCells (p : Puzzle) : Finset Nat :=
  (Finset.range 81).filter (fun i => columnDup p i)

/-- The cells with a later duplicate in their block. -/
def blockDupCells (p : Puzzle) : Finset Nat := (Finset.range 81).filter (fun i => blockDup p i)

/-- The indices the `while` loop of `fitNonet` steps through for start cell `i` when no
comparison succeeds, computed with a step budget: `none` when the budget runs out before
the loop condition fails. It does not look at the grid. -/
def nonetWalk (i : Nat) : Nat → Nat → Option (List Nat)
  | 0, _ => none
  | fuel + 1, temp =>
    if temp - i < 3 ∨ (temp / 9) % 3 > (i / 9) % 3 then
      (nonetWalk i fuel (if temp % 3 > 1 then temp + 7 else temp + 1)).map (List.cons temp)
    else some []

/-- A valid Sudoku solution: no empty cell, and no two distinct cells of one row, one
column or one block hold the same character. -/
def Puzzle.isSolution (p : Puzzle) : Prop :=
  (∀ i, i < 81 → p.cell i ≠ '0') ∧
  ∀ i j, i < 81 → j < 81 → i ≠ j →
    (sameRow i j ∨ sameColumn i j ∨ sameBlock i j) → p.cell i ≠ p.cell j

/-- The grid given by the first 81 characters of a list (cells past its end are `'0'`). -/
def gridOf (l : List Char) : Fin 81 → Char := fun i => l.getD i.val '0'

/-- The classic puzzle of the specification, as a row-major string; it is put on standard
input where a puzzle is read from it. -/
def classicInput : List Char :=
  "530070000600195000098000060800060003400803001700020006060000280000419005000080079".toList

/-- Fields of `class Population` (Population.h:19-47): the `vector<Puzzle>` base, as the
list of its elements, and `bestFitness`. -/
structure Population where
  elems : List Puzzle
  bestFitness : Int

/-- The library call `std::sort(first, last)` with `operator<` on the elements of the
range: it leaves a rearrangement of the range in which no element is `operator<` an
earlier one. The standard fixes no order among elements that compare equivalent; this
model keeps them in their input order. -/
def stdSort (v : List Puzzle) : List Puzzle :=
  v.insertionSort (fun a b => b.lt a = false)

/-- The loop `for (int i = size(); i > limit; --i) pop_back();` (Population.cpp:41-44),
entered with `i`. -/
def popBackLoop (limit : Nat) : Nat → List Puzzle → List Puzzle
  | 0, v => v
  | i + 1, v => if i + 1 > limit then popBackLoop limit i v.dropLast else v

/-- Member `Population::deleteWorst` (Population.cpp:35-49): the value returned and the
population after the call. The sorted range is `[begin(), begin() + size() - 1)`. The
result is `none` where the C++ has no defined behaviour: the range of an empty vector
(it would end before `begin()`), and `front()` of a vector left empty. -/
def Population.deleteWorst (pop : Population) : Option (Int × Population) :=
  let limit := pop.elems.length / 10
  if pop.elems.length = 0 then none
  else
    let sorted := stdSort (pop.elems.take (pop.elems.length - 1))
      ++ pop.elems.drop (pop.elems.length - 1)
    match popBackLoop limit sorted.length sorted with
    | [] => none
    | front :: rest => some (front.fitness, ⟨front :: rest, front.fitness⟩)

/-- Fields of `class GeneticAlgorithm` (GeneticAlgorithm.h:56-58). -/
structure GeneticAlgorithm where
  popSize : Int
  maxGens : Int
  preGen : Puzzle

/-- Mutation chance of the breeding step, GeneticAlgorithm.h:18. A `double` is modelled
by a rational number. -/
abbrev MUTANTINESS : ℚ := 1 / 20

/-- State of the C library generator: the values `rand()` is still to return, in order. -/
abbrev RandState := Nat → Nat

/-- The library call `rand()`: the value returned and the generator afterwards. -/
def rand (s : RandState) : Nat × RandState := (s 0, fun n => s (n + 1))

/-- Member `GeneticAlgorithm::randDigit` (GeneticAlgorithm.cpp:138-176): the digit
returned and the generator afterwards. `RAND_MAX` is the constant of `<cstdlib>`. -/
def GeneticAlgorithm.randDigit (_ga : GeneticAlgorithm) (RAND_MAX : Nat) (s : RandState) :
    Char × RandState :=
  let range : ℚ := (⌊((rand s).1 : ℚ) / (RAND_MAX : ℚ) * 9⌋ : Int)
  (if range < 1 then '1'
   else if range < 2 then '2'
   else if range < 3 then '3'
   else if range < 4 then '4'
   else if range < 5 then '5'
   else if range < 6 then '6'
   else if range < 7 then '7'
   else if range < 8 then '8'
   else '9', (rand s).2)

/-- The loop of `mutate` (GeneticAlgorithm.cpp:114-128), entered with `i`, the two
iterators, the offspring so far and the generator. -/
def mutateLoop (ga : GeneticAlgorithm) (RAND_MAX : Nat) (chance : ℚ) (i : Nat)
    (parIt mutIt : PuzzleIterator) (mutant : Puzzle) (s : RandState) : Puzzle × RandState :=
  if i < 81 then
    if ga.preGen.deref parIt = '0' then
      if chance ≥ 1 then
        mutateLoop ga RAND_MAX chance (i + 1) parIt.next mutIt.next
          (mutant.setCell mutIt (ga.randDigit RAND_MAX s).1) (ga.randDigit RAND_MAX s).2
      else if chance > ((rand s).1 : ℚ) / (RAND_MAX : ℚ) then
        mutateLoop ga RAND_MAX chance (i + 1) parIt.next mutIt.next
          (mutant.setCell mutIt (ga.randDigit RAND_MAX (rand s).2).1)
          (ga.randDigit RAND_MAX (rand s).2).2
      else mutateLoop ga RAND_MAX chance (i + 1) parIt.next mutIt.next mutant (rand s).2
    else mutateLoop ga RAND_MAX chance (i + 1) parIt.next mutIt.next mutant s
  else (mutant, s)
termination_by 81 - i

/-- Member `GeneticAlgorithm::mutate` (GeneticAlgorithm.cpp:109-131): the offspring and
the generator afterwards. `Puzzle mutant = parent` copies every field. -/
def GeneticAlgorithm.mutate (ga : GeneticAlgorithm) (RAND_MAX : Nat) (parent : Puzzle)
    (chance : ℚ) (s : RandState) : Puzzle × RandState :=
  mutateLoop ga RAND_MAX chance 0 ga.preGen.begin parent.begin parent s

/-- The puzzle read from `classicInput` into a default-constructed puzzle. -/
def classicPuzzle : Puzzle := (Puzzle.extract classicInput Puzzle.new).getD Puzzle.new

/-- The cells of row `r`. -/
def rowCells (r : Nat) : Finset Nat := (Finset.range 81).filter (fun j => j / 9 = r)

/-- The cells of column `c`. -/
def columnCells (c : Nat) : Finset Nat := (Finset.range 81).filter (fun j => j % 9 = c)

/-- The cells of block `b`, blocks numbered row-major `0..8`. -/
def blockCells (b : Nat) : Finset Nat :=
  (Finset.range 81).filter (fun j => j / 27 = b / 3 ∧ j % 9 / 3 = b % 3)

/-- A solved grid (a solution of the classic puzzle), never computed. -/
def solvedPuzzle : Puzzle :=
  ⟨82, 51, gridOf
    "534678912672195348198342567859761423426853791713924856961537284287419635345286179".toList⟩

/-- The penalties cell `i` takes in the four counts of the fitness. -/
def cellPenalty (p : Puzzle) (i : Nat) : Nat :=
  (if p.cell i = '0' then 1 else 0) + (if rowDup p i then 1 else 0)
    + (if columnDup p i then 1 else 0) + (if blockDup p i then 1 else 0)

/-- The number of units (row, column, block) in which cell `i` is not the last cell. -/
def cellWeight (i : Nat) : Nat :=
  (if i % 9 = 8 then 0 else 1) + (if 72 ≤ i then 0 else 1)
    + (if i % 3 = 2 ∧ (i / 9) % 3 = 2 then 0 else 1)

/-- The grid whose 81 cells all hold `d`, never computed. -/
def uniformPuzzle (d : Char) : Puzzle := ⟨82, 81, fun _ => d⟩

/-- Cell `i` has a later cell `j` (row-major order) in the grid with `R i j`. -/
def hasLater (R : Nat → Nat → Prop) (i : Nat) : Prop := ∃ j, j < 81 ∧ (i < j ∧ R i j)

instance hasLaterDecidable (R : Nat → Nat → Prop) [DecidableRel R] (i : Nat) :
    Decidable (hasLater R i) := by
  unfold hasLater; infer_instance

/-- A population of ten grids: nine grids of 81 fives followed by a solved grid. -/
def lastIsBest : Population := ⟨List.replicate 9 (uniformPuzzle '5') ++ [solvedPuzzle], 0⟩

/-- An evolver on the classic puzzle. -/
def classicEvolver : GeneticAlgorithm := ⟨10, 1, classicPuzzle⟩

/-- Default constructor `Population::Population()` (Population.cpp:13-15): an empty
vector. The constructor leaves `bestFitness` uninitialised and nothing reads it before
`deleteWorst` assigns it; 0 stands for that indeterminate value. -/
def Population.new : Population := ⟨[], 0⟩

/-- The loop of `populate` (GeneticAlgorithm.cpp:72-75), entered with `i`. -/
def populateLoop (ga : GeneticAlgorithm) (RAND_MAX : Nat) (i : Nat) (pop : Population)
    (s : RandState) : Population × RandState :=
  if (i : Int) < ga.popSize then
    populateLoop ga RAND_MAX (i + 1)
      ⟨pop.elems ++ [(ga.mutate RAND_MAX ga.preGen 1 s).1], pop.bestFitness⟩
      (ga.mutate RAND_MAX ga.preGen 1 s).2
  else (pop, s)
termination_by (ga.popSize - i).toNat
decreasing_by
  simp_wf
  omega

/-- Member `GeneticAlgorithm::populate` (GeneticAlgorithm.cpp:70-76): the population and
the generator afterwards. -/
def GeneticAlgorithm.populate (ga : GeneticAlgorithm) (RAND_MAX : Nat) (pop : Population)
    (s : RandState) : Population × RandState :=
  populateLoop ga RAND_MAX 0 pop s

/-- The inner loop of `breed` (GeneticAlgorithm.cpp:91-94), entered with `j`. The
iterator `parent` is its offset from `begin()`; `cap` is the capacity of the vector. A
`push_back` at full capacity reallocates and invalidates `parent`, which the loops go on
using: that is `none`, as is a dereference past the end. -/
def breedInner (ga : GeneticAlgorithm) (RAND_MAX cap parent : Nat) (j : Nat)
    (pop : Population) (s : RandState) : Option (Population × RandState) :=
  if j < 9 then
    match pop.elems[parent]? with
    | none => none
    | some par =>
      if pop.elems.length < cap then
        breedInner ga RAND_MAX cap parent (j + 1)
          ⟨pop.elems ++ [(ga.mutate RAND_MAX par MUTANTINESS s).1], pop.bestFitness⟩
          (ga.mutate RAND_MAX par MUTANTINESS s).2
      else none
  else some (pop, s)
termination_by 9 - j

/-- The outer loop of `breed` (GeneticAlgorithm.cpp:89-95), entered with the counter `i`
(it starts at `pop.size()`, read once, and counts down) and the iterator `parent`. -/
def breedLoop (ga : GeneticAlgorithm) (RAND_MAX cap : Nat) :
    Nat → Nat → Population → RandState → Option (Population × RandState)
  | 0, _, pop, s => some (pop, s)
  | i + 1, parent, pop, s =>
    match breedInner ga RAND_MAX cap parent 0 pop s with
    | none => none
    | some r => breedLoop ga RAND_MAX cap i (parent + 1) r.1 r.2

/-- Member `GeneticAlgorithm::breed` (GeneticAlgorithm.cpp:85-96) on a vector of capacity
`cap`: the population and the generator afterwards. -/
def GeneticAlgorithm.breed (ga : GeneticAlgorithm) (RAND_MAX cap : Nat) (pop : Population)
    (s : RandState) : Option (Population × RandState) :=
  breedLoop ga RAND_MAX cap pop.elems.length 0 pop s

/-- A record of one pass through the generation loop of `evolve`: the population
`deleteWorst` was called on, the value it returned, the population it left and the
population after `breed`. The records are a log of the run; the run does not read them. -/
structure Generation where
  before : Population
  best : Int
  truncated : Population
  bred : Population

/-- The generation loop of `evolve` (GeneticAlgorithm.cpp:56-60), entered with `i`,
`success`, the population and the generator: the final population, the generator and the
log of the generations run, or `none` when a call has no defined behaviour. -/
def evolveLoop (ga : GeneticAlgorithm) (RAND_MAX cap : Nat) (i : Nat) (success : Bool)
    (current : Population) (s : RandState) :
    Option (Population × RandState × List Generation) :=
  if (i : Int) < ga.maxGens ∧ success = false then
    match current.deleteWorst with
    | none => none
    | some (best, truncated) =>
      match ga.breed RAND_MAX cap truncated s with
      | none => none
      | some (bred, s2) =>
        match evolveLoop ga RAND_MAX cap (i + 1) (decide (best = IDEAL)) bred s2 with
        | none => none
        | some (last, s3, log) => some (last, s3, ⟨current, best, truncated, bred⟩ :: log)
  else some (current, s, [])
termination_by (ga.maxGens - i).toNat
decreasing_by
  simp_wf
  omega

/-- The body of `evolve` up to its `return` (GeneticAlgorithm.cpp:50-60): the final
population, the generator and the log. `reserve(popSize)` gives the vector the capacity
`popSize`; with a negative `popSize` the requested size exceeds `max_size()` and `reserve`
throws, which is `none`. -/
def GeneticAlgorithm.evolveRun (ga : GeneticAlgorithm) (RAND_MAX : Nat) (s : RandState) :
    Option (Population × RandState × List Generation) :=
  if ga.popSize < 0 then none
  else
    evolveLoop ga RAND_MAX ga.popSize.toNat 0 false
      (ga.populate RAND_MAX Population.new s).1 (ga.populate RAND_MAX Population.new s).2

/-- Member `GeneticAlgorithm::evolve` (GeneticAlgorithm.cpp:48-63): the puzzle returned,
`current.front()`; `none` when the vector is empty or an earlier call was undefined. -/
def GeneticAlgorithm.evolve (ga : GeneticAlgorithm) (RAND_MAX : Nat) (s : RandState) :
    Option Puzzle :=
  match ga.evolveRun RAND_MAX s with
  | none => none
  | some r => r.1.elems.head?

/-- Puzzle `p` carries the clues of template `t`: it has the template's character at
every position where the template's cell is not `'0'`. -/
def agreesOnClues (t p : Puzzle) : Prop :=
  ∀ k : Fin 81, t.content k ≠ '0' → p.content k = t.content k

/-- The number of empty cells of `t` among the positions `i ≤ j < k`. -/
def emptyCount (t : Puzzle) (i k : Nat) : Nat :=
  ∑ j in Finset.Ico i k, if t.cell j = '0' then 1 else 0

/-- The generator `s` after `m` calls of `rand()`. -/
def advance (s : RandState) (m : Nat) : RandState := fun n => s (n + m)

/-- The puzzles `populate` appends in `n` passes of its loop, from generator `s`. -/
def seedList (ga : GeneticAlgorithm) (RAND_MAX : Nat) : Nat → RandState → List Puzzle
  | 0, _ => []
  | n + 1, s =>
    (ga.mutate RAND_MAX ga.preGen 1 s).1
      :: seedList ga RAND_MAX n (ga.mutate RAND_MAX ga.preGen 1 s).2

/-- The offspring list `acc` of a breeding step over the parents `orig`: the `n`-th
puzzle appended is a `mutate` of parent `n / 9` with chance `MUTANTINESS`. -/
def offspringOf (ga : GeneticAlgorithm) (RAND_MAX : Nat) (orig acc : List Puzzle) : Prop :=
  ∀ n, n < acc.length → ∃ par st, orig[n / 9]? = some par ∧
    acc[n]? = some (ga.mutate RAND_MAX par MUTANTINESS st).1

/-- A log of generations that starts from population `cur` and ends with population
`last`: each record is a `deleteWorst` of the population before it followed by a `breed`
of the survivors, and no generation follows one whose `deleteWorst` returned `IDEAL`. -/
def validRun (ga : GeneticAlgorithm) (RAND_MAX cap : Nat) :
    Population → List Generation → Population → Prop
  | cur, [], last => last = cur
  | cur, g :: rest, last =>
    g.before = cur ∧ cur.deleteWorst = some (g.best, g.truncated) ∧
    (∃ s1 s2, ga.breed RAND_MAX cap g.truncated s1 = some (g.bred, s2)) ∧
    (g.best = IDEAL → rest = []) ∧ validRun ga RAND_MAX cap g.bred rest last

/-- The solved grid with its last cell emptied: a template with one empty cell. -/
def oneMissing : Puzzle := solvedPuzzle.store 80 '0'

/-- An evolver on `oneMissing` with `P = 10`, `G = 1`. -/
def missingEvolver : GeneticAlgorithm := ⟨10, 1, oneMissing⟩

/-- A stream of draws: nine times 0, then `32767` for ever. -/
def lateNine : RandState := fun n => if n < 9 then 0 else 32767

/-- Copy constructor `Puzzle::Puzzle(const Puzzle&)` (Puzzle.cpp:213-220): both integer
fields and every cell are copied. -/
def Puzzle.copy (orig : Puzzle) : Puzzle := ⟨orig.fitLevel, orig.notSet, fun i => orig.content i⟩

/-- Assignment `Puzzle::operator=` (Puzzle.cpp:233-242): the object after `this = rhs`. -/
def Puzzle.assign (_this rhs : Puzzle) : Puzzle :=
  ⟨rhs.fitLevel, rhs.notSet, fun i => rhs.content i⟩

/-- The `while` loop of `operator==` (Puzzle.cpp:334-337), entered with `i`: the value of
`i` when the loop is left. The cell is read only when `i < 81` holds. -/
def eqLoop (this rhs : Puzzle) (i : Nat) : Nat :=
  if i < 81 ∧ rhs.cell i = this.cell i then eqLoop this rhs (i + 1) else i
termination_by 81 - i

/-- The comparison `operator==` of puzzles (Puzzle.cpp:330-340). -/
def Puzzle.eq (this rhs : Puzzle) : Bool := decide (eqLoop this rhs 0 = 81)

/-- The comparison `operator!=` of puzzles (Puzzle.cpp:349-352). -/
def Puzzle.ne (this rhs : Puzzle) : Bool := !(this.eq rhs)

/-- The puzzles the public interface can produce: default construction, stream
extraction, copy construction, assignment, `setCell` and `mutate`, applied to puzzles
produced the same way. -/
inductive Constructed : Puzzle → Prop
  | new : Constructed Puzzle.new
  | extract (cin : List Char) (dest p : Puzzle) :
      Constructed dest → Puzzle.extract cin dest = some p → Constructed p
  | copy (orig : Puzzle) : Constructed orig → Constructed orig.copy
  | assign (this rhs : Puzzle) :
      Constructed this → Constructed rhs → Constructed (this.assign rhs)
  | setCell (p : Puzzle) (loc : PuzzleIterator) (item : Char) :
      Constructed p → Constructed (p.setCell loc item)
  | mutate (ga : GeneticAlgorithm) (RAND_MAX : Nat) (parent : Puzzle) (chance : ℚ)
      (s : RandState) :
      Constructed parent → Constructed (ga.mutate RAND_MAX parent chance s).1

/-- The ASCII digits of standard input, in order: what `operator>>` does not discard. -/
def digitsOf (input : List Char) : List Char := input.filter Char.isDigit

/-- The non-empty cells of a unit `U` (a set of cell indices). -/
def unitFilled (p : Puzzle) (U : Finset Nat) : Finset Nat := U.filter (fun i => p.cell i ≠ '0')

/-- The distinct non-empty values held in a unit `U`. -/
def unitValues (p : Puzzle) (U : Finset Nat) : Finset Char := (unitFilled p U).image p.cell

/-- The number of the block of cell `i`, blocks numbered row-major `0..8`. -/
def blockKey (i : Nat) : Nat := (i / 27) * 3 + (i % 9) / 3

/-- Cell `i` is not empty and a later cell with the same `key` (the same unit) holds the
same character. -/
def dupBy (p : Puzzle) (key : Nat → Nat) (i : Nat) : Prop :=
  p.cell i ≠ '0' ∧ ∃ j, j < 81 ∧ (i < j ∧ key i = key j ∧ p.cell j = p.cell i)

instance dupByDecidable (p : Puzzle) (key : Nat → Nat) (i : Nat) : Decidable (dupBy p key i) := by
  unfold dupBy; infer_instance

/-- The indices `temp` at which the `while` loop of `fitNonet` (Puzzle.cpp:519-534),
entered with `temp`, reads `content[temp]`, in order: one read per pass through the loop
body, the last one being the read that leads to `break` when the loop ends that way. -/
def nonetReads (p : Puzzle) (i temp : Nat) : List Nat :=
  if temp - i < 3 ∨ (temp / 9) % 3 > (i / 9) % 3 then
    if p.cell temp = p.cell i then [temp]
    else if temp % 3 > 1 then temp :: nonetReads p i (temp + 7)
    else temp :: nonetReads p i (temp + 1)
  else []
termination_by 27 * ((max (i + 3) (temp - 8) + 26) / 27) + 9 - temp
decreasing_by
  all_goals simp_wf
  all_goals simp only [Nat.max_def]
  all_goals split <;> split <;> omega

/-- The generator before the `n`-th `push_back` (counted from 0) of a breeding step over
the parents `orig` that starts with generator `s`: the calls of `mutate` follow one
another in the order of the appended offspring, each starting from the generator the
call before it left, and offspring `m` is a `mutate` of parent `m / 9`. -/
def breedState (ga : GeneticAlgorithm) (RAND_MAX : Nat) (orig : List Puzzle) (s : RandState) :
    Nat → RandState
  | 0 => s
  | n + 1 =>
    match orig[n / 9]? with
    | some par => (ga.mutate RAND_MAX par MUTANTINESS (breedState ga RAND_MAX orig s n)).2
    | none => breedState ga RAND_MAX orig s n

/-- The offspring list `acc` of a breeding step over the parents `orig` from generator
`s`: the `n`-th puzzle appended is the `mutate` of parent `n / 9` with chance
`MUTANTINESS`, run from the generator `breedState` gives for `n`. -/
def threadedOffspring (ga : GeneticAlgorithm) (RAND_MAX : Nat) (orig : List Puzzle)
    (s : RandState) (acc : List Puzzle) : Prop :=
  ∀ n, n < acc.length → ∃ par, orig[n / 9]? = some par ∧
    acc[n]? = some (ga.mutate RAND_MAX par MUTANTINESS (breedState ga RAND_MAX orig s n)).1

/-- A population of twenty puzzles: a grid of fives, the solved grid, then eighteen more
grids of fives. -/
def twentyPuzzles : Population :=
  ⟨uniformPuzzle '5' :: solvedPuzzle :: List.replicate 18 (uniformPuzzle '5'), 0⟩

/-- An evolver on the grid of fives (a template without empty cell) with `P = 25`,
`G = 2`. -/
def fivesEvolver : GeneticAlgorithm := ⟨25, 2, uniformPuzzle '5'⟩

/-! ## Theorems -/

/-! ## The three passes of the fitness -/

theorem nonetScan_eq_any (p : Puzzle) (i : Nat) :
    ∀ (fuel temp : Nat) (l : List Nat), nonetWalk i fuel temp = some l →
      nonetScan p i temp = l.any (fun t => decide (p.cell t = p.cell i)) := by
  intro fuel
  induction fuel with
  | zero => intro temp l h; simp [nonetWalk] at h
  | succ n ih =>
    intro temp l h
    rw [nonetScan]
    simp only [nonetWalk] at h
    by_cases hc : temp - i < 3 ∨ (temp / 9) % 3 > (i / 9) % 3
    · simp only [hc, if_true] at h ⊢
      cases hw : nonetWalk i n (if temp % 3 > 1 then temp + 7 else temp + 1) with
      | none => simp [hw] at h
      | some l2 =>
        simp only [hw, Option.map_some', Option.some.injEq] at h
        subst h
        have := ih _ _ hw
        by_cases he : p.cell temp = p.cell i
        · simp [he]
        · by_cases h3 : temp % 3 > 1
          · simp only [h3, if_true] at this
            simp [he, h3, this]
          · simp only [h3, if_false] at this
            simp [he, h3, this]
    · simp only [hc, if_false, Option.some.injEq] at h ⊢
      subst h; rfl

set_option maxRecDepth 100000 in
theorem nonetWalk_block : ∀ i, i < 80 →
    nonetWalk i 9 (if i % 3 > 1 then i - 2 + 9 else i + 1)
      = some ((List.range 81).filter (fun j => decide (i < j ∧ sameBlock i j))) := by
  decide

theorem rowScan_iff (p : Puzzle) (i j : Nat) :
    rowScan p i j = true ↔ ∃ k, j ≤ k ∧ k < (i / 9) * 9 + 9 ∧ p.cell k = p.cell i := by
  induction j using rowScan.induct p i with
  | case1 j hj hc =>
    rw [rowScan, if_pos hj, if_pos hc]
    simp only [true_iff]
    exact ⟨j, le_refl _, hj, hc⟩
  | case2 j hj hc ih =>
    rw [rowScan, if_pos hj, if_neg hc, ih]
    constructor
    · rintro ⟨k, h1, h2, h3⟩; exact ⟨k, by omega, h2, h3⟩
    · rintro ⟨k, h1, h2, h3⟩
      refine ⟨k, ?_, h2, h3⟩
      rcases Nat.eq_or_lt_of_le h1 with h | h
      · subst h; exact absurd h3 hc
      · omega
  | case3 j hj =>
    rw [rowScan, if_neg hj]
    constructor
    · intro h; cases h
    · rintro ⟨k, h1, h2, h3⟩; omega

theorem colScan_iff (p : Puzzle) (i j : Nat) :
    colScan p i j = true ↔
      p.cell i ≠ '0' ∧ ∃ m, j + 9 * m < 81 ∧ p.cell (j + 9 * m) = p.cell i := by
  induction j using colScan.induct p i with
  | case1 j hj hc =>
    rw [colScan, if_pos hj, if_pos hc]
    simp only [true_iff]
    exact ⟨hc.2, 0, by omega, by simpa using hc.1⟩
  | case2 j hj hc ih =>
    rw [colScan, if_pos hj, if_neg hc, ih]
    constructor
    · rintro ⟨h0, m, h1, h2⟩
      exact ⟨h0, m + 1, by omega, by rw [← h2]; congr 1; omega⟩
    · rintro ⟨h0, m, h1, h2⟩
      refine ⟨h0, ?_⟩
      cases m with
      | zero => exact absurd ⟨by simpa using h2, h0⟩ hc
      | succ m => exact ⟨m, by omega, by rw [← h2]; congr 1; omega⟩
  | case3 j hj =>
    rw [colScan]; simp only [hj, if_false]
    constructor
    · intro h; cases h
    · rintro ⟨_, m, h1, _⟩; omega

theorem rowScan_start_iff (p : Puzzle) (i : Nat) (hi : i < 81) (h0 : p.cell i ≠ '0') :
    rowScan p i (i + 1) = true ↔ rowDup p i := by
  rw [rowScan_iff]
  unfold rowDup sameRow
  constructor
  · rintro ⟨k, h1, h2, h3⟩
    exact ⟨h0, k, by omega, by omega, by omega, h3⟩
  · rintro ⟨_, j, h1, h2, h3, h4⟩
    exact ⟨j, by omega, by omega, h4⟩

theorem colScan_start_iff (p : Puzzle) (i : Nat) :
    colScan p i (i + 9) = true ↔ columnDup p i := by
  rw [colScan_iff]
  unfold columnDup sameColumn
  constructor
  · rintro ⟨h0, m, h1, h2⟩
    exact ⟨h0, i + 9 + 9 * m, h1, by omega, by omega, h2⟩
  · rintro ⟨h0, j, h1, h2, h3, h4⟩
    refine ⟨h0, (j - i - 9) / 9, ?_, ?_⟩
    · omega
    · rw [← h4]; congr 1; omega

theorem nonetScan_start_iff (p : Puzzle) (i : Nat) (hi : i < 80) (h0 : p.cell i ≠ '0') :
    nonetScan p i (if i % 3 > 1 then i - 2 + 9 else i + 1) = true ↔ blockDup p i := by
  rw [nonetScan_eq_any p i 9 _ _ (nonetWalk_block i hi)]
  unfold blockDup
  simp only [List.any_eq_true, List.mem_filter, List.mem_range, decide_eq_true_eq]
  constructor
  · rintro ⟨t, ⟨h1, h2, h3⟩, h4⟩
    exact ⟨h0, t, h1, h2, h3, h4⟩
  · rintro ⟨_, j, h1, h2, h3, h4⟩
    exact ⟨j, ⟨h1, h2, h3⟩, h4⟩

theorem wrapInt_of_range (x : Int) (h1 : INT_MIN ≤ x) (h2 : x ≤ INT_MAX) : wrapInt x = x := by
  unfold wrapInt
  change (-2147483648 : Int) ≤ x at h1
  change x ≤ (2147483647 : Int) at h2
  omega

theorem wrapInt_range (x : Int) : INT_MIN ≤ wrapInt x ∧ wrapInt x ≤ INT_MAX := by
  unfold wrapInt
  show (-2147483648 : Int) ≤ _ ∧ _ ≤ (2147483647 : Int)
  omega

theorem wrapInt_sub (a b : Int) : wrapInt (wrapInt a - b) = wrapInt (a - b) := by
  unfold wrapInt
  omega

theorem fitRowLoop_wrap (p : Puzzle) (i : Nat) (q : Int) (hq : INT_MIN ≤ q ∧ q ≤ INT_MAX) :
    fitRowLoop p i q
      = wrapInt (q - ∑ k in Finset.Ico i 81,
          (if p.cell k = '0' ∨ rowDup p k then (1 : Int) else 0)) := by
  induction i, q using fitRowLoop.induct p with
  | case1 i q hi hc ih =>
    rw [fitRowLoop, if_pos hi, if_pos hc, ih (wrapInt_range _),
      Finset.sum_eq_sum_Ico_succ_bot hi, wrapInt_sub]
    simp only [hc, true_or, if_true]
    congr 1; ring
  | case2 i q hi hc hs ih =>
    rw [fitRowLoop, if_pos hi, if_neg hc, if_pos hs, ih (wrapInt_range _),
      Finset.sum_eq_sum_Ico_succ_bot hi, wrapInt_sub]
    have := (rowScan_start_iff p i hi hc).1 hs
    simp only [this, or_true, if_true]
    congr 1; ring
  | case3 i q hi hc hs ih =>
    rw [fitRowLoop, if_pos hi, if_neg hc, if_neg hs, ih hq, Finset.sum_eq_sum_Ico_succ_bot hi]
    have : ¬ rowDup p i := fun h => hs ((rowScan_start_iff p i hi hc).2 h)
    simp only [this, hc, or_self, if_false]
    congr 1; ring
  | case4 i q hi =>
    rw [fitRowLoop, if_neg hi, Finset.Ico_eq_empty (by omega), Finset.sum_empty, sub_zero,
      wrapInt_of_range q hq.1 hq.2]

theorem fitColumnLoop_wrap (p : Puzzle) (i : Nat) (q : Int)
    (hq : INT_MIN ≤ q ∧ q ≤ INT_MAX) :
    fitColumnLoop p i q
      = wrapInt (q - ∑ k in Finset.Ico i 72, (if columnDup p k then (1 : Int) else 0)) := by
  induction i, q using fitColumnLoop.induct p with
  | case1 i q hi hs ih =>
    rw [fitColumnLoop, if_pos hi, if_pos hs, ih (wrapInt_range _),
      Finset.sum_eq_sum_Ico_succ_bot hi, wrapInt_sub]
    have := (colScan_start_iff p i).1 hs
    simp only [this, if_true]
    congr 1; ring
  | case2 i q hi hs ih =>
    rw [fitColumnLoop, if_pos hi, if_neg hs, ih hq, Finset.sum_eq_sum_Ico_succ_bot hi]
    have : ¬ columnDup p i := fun h => hs ((colScan_start_iff p i).2 h)
    simp only [this, if_false]
    congr 1; ring
  | case3 i q hi =>
    rw [fitColumnLoop, if_neg hi, Finset.Ico_eq_empty (by omega), Finset.sum_empty, sub_zero,
      wrapInt_of_range q hq.1 hq.2]

theorem fitNonetLoop_wrap (p : Puzzle) (i : Nat) (q : Int)
    (hq : INT_MIN ≤ q ∧ q ≤ INT_MAX) :
    fitNonetLoop p i q
      = wrapInt (q - ∑ k in Finset.Ico i 80, (if blockDup p k then (1 : Int) else 0)) := by
  induction i, q using fitNonetLoop.induct p with
  | case1 i q hi hc hs ih =>
    simp only [dite_eq_ite] at hs
    rw [fitNonetLoop, if_pos hi, if_pos hc, if_pos hs, ih (wrapInt_range _),
      Finset.sum_eq_sum_Ico_succ_bot hi, wrapInt_sub]
    have := (nonetScan_start_iff p i hi hc).1 hs
    simp only [this, if_true]
    congr 1; ring
  | case2 i q hi hc hs ih =>
    simp only [dite_eq_ite] at hs
    rw [fitNonetLoop, if_pos hi, if_pos hc, if_neg hs, ih hq, Finset.sum_eq_sum_Ico_succ_bot hi]
    have : ¬ blockDup p i := fun h => hs ((nonetScan_start_iff p i hi hc).2 h)
    simp only [this, if_false]
    congr 1; ring
  | case3 i q hi hc ih =>
    rw [fitNonetLoop, if_pos hi, if_neg hc, ih hq, Finset.sum_eq_sum_Ico_succ_bot hi]
    have : ¬ blockDup p i := fun h => hc h.1
    simp only [this, if_false]
    congr 1; ring
  | case4 i q hi =>
    rw [fitNonetLoop, if_neg hi, Finset.Ico_eq_empty (by omega), Finset.sum_empty, sub_zero,
      wrapInt_of_range q hq.1 hq.2]

theorem sum_ite_eq_card (P : Nat → Prop) [DecidablePred P] (n : Nat) :
    (∑ k in Finset.Ico 0 n, (if P k then (1 : Int) else 0))
      = (((Finset.range n).filter P).card : Int) := by
  rw [Finset.card_filter, Finset.range_eq_Ico]
  push_cast
  rfl

theorem fitRow_wrapped (p : Puzzle) (q : Int) (hq : INT_MIN ≤ q ∧ q ≤ INT_MAX) :
    p.fitRow q = wrapInt (q - ((emptyCells p).card : Int) - ((rowDupCells p).card : Int)) := by
  unfold Puzzle.fitRow emptyCells rowDupCells
  rw [fitRowLoop_wrap p 0 q hq, ← sum_ite_eq_card, ← sum_ite_eq_card, sub_sub,
    ← Finset.sum_add_distrib]
  congr 2
  apply Finset.sum_congr rfl
  intro k _
  by_cases h0 : p.cell k = '0'
  · have : ¬ rowDup p k := fun h => h.1 h0
    simp [h0, this]
  · by_cases h1 : rowDup p k <;> simp [h0, h1]

theorem columnDup_lt (p : Puzzle) (i : Nat) (h : columnDup p i) : i < 72 := by
  obtain ⟨_, j, h1, h2, h3, _⟩ := h
  unfold sameColumn at h3
  omega

theorem blockDup_lt (p : Puzzle) (i : Nat) (h : blockDup p i) : i < 80 := by
  obtain ⟨_, j, h1, h2, _, _⟩ := h
  omega

theorem fitColumn_wrapped (p : Puzzle) (q : Int) (hq : INT_MIN ≤ q ∧ q ≤ INT_MAX) :
    p.fitColumn q = wrapInt (q - ((columnDupCells p).card : Int)) := by
  unfold Puzzle.fitColumn columnDupCells
  rw [fitColumnLoop_wrap p 0 q hq, ← sum_ite_eq_card,
    ← Finset.sum_Ico_consecutive _ (Nat.zero_le 72) (by decide : 72 ≤ 81)]
  have : (∑ k in Finset.Ico 72 81, (if columnDup p k then (1 : Int) else 0)) = 0 := by
    apply Finset.sum_eq_zero
    intro k hk
    have hk2 := (Finset.mem_Ico.1 hk).1
    have : ¬ columnDup p k := fun h => by have := columnDup_lt p k h; omega
    simp [this]
  rw [this, add_zero]

theorem fitNonet_wrapped (p : Puzzle) (q : Int) (hq : INT_MIN ≤ q ∧ q ≤ INT_MAX) :
    p.fitNonet q = wrapInt (q - ((blockDupCells p).card : Int)) := by
  unfold Puzzle.fitNonet blockDupCells
  rw [fitNonetLoop_wrap p 0 q hq, ← sum_ite_eq_card,
    ← Finset.sum_Ico_consecutive _ (Nat.zero_le 80) (by decide : 80 ≤ 81)]
  have : (∑ k in Finset.Ico 80 81, (if blockDup p k then (1 : Int) else 0)) = 0 := by
    apply Finset.sum_eq_zero
    intro k hk
    have hk2 := (Finset.mem_Ico.1 hk).1
    have : ¬ blockDup p k := fun h => by have := blockDup_lt p k h; omega
    simp [this]
  rw [this, add_zero]

theorem fitRow_closed (p : Puzzle) (q : Int)
    (hlo : INT_MIN ≤ q - ((emptyCells p).card : Int) - ((rowDupCells p).card : Int))
    (hhi : q ≤ INT_MAX) :
    p.fitRow q = q - ((emptyCells p).card : Int) - ((rowDupCells p).card : Int) := by
  rw [fitRow_wrapped p q ⟨by omega, hhi⟩]
  exact wrapInt_of_range _ hlo (by omega)

theorem fitColumn_closed (p : Puzzle) (q : Int)
    (hlo : INT_MIN ≤ q - ((columnDupCells p).card : Int)) (hhi : q ≤ INT_MAX) :
    p.fitColumn q = q - ((columnDupCells p).card : Int) := by
  rw [fitColumn_wrapped p q ⟨by omega, hhi⟩]
  exact wrapInt_of_range _ hlo (by omega)

theorem fitNonet_closed (p : Puzzle) (q : Int)
    (hlo : INT_MIN ≤ q - ((blockDupCells p).card : Int)) (hhi : q ≤ INT_MAX) :
    p.fitNonet q = q - ((blockDupCells p).card : Int) := by
  rw [fitNonet_wrapped p q ⟨by omega, hhi⟩]
  exact wrapInt_of_range _ hlo (by omega)

theorem card_cells_le (P : Nat → Prop) [DecidablePred P] :
    ((Finset.range 81).filter P).card ≤ 81 :=
  (Finset.card_filter_le _ _).trans (by rw [Finset.card_range])

theorem fitness_closed (p : Puzzle) (h : 81 < p.fitLevel) :
    p.fitness = 81 - ((emptyCells p).card : Int) - ((rowDupCells p).card : Int)
      - ((columnDupCells p).card : Int) - ((blockDupCells p).card : Int) := by
  have hE : (emptyCells p).card ≤ 81 := card_cells_le _
  have hR : (rowDupCells p).card ≤ 81 := card_cells_le _
  have hC : (columnDupCells p).card ≤ 81 := card_cells_le _
  have hB : (blockDupCells p).card ≤ 81 := card_cells_le _
  unfold Puzzle.fitness
  have eR := fitRow_closed p 81 (by show (-2147483648 : Int) ≤ _; omega)
    (by show (81 : Int) ≤ 2147483647; omega)
  rw [if_neg (by omega), eR]
  have eC := fitColumn_closed p
    (81 - ((emptyCells p).card : Int) - ((rowDupCells p).card : Int))
    (by show (-2147483648 : Int) ≤ _; omega) (by show _ ≤ (2147483647 : Int); omega)
  rw [eC]
  exact fitNonet_closed p _ (by show (-2147483648 : Int) ≤ _; omega)
    (by show _ ≤ (2147483647 : Int); omega)

/-- Claim C1, with the bound the 32-bit score needs. Block pass: for every grid and every
starting score `q` of type `int` for which `q - B` is not below `INT_MIN` (no decrement
overflows), `fitNonet q` is `q - B`, where `B` is the number of non-empty cells that have
a later cell (row-major order) of their own 3x3 block holding the same character; a cell
counts once, empty cells never. -/
theorem fitNonet_counts_block_duplicates (p : Puzzle) (q : Int)
    (hlo : INT_MIN ≤ q - ((blockDupCells p).card : Int)) (hhi : q ≤ INT_MAX) :
    p.fitNonet q = q - ((blockDupCells p).card : Int) :=
  fitNonet_closed p q hlo hhi

set_option maxRecDepth 1000000 in
theorem fives_block_card : (blockDupCells (uniformPuzzle '5')).card = 72 := by decide

set_option maxRecDepth 1000000 in
theorem fives_column_card : (columnDupCells (uniformPuzzle '5')).card = 72 := by decide

set_option maxRecDepth 1000000 in
theorem new_row_cards :
    (emptyCells Puzzle.new).card = 81 ∧ (rowDupCells Puzzle.new).card = 0 := by
  constructor <;> decide

/-- Witness for claim C1: the grid of fives, whose 72 cells outside the last cell of each
block have a later duplicate, and the least starting score the bound admits,
`INT_MIN + 72`. -/
theorem fitNonet_counts_block_duplicates_witness :
    (INT_MIN ≤ (-2147483576 : Int) - ((blockDupCells (uniformPuzzle '5')).card : Int) ∧
      (-2147483576 : Int) ≤ INT_MAX) ∧
    (uniformPuzzle '5').fitNonet (-2147483576)
      = -2147483576 - ((blockDupCells (uniformPuzzle '5')).card : Int) :=
  ⟨⟨by rw [fives_block_card]; decide, by decide⟩,
    fitNonet_counts_block_duplicates (uniformPuzzle '5') (-2147483576)
      (by rw [fives_block_card]; decide) (by decide)⟩

/-- Claim C1 as stated fails for a starting score near `INT_MIN`: on the grid of fives,
where `B = 72`, `fitNonet (INT_MIN + 50)` is `2147483626`, not `INT_MIN + 50 - 72`. -/
theorem fitNonet_overflow :
    (blockDupCells (uniformPuzzle '5')).card = 72 ∧
    (uniformPuzzle '5').fitNonet (-2147483598) = 2147483626 ∧
    (uniformPuzzle '5').fitNonet (-2147483598)
      ≠ -2147483598 - ((blockDupCells (uniformPuzzle '5')).card : Int) := by
  have h : (uniformPuzzle '5').fitNonet (-2147483598) = 2147483626 := by
    rw [fitNonet_wrapped _ _ ⟨by decide, by decide⟩, fives_block_card]
    decide
  refine ⟨fives_block_card, h, ?_⟩
  rw [h, fives_block_card]
  decide

/-- Claim C2, with the bound the 32-bit score needs. Row pass: for every grid and every
starting score `q` of type `int` for which `q - E - R` is not below `INT_MIN` (no
decrement overflows), `fitRow q` is `q - E - R`, where `E` is the number of empty cells
and `R` the number of non-empty cells that have a later cell of their row holding the
same character; a cell counts at most once. -/
theorem fitRow_counts_empty_and_row_duplicates (p : Puzzle) (q : Int)
    (hlo : INT_MIN ≤ q - ((emptyCells p).card : Int) - ((rowDupCells p).card : Int))
    (hhi : q ≤ INT_MAX) :
    p.fitRow q = q - ((emptyCells p).card : Int) - ((rowDupCells p).card : Int) :=
  fitRow_closed p q hlo hhi

/-- Witness for claim C2: the empty grid (81 empty cells) and the least starting score
the bound admits, `INT_MIN + 81`. -/
theorem fitRow_counts_empty_and_row_duplicates_witness :
    (INT_MIN ≤ (-2147483567 : Int) - ((emptyCells Puzzle.new).card : Int)
        - ((rowDupCells Puzzle.new).card : Int) ∧
      (-2147483567 : Int) ≤ INT_MAX) ∧
    Puzzle.new.fitRow (-2147483567)
      = -2147483567 - ((emptyCells Puzzle.new).card : Int)
        - ((rowDupCells Puzzle.new).card : Int) :=
  ⟨⟨by rw [new_row_cards.1, new_row_cards.2]; decide, by decide⟩,
    fitRow_counts_empty_and_row_duplicates Puzzle.new (-2147483567)
      (by rw [new_row_cards.1, new_row_cards.2]; decide) (by decide)⟩

/-- Claim C2 as stated fails for a starting score near `INT_MIN`: on the empty grid,
where `E = 81` and `R = 0`, `fitRow INT_MIN` is `2147483567`, not `INT_MIN - 81`. -/
theorem fitRow_overflow :
    (emptyCells Puzzle.new).card = 81 ∧ (rowDupCells Puzzle.new).card = 0 ∧
    Puzzle.new.fitRow INT_MIN = 2147483567 ∧
    Puzzle.new.fitRow INT_MIN
      ≠ INT_MIN - ((emptyCells Puzzle.new).card : Int) - ((rowDupCells Puzzle.new).card : Int) := by
  have h : Puzzle.new.fitRow INT_MIN = 2147483567 := by
    rw [fitRow_wrapped _ _ ⟨by decide, by decide⟩, new_row_cards.1, new_row_cards.2]
    decide
  refine ⟨new_row_cards.1, new_row_cards.2, h, ?_⟩
  rw [h, new_row_cards.1, new_row_cards.2]
  decide

/-- Claim C3, with the bound the 32-bit score needs. Column pass: for every grid and
every starting score `q` of type `int` for which `q - C` is not below `INT_MIN` (no
decrement overflows), `fitColumn q` is `q - C`, where `C` is the number of non-empty
cells that have a cell below them in their column holding the same character; such a
cell is never in the last row, and a cell counts at most once. -/
theorem fitColumn_counts_column_duplicates (p : Puzzle) (q : Int)
    (hlo : INT_MIN ≤ q - ((columnDupCells p).card : Int)) (hhi : q ≤ INT_MAX) :
    p.fitColumn q = q - ((columnDupCells p).card : Int) ∧
      ∀ i ∈ columnDupCells p, i < 72 := by
  refine ⟨fitColumn_closed p q hlo hhi, ?_⟩
  intro i hi
  exact columnDup_lt p i (Finset.mem_filter.1 hi).2

/-- Witness for claim C3: the grid of fives, whose 72 cells above the last row have a
duplicate below them, and the least starting score the bound admits, `INT_MIN + 72`. -/
theorem fitColumn_counts_column_duplicates_witness :
    (INT_MIN ≤ (-2147483576 : Int) - ((columnDupCells (uniformPuzzle '5')).card : Int) ∧
      (-2147483576 : Int) ≤ INT_MAX) ∧
    (uniformPuzzle '5').fitColumn (-2147483576)
      = -2147483576 - ((columnDupCells (uniformPuzzle '5')).card : Int) :=
  ⟨⟨by rw [fives_column_card]; decide, by decide⟩,
    (fitColumn_counts_column_duplicates (uniformPuzzle '5') (-2147483576)
      (by rw [fives_column_card]; decide) (by decide)).1⟩

/-- Claim C3 as stated fails for a starting score near `INT_MIN`: on the grid of fives,
where `C = 72`, `fitColumn (INT_MIN + 50)` is `2147483626`, not `INT_MIN + 50 - 72`. -/
theorem fitColumn_overflow :
    (columnDupCells (uniformPuzzle '5')).card = 72 ∧
    (uniformPuzzle '5').fitColumn (-2147483598) = 2147483626 ∧
    (uniformPuzzle '5').fitColumn (-2147483598)
      ≠ -2147483598 - ((columnDupCells (uniformPuzzle '5')).card : Int) := by
  have h : (uniformPuzzle '5').fitColumn (-2147483598) = 2147483626 := by
    rw [fitColumn_wrapped _ _ ⟨by decide, by decide⟩, fives_column_card]
    decide
  refine ⟨fives_column_card, h, ?_⟩
  rw [h, fives_column_card]
  decide

set_option maxRecDepth 1000000 in
theorem extract_classic : Puzzle.extract classicInput Puzzle.new = some classicPuzzle := by
  rfl

set_option maxRecDepth 1000000 in
theorem classic_counts :
    (emptyCells classicPuzzle).card = 51 ∧ (rowDupCells classicPuzzle).card = 0 ∧
      (columnDupCells classicPuzzle).card = 0 ∧ (blockDupCells classicPuzzle).card = 0 := by
  refine ⟨?_, ?_, ?_, ?_⟩ <;> decide

theorem classic_fitLevel : (81 : Int) < classicPuzzle.fitLevel := by decide

theorem classic_fitness_value : classicPuzzle.fitness = 30 := by
  rw [fitness_closed _ classic_fitLevel]
  obtain ⟨h1, h2, h3, h4⟩ := classic_counts
  rw [h1, h2, h3, h4]; rfl

/-- Claim C6, as the code has it: the puzzle read from the classic row-major string has 51
empty cells and no duplicate among its 30 clues, its fitness is 81 - 51 = 30, and a second
query returns 30 again. -/
theorem classic_fitness_is_30 :
    ∃ p, Puzzle.extract classicInput Puzzle.new = some p ∧
      (emptyCells p).card = 51 ∧ (rowDupCells p).card = 0 ∧
      (columnDupCells p).card = 0 ∧ (blockDupCells p).card = 0 ∧
      p.fitnessCall.1 = 30 ∧ p.fitnessCall.2.fitnessCall.1 = 30 := by
  obtain ⟨h1, h2, h3, h4⟩ := classic_counts
  exact ⟨classicPuzzle, extract_classic, h1, h2, h3, h4, classic_fitness_value,
    classic_fitness_value⟩

/-- Claim C6 as stated fails: the fitness of the puzzle read from the classic string is
not 51. -/
theorem classic_fitness_ne_51 :
    ∃ p, Puzzle.extract classicInput Puzzle.new = some p ∧ p.fitness ≠ 51 := by
  refine ⟨classicPuzzle, extract_classic, ?_⟩
  rw [classic_fitness_value]; decide

/-! ## Perfect fitness and the range of the fitness -/

theorem cell_eq_content (p : Puzzle) (i : Nat) (h : i < 81) : p.cell i = p.content ⟨i, h⟩ := by
  unfold Puzzle.cell; rw [dif_pos h]

theorem char_le_iff (a b : Char) : a ≤ b ↔ a.toNat ≤ b.toNat := Iff.rfl

theorem char_toNat_inj (a b : Char) (h : a.toNat = b.toNat) : a = b := by
  rw [← Char.ofNat_toNat a, ← Char.ofNat_toNat b, h]

theorem sameRow_symm {i j : Nat} (h : sameRow i j) : sameRow j i := Eq.symm h

theorem sameColumn_symm {i j : Nat} (h : sameColumn i j) : sameColumn j i := Eq.symm h

theorem sameBlock_symm {i j : Nat} (h : sameBlock i j) : sameBlock j i := ⟨h.1.symm, h.2.symm⟩

theorem fitness_eq_81_iff_empty (p : Puzzle) (h : 81 < p.fitLevel) :
    p.fitness = 81 ↔ (emptyCells p = ∅ ∧ rowDupCells p = ∅ ∧ columnDupCells p = ∅
      ∧ blockDupCells p = ∅) := by
  rw [fitness_closed p h]
  simp only [← Finset.card_eq_zero]
  omega

theorem isSolution_iff_empty (p : Puzzle) :
    p.isSolution ↔ (emptyCells p = ∅ ∧ rowDupCells p = ∅ ∧ columnDupCells p = ∅
      ∧ blockDupCells p = ∅) := by
  unfold emptyCells rowDupCells columnDupCells blockDupCells
  simp only [Finset.filter_eq_empty_iff, Finset.mem_range]
  constructor
  · rintro ⟨h0, hd⟩
    refine ⟨fun i hi => h0 i hi, ?_, ?_, ?_⟩
    · rintro i hi ⟨_, j, hj, hij, hs, he⟩
      exact hd i j hi hj (by omega) (Or.inl hs) he.symm
    · rintro i hi ⟨_, j, hj, hij, hs, he⟩
      exact hd i j hi hj (by omega) (Or.inr (Or.inl hs)) he.symm
    · rintro i hi ⟨_, j, hj, hij, hs, he⟩
      exact hd i j hi hj (by omega) (Or.inr (Or.inr hs)) he.symm
  · rintro ⟨h0, hr, hc, hb⟩
    refine ⟨fun i hi => h0 hi, ?_⟩
    intro i j hi hj hne hs he
    rcases Nat.lt_or_gt_of_ne hne with hlt | hlt
    · rcases hs with hs | hs | hs
      · exact hr hi ⟨h0 hi, j, hj, hlt, hs, he.symm⟩
      · exact hc hi ⟨h0 hi, j, hj, hlt, hs, he.symm⟩
      · exact hb hi ⟨h0 hi, j, hj, hlt, hs, he.symm⟩
    · rcases hs with hs | hs | hs
      · exact hr hj ⟨h0 hj, i, hi, hlt, sameRow_symm hs, he⟩
      · exact hc hj ⟨h0 hj, i, hi, hlt, sameColumn_symm hs, he⟩
      · exact hb hj ⟨h0 hj, i, hi, hlt, sameBlock_symm hs, he⟩

theorem unit_exactly_once (p : Puzzle) (U : Finset Nat) (hU : U.card = 9)
    (hr : ∀ j ∈ U, '1' ≤ p.cell j ∧ p.cell j ≤ '9')
    (hinj : ∀ i ∈ U, ∀ j ∈ U, p.cell i = p.cell j → i = j)
    (d : Char) (hd1 : '1' ≤ d) (hd9 : d ≤ '9') :
    ∃! j, j ∈ U ∧ p.cell j = d := by
  have hsub : U.image (fun j => (p.cell j).toNat) ⊆ Finset.Icc 49 57 := by
    intro n hn
    obtain ⟨j, hj, rfl⟩ := Finset.mem_image.1 hn
    have := hr j hj
    rw [char_le_iff, char_le_iff] at this
    exact Finset.mem_Icc.2 this
  have hcard : (U.image (fun j => (p.cell j).toNat)).card = 9 := by
    rw [Finset.card_image_of_injOn, hU]
    intro i hi j hj hij
    exact hinj i hi j hj (char_toNat_inj _ _ hij)
  have heq : U.image (fun j => (p.cell j).toNat) = Finset.Icc 49 57 :=
    Finset.eq_of_subset_of_card_le hsub (by rw [hcard]; decide)
  have hd : d.toNat ∈ U.image (fun j => (p.cell j).toNat) := by
    rw [heq]
    rw [char_le_iff] at hd1 hd9
    exact Finset.mem_Icc.2 ⟨hd1, hd9⟩
  obtain ⟨j, hj, hjd⟩ := Finset.mem_image.1 hd
  have hjd2 : p.cell j = d := char_toNat_inj _ _ hjd
  refine ⟨j, ⟨hj, hjd2⟩, ?_⟩
  rintro k ⟨hk, hkd⟩
  exact hinj k hk j hj (by rw [hkd, hjd2])

theorem solution_cell_range (p : Puzzle)
    (hdig : ∀ i : Fin 81, '0' ≤ p.content i ∧ p.content i ≤ '9') (hs : p.isSolution)
    (j : Nat) (hj : j < 81) : '1' ≤ p.cell j ∧ p.cell j ≤ '9' := by
  have h0 := hs.1 j hj
  rw [cell_eq_content p j hj] at h0 ⊢
  obtain ⟨h1, h2⟩ := hdig ⟨j, hj⟩
  refine ⟨?_, h2⟩
  rw [char_le_iff] at h1 ⊢
  have hne : (p.content ⟨j, hj⟩).toNat ≠ ('0' : Char).toNat := fun h => h0 (char_toNat_inj _ _ h)
  have e0 : ('0' : Char).toNat = 48 := rfl
  have e1 : ('1' : Char).toNat = 49 := rfl
  omega

theorem rowCells_card : ∀ r, r < 9 → (rowCells r).card = 9 := by decide

theorem columnCells_card : ∀ c, c < 9 → (columnCells c).card = 9 := by decide

theorem blockCells_card : ∀ b, b < 9 → (blockCells b).card = 9 := by decide

/-- Claim C4. For a puzzle whose cells are all in `'0'..'9'` and whose fitness cache is
not computed (`fitLevel` above 81, as the sentinel 82 is), `fitness() = 81` exactly when
the grid is a valid Sudoku solution: no cell is `'0'` and no two distinct cells of one
row, column or block hold the same character; and then every row, column and block holds
each of `'1'..'9'` exactly once. -/
theorem fitness_81_iff_solution (p : Puzzle)
    (hdig : ∀ i : Fin 81, '0' ≤ p.content i ∧ p.content i ≤ '9')
    (hcache : 81 < p.fitLevel) :
    (p.fitness = 81 ↔ p.isSolution) ∧
    (p.isSolution → ∀ u, u < 9 → ∀ d : Char, '1' ≤ d → d ≤ '9' →
      (∃! j, j ∈ rowCells u ∧ p.cell j = d) ∧
      (∃! j, j ∈ columnCells u ∧ p.cell j = d) ∧
      (∃! j, j ∈ blockCells u ∧ p.cell j = d)) := by
  refine ⟨by rw [fitness_eq_81_iff_empty p hcache, isSolution_iff_empty], ?_⟩
  intro hs u hu d hd1 hd9
  have hinj : ∀ (U : Finset Nat), (∀ i ∈ U, i < 81) →
      (∀ i ∈ U, ∀ j ∈ U, sameRow i j ∨ sameColumn i j ∨ sameBlock i j) →
      ∀ i ∈ U, ∀ j ∈ U, p.cell i = p.cell j → i = j := by
    intro U hlt hsame i hi j hj he
    by_contra hne
    exact hs.2 i j (hlt i hi) (hlt j hj) hne (hsame i hi j hj) he
  refine ⟨?_, ?_, ?_⟩
  · apply unit_exactly_once p _ (rowCells_card u hu) _ _ d hd1 hd9
    · intro j hj
      exact solution_cell_range p hdig hs j (Finset.mem_range.1 (Finset.mem_filter.1 hj).1)
    · apply hinj
      · intro i hi; exact Finset.mem_range.1 (Finset.mem_filter.1 hi).1
      · intro i hi j hj
        have h1 := (Finset.mem_filter.1 hi).2
        have h2 := (Finset.mem_filter.1 hj).2
        exact Or.inl (show i / 9 = j / 9 by rw [h1, h2])
  · apply unit_exactly_once p _ (columnCells_card u hu) _ _ d hd1 hd9
    · intro j hj
      exact solution_cell_range p hdig hs j (Finset.mem_range.1 (Finset.mem_filter.1 hj).1)
    · apply hinj
      · intro i hi; exact Finset.mem_range.1 (Finset.mem_filter.1 hi).1
      · intro i hi j hj
        have h1 := (Finset.mem_filter.1 hi).2
        have h2 := (Finset.mem_filter.1 hj).2
        exact Or.inr (Or.inl (show i % 9 = j % 9 by rw [h1, h2]))
  · apply unit_exactly_once p _ (blockCells_card u hu) _ _ d hd1 hd9
    · intro j hj
      exact solution_cell_range p hdig hs j (Finset.mem_range.1 (Finset.mem_filter.1 hj).1)
    · apply hinj
      · intro i hi; exact Finset.mem_range.1 (Finset.mem_filter.1 hi).1
      · intro i hi j hj
        have h1 := (Finset.mem_filter.1 hi).2
        have h2 := (Finset.mem_filter.1 hj).2
        exact Or.inr (Or.inr ⟨by rw [h1.1, h2.1], by rw [h1.2, h2.2]⟩)

set_option maxRecDepth 1000000 in
theorem solved_counts :
    (emptyCells solvedPuzzle).card = 0 ∧ (rowDupCells solvedPuzzle).card = 0 ∧
      (columnDupCells solvedPuzzle).card = 0 ∧ (blockDupCells solvedPuzzle).card = 0 := by
  refine ⟨?_, ?_, ?_, ?_⟩ <;> decide

theorem solved_fitness : solvedPuzzle.fitness = 81 := by
  rw [fitness_closed _ (by decide)]
  obtain ⟨h1, h2, h3, h4⟩ := solved_counts
  rw [h1, h2, h3, h4]; rfl

set_option maxRecDepth 1000000 in
/-- Witness for claim C4: a solved grid meets the hypotheses, has fitness 81 and is a
solution. -/
theorem fitness_81_iff_solution_witness :
    (∀ i : Fin 81, '0' ≤ solvedPuzzle.content i ∧ solvedPuzzle.content i ≤ '9') ∧
    81 < solvedPuzzle.fitLevel ∧ solvedPuzzle.fitness = 81 ∧ solvedPuzzle.isSolution :=
  ⟨by decide, by decide, solved_fitness,
    (fitness_81_iff_solution solvedPuzzle (by decide) (by decide)).1.1 solved_fitness⟩

theorem rowDup_not_last (p : Puzzle) (i : Nat) (h : rowDup p i) : i % 9 ≠ 8 := by
  obtain ⟨_, j, h1, h2, h3, _⟩ := h
  unfold sameRow at h3
  omega

theorem blockDup_not_last (p : Puzzle) (i : Nat) (h : blockDup p i) :
    ¬ (i % 3 = 2 ∧ (i / 9) % 3 = 2) := by
  obtain ⟨_, j, h1, h2, h3, _⟩ := h
  unfold sameBlock at h3
  omega

theorem cellPenalty_le_weight (p : Puzzle) (i : Nat) (hi : i < 79) :
    cellPenalty p i ≤ cellWeight i := by
  unfold cellPenalty cellWeight
  by_cases he : p.cell i = '0'
  · have h1 : ¬ rowDup p i := fun h => h.1 he
    have h2 : ¬ columnDup p i := fun h => h.1 he
    have h3 : ¬ blockDup p i := fun h => h.1 he
    simp only [he, h1, h2, h3, if_true, if_false]
    split_ifs <;> omega
  · have hr : (if rowDup p i then 1 else 0) ≤ (if i % 9 = 8 then 0 else 1) := by
      by_cases h : rowDup p i
      · simp [h, rowDup_not_last p i h]
      · simp only [h, if_false]; exact Nat.zero_le _
    have hc : (if columnDup p i then 1 else 0) ≤ (if 72 ≤ i then 0 else 1) := by
      by_cases h : columnDup p i
      · have := columnDup_lt p i h
        rw [if_pos h, if_neg (by omega)]
      · simp only [h, if_false]; exact Nat.zero_le _
    have hb : (if blockDup p i then 1 else 0)
        ≤ (if i % 3 = 2 ∧ (i / 9) % 3 = 2 then 0 else 1) := by
      by_cases h : blockDup p i
      · simp only [h, if_true, blockDup_not_last p i h, if_false]; exact le_refl _
      · simp only [h, if_false]; exact Nat.zero_le _
    simp only [he, if_false]
    omega

theorem cellPenalty_last_two (p : Puzzle) : cellPenalty p 79 + cellPenalty p 80 ≤ 2 := by
  have c79 : ¬ columnDup p 79 := fun h => by have := columnDup_lt p 79 h; omega
  have c80 : ¬ columnDup p 80 := fun h => by have := columnDup_lt p 80 h; omega
  have b80 : ¬ blockDup p 80 := fun h => by have := blockDup_lt p 80 h; omega
  have r80 : ¬ rowDup p 80 := fun h => by
    obtain ⟨_, j, h1, h2, _, _⟩ := h; omega
  unfold cellPenalty
  simp only [c79, c80, b80, r80, if_false]
  by_cases e80 : p.cell 80 = '0'
  · have r79 : ¬ rowDup p 79 := fun h => by
      obtain ⟨h0, j, h1, h2, _, h4⟩ := h
      have : j = 80 := by omega
      subst this
      exact h0 (h4 ▸ e80)
    simp only [e80, r79, if_true, if_false]
    by_cases e79 : p.cell 79 = '0'
    · have b79 : ¬ blockDup p 79 := fun h => h.1 e79
      simp [e79, b79]
    · simp only [e79, if_false]; split_ifs <;> omega
  · simp only [e80, if_false]
    by_cases e79 : p.cell 79 = '0'
    · have b79 : ¬ blockDup p 79 := fun h => h.1 e79
      have r79 : ¬ rowDup p 79 := fun h => h.1 e79
      simp [e79, b79, r79]
    · simp only [e79, if_false]; split_ifs <;> omega

theorem cellWeight_sum : ∑ i in Finset.range 79, cellWeight i = 214 := by decide

theorem penalty_sum_eq (p : Puzzle) :
    (emptyCells p).card + (rowDupCells p).card + (columnDupCells p).card
      + (blockDupCells p).card = ∑ i in Finset.range 81, cellPenalty p i := by
  unfold emptyCells rowDupCells columnDupCells blockDupCells cellPenalty
  simp only [Finset.card_filter, Finset.sum_add_distrib]

theorem penalty_sum_le (p : Puzzle) :
    (emptyCells p).card + (rowDupCells p).card + (columnDupCells p).card
      + (blockDupCells p).card ≤ 216 := by
  rw [penalty_sum_eq, Finset.sum_range_succ, Finset.sum_range_succ]
  have h1 : ∑ i in Finset.range 79, cellPenalty p i ≤ ∑ i in Finset.range 79, cellWeight i :=
    Finset.sum_le_sum (fun i hi => cellPenalty_le_weight p i (Finset.mem_range.1 hi))
  rw [cellWeight_sum] at h1
  have h2 := cellPenalty_last_two p
  omega

set_option maxRecDepth 1000000 in
theorem uniform_counts (q : Puzzle) (d : Char) (hd : d ≠ '0') (hq : ∀ i, q.content i = d) :
    (emptyCells q).card = 0 ∧ (rowDupCells q).card = 72 ∧ (columnDupCells q).card = 72
      ∧ (blockDupCells q).card = 72 := by
  have hcell : ∀ i, i < 81 → q.cell i = d := fun i hi => by
    rw [cell_eq_content q i hi, hq]
  refine ⟨?_, ?_, ?_, ?_⟩
  · rw [Finset.card_eq_zero]
    unfold emptyCells
    rw [Finset.filter_eq_empty_iff]
    intro i hi
    rw [hcell i (Finset.mem_range.1 hi)]; exact hd
  · have : rowDupCells q
        = (Finset.range 81).filter (fun i => hasLater sameRow i) := by
      unfold rowDupCells
      apply Finset.filter_congr
      intro i hi
      have hi2 := Finset.mem_range.1 hi
      constructor
      · rintro ⟨_, j, h1, h2, h3, _⟩; exact ⟨j, h1, h2, h3⟩
      · rintro ⟨j, h1, h2, h3⟩
        exact ⟨by rw [hcell i hi2]; exact hd, j, h1, h2, h3, by rw [hcell i hi2, hcell j h1]⟩
    rw [this]; decide
  · have : columnDupCells q
        = (Finset.range 81).filter (fun i => hasLater sameColumn i) := by
      unfold columnDupCells
      apply Finset.filter_congr
      intro i hi
      have hi2 := Finset.mem_range.1 hi
      constructor
      · rintro ⟨_, j, h1, h2, h3, _⟩; exact ⟨j, h1, h2, h3⟩
      · rintro ⟨j, h1, h2, h3⟩
        exact ⟨by rw [hcell i hi2]; exact hd, j, h1, h2, h3, by rw [hcell i hi2, hcell j h1]⟩
    rw [this]; decide
  · have : blockDupCells q
        = (Finset.range 81).filter (fun i => hasLater sameBlock i) := by
      unfold blockDupCells
      apply Finset.filter_congr
      intro i hi
      have hi2 := Finset.mem_range.1 hi
      constructor
      · rintro ⟨_, j, h1, h2, h3, _⟩; exact ⟨j, h1, h2, h3⟩
      · rintro ⟨j, h1, h2, h3⟩
        exact ⟨by rw [hcell i hi2]; exact hd, j, h1, h2, h3, by rw [hcell i hi2, hcell j h1]⟩
    rw [this]; decide

/-- Claim C5. For every grid whose cache is not computed (`fitLevel` above 81),
`-135 ≤ fitness() ≤ 81`; and the lower bound is attained: every grid whose 81 cells all
hold one and the same non-empty character has fitness -135. -/
theorem fitness_range (p : Puzzle) (hcache : 81 < p.fitLevel) :
    -135 ≤ p.fitness ∧ p.fitness ≤ 81 ∧
    ∀ q : Puzzle, 81 < q.fitLevel → (∃ d, d ≠ '0' ∧ ∀ i, q.content i = d) →
      q.fitness = -135 := by
  refine ⟨?_, ?_, ?_⟩
  · rw [fitness_closed p hcache]
    have := penalty_sum_le p
    omega
  · rw [fitness_closed p hcache]
    omega
  · rintro q hq ⟨d, hd, hall⟩
    rw [fitness_closed q hq]
    obtain ⟨h1, h2, h3, h4⟩ := uniform_counts q d hd hall
    rw [h1, h2, h3, h4]; rfl

/-- Witness for claim C5: the grid of 81 fives is not computed and has fitness -135,
which lies in the range. -/
theorem fitness_range_witness :
    81 < (uniformPuzzle '5').fitLevel ∧ -135 ≤ (uniformPuzzle '5').fitness ∧
      (uniformPuzzle '5').fitness ≤ 81 ∧ (uniformPuzzle '5').fitness = -135 :=
  ⟨by decide, (fitness_range (uniformPuzzle '5') (by decide)).1,
    (fitness_range (uniformPuzzle '5') (by decide)).2.1,
    (fitness_range (uniformPuzzle '5') (by decide)).2.2 (uniformPuzzle '5') (by decide)
      ⟨'5', by decide, fun _ => rfl⟩⟩

/-! ## Truncation of the population -/

theorem popBackLoop_eq_take (limit : Nat) :
    ∀ (i : Nat) (v : List Puzzle), v.length = i → popBackLoop limit i v = v.take limit := by
  intro i
  induction i with
  | zero =>
    intro v hv
    rw [List.length_eq_zero] at hv
    subst hv
    simp [popBackLoop]
  | succ n ih =>
    intro v hv
    unfold popBackLoop
    by_cases h : n + 1 > limit
    · rw [if_pos h, ih v.dropLast (by rw [List.length_dropLast, hv]; rfl),
        List.dropLast_eq_take, List.take_take, hv]
      congr 1
      omega
    · rw [if_neg h, List.take_of_length_le (by omega)]

theorem stdSort_perm (v : List Puzzle) : (stdSort v).Perm v :=
  List.perm_insertionSort _ v

theorem stdSort_length (v : List Puzzle) : (stdSort v).length = v.length :=
  (stdSort_perm v).length_eq

theorem stdSort_pairwise (v : List Puzzle) :
    (stdSort v).Pairwise (fun a b => a.fitness ≥ b.fitness) := by
  haveI : IsTotal Puzzle (fun a b => b.lt a = false) :=
    ⟨fun a b => by
      simp only [Puzzle.lt, decide_eq_false_iff_not, gt_iff_lt, not_lt]
      exact le_total _ _⟩
  haveI : IsTrans Puzzle (fun a b => b.lt a = false) :=
    ⟨fun a b c => by
      simp only [Puzzle.lt, decide_eq_false_iff_not, gt_iff_lt, not_lt]
      intro h1 h2
      exact le_trans h2 h1⟩
  have h := List.sorted_insertionSort (fun a b : Puzzle => b.lt a = false) v
  unfold stdSort
  refine List.Pairwise.imp ?_ h
  intro a b hab
  simpa [Puzzle.lt] using hab

theorem deleteWorst_eq (pop : Population) (hn : 10 ≤ pop.elems.length) :
    ∃ front rest,
      (stdSort (pop.elems.take (pop.elems.length - 1))).take (pop.elems.length / 10)
        = front :: rest ∧
      pop.deleteWorst = some (front.fitness, ⟨front :: rest, front.fitness⟩) := by
  have hlen : (stdSort (pop.elems.take (pop.elems.length - 1))).length
      = pop.elems.length - 1 := by
    rw [stdSort_length, List.length_take]; omega
  have hkeep : popBackLoop (pop.elems.length / 10)
      (stdSort (pop.elems.take (pop.elems.length - 1))
        ++ pop.elems.drop (pop.elems.length - 1)).length
      (stdSort (pop.elems.take (pop.elems.length - 1))
        ++ pop.elems.drop (pop.elems.length - 1))
      = (stdSort (pop.elems.take (pop.elems.length - 1))).take (pop.elems.length / 10) := by
    rw [popBackLoop_eq_take _ _ _ rfl, List.take_append_of_le_length (by omega)]
  cases hk : (stdSort (pop.elems.take (pop.elems.length - 1))).take (pop.elems.length / 10) with
  | nil =>
    have := congrArg List.length hk
    rw [List.length_take, hlen] at this
    simp only [List.length_nil] at this
    omega
  | cons front rest =>
    refine ⟨front, rest, rfl, ?_⟩
    unfold Population.deleteWorst
    simp only [if_neg (show ¬ pop.elems.length = 0 by omega), hkeep, hk]

/-- Claim C8. For every population of `n ≥ 10` puzzles, `deleteWorst` leaves exactly
`n / 10` puzzles, each of them a member of the population before the call (the survivors
are, with multiplicity, among the former members); it returns the fitness of the new
element 0 and stores that value as `bestFitness`. -/
theorem deleteWorst_survivors (pop : Population) (hn : 10 ≤ pop.elems.length) :
    ∃ r after, pop.deleteWorst = some (r, after) ∧
      after.elems.length = pop.elems.length / 10 ∧
      (∀ x ∈ after.elems, x ∈ pop.elems) ∧
      after.elems.Subperm pop.elems ∧
      after.elems.head?.map Puzzle.fitness = some r ∧
      after.bestFitness = r := by
  obtain ⟨front, rest, hk, hd⟩ := deleteWorst_eq pop hn
  have hsub : (front :: rest).Subperm pop.elems := by
    rw [← hk]
    exact ((List.take_sublist _ _).subperm.trans (stdSort_perm _).subperm).trans
      (List.take_sublist _ _).subperm
  refine ⟨front.fitness, ⟨front :: rest, front.fitness⟩, hd, ?_, ?_, hsub, rfl, rfl⟩
  · show (front :: rest).length = _
    rw [← hk, List.length_take, stdSort_length, List.length_take]
    omega
  · intro x hx
    exact hsub.subset hx

/-- Claim C9. For every population of `n ≥ 10` puzzles, the survivors of `deleteWorst`
are in non-increasing fitness order: for all indices `i < j` below the new length, the
fitness at `i` is at least the fitness at `j`. -/
theorem deleteWorst_sorted (pop : Population) (hn : 10 ≤ pop.elems.length) :
    ∃ r after, pop.deleteWorst = some (r, after) ∧
      ∀ (i j : Nat) (a b : Puzzle), i < j → after.elems[i]? = some a →
        after.elems[j]? = some b → a.fitness ≥ b.fitness := by
  obtain ⟨front, rest, hk, hd⟩ := deleteWorst_eq pop hn
  refine ⟨front.fitness, ⟨front :: rest, front.fitness⟩, hd, ?_⟩
  have hp : (front :: rest).Pairwise (fun a b => a.fitness ≥ b.fitness) := by
    rw [← hk]
    exact (stdSort_pairwise _).sublist (List.take_sublist _ _)
  intro i j a b hij ha hb
  show a.fitness ≥ b.fitness
  obtain ⟨hi, rfl⟩ := List.getElem?_eq_some_iff.1 ha
  obtain ⟨hj, rfl⟩ := List.getElem?_eq_some_iff.1 hb
  exact List.pairwise_iff_getElem.1 hp i j hi hj hij

theorem uniform_fitness (d : Char) (hd : d ≠ '0') : (uniformPuzzle d).fitness = -135 := by
  rw [fitness_closed _ (show (81 : Int) < 82 by decide)]
  obtain ⟨h1, h2, h3, h4⟩ := uniform_counts (uniformPuzzle d) d hd (fun _ => rfl)
  rw [h1, h2, h3, h4]; rfl

/-- Claim C7 fails on the code: in a population of ten puzzles whose last element is the
only fittest one (nine grids of fives, fitness -135, then a solved grid, fitness 81),
`deleteWorst` returns -135 and leaves a head of fitness -135, below the fitness 81 of a
member of the population before the call. -/
theorem deleteWorst_misses_last_element :
    10 ≤ lastIsBest.elems.length ∧
    ∃ r after, lastIsBest.deleteWorst = some (r, after) ∧ r = -135 ∧
      after.elems.head?.map Puzzle.fitness = some (-135) ∧
      ∃ x ∈ lastIsBest.elems, x.fitness = 81 ∧ ¬ (r ≥ x.fitness) := by
  have hn : 10 ≤ lastIsBest.elems.length := by decide
  obtain ⟨front, rest, hk, hd⟩ := deleteWorst_eq lastIsBest hn
  have hmem : front ∈ stdSort (lastIsBest.elems.take (lastIsBest.elems.length - 1)) := by
    have : front ∈ front :: rest := List.mem_cons_self _ _
    rw [← hk] at this
    exact List.mem_of_mem_take this
  have hfront : front = uniformPuzzle '5' := by
    have h2 := (stdSort_perm _).subset hmem
    have h3 : lastIsBest.elems.take (lastIsBest.elems.length - 1)
        = List.replicate 9 (uniformPuzzle '5') := rfl
    rw [h3] at h2
    exact List.eq_of_mem_replicate h2
  have hfit : front.fitness = -135 := by rw [hfront]; exact uniform_fitness '5' (by decide)
  refine ⟨hn, front.fitness, ⟨front :: rest, front.fitness⟩, hd, hfit, ?_, solvedPuzzle, ?_,
    solved_fitness, ?_⟩
  · show some front.fitness = some (-135)
    rw [hfit]
  · show solvedPuzzle ∈ List.replicate 9 (uniformPuzzle '5') ++ [solvedPuzzle]
    simp
  · rw [hfit, solved_fitness]; decide

/-- Witness for claim C8: a population of ten puzzles. -/
theorem deleteWorst_survivors_witness :
    10 ≤ lastIsBest.elems.length ∧
    ∃ r after, lastIsBest.deleteWorst = some (r, after) ∧
      after.elems.length = lastIsBest.elems.length / 10 ∧
      (∀ x ∈ after.elems, x ∈ lastIsBest.elems) ∧
      after.elems.Subperm lastIsBest.elems ∧
      after.elems.head?.map Puzzle.fitness = some r ∧
      after.bestFitness = r :=
  ⟨by decide, deleteWorst_survivors lastIsBest (by decide)⟩

/-! ## Mutation -/

theorem store_content_ne (p : Puzzle) (k : Nat) (item : Char) (x : Fin 81) (h : x.val ≠ k) :
    (p.store k item).content x = p.content x := by
  unfold Puzzle.store
  simp only [if_neg h]

theorem mutateLoop_keeps_clues (ga : GeneticAlgorithm) (RAND_MAX : Nat) (chance : ℚ)
    (k : Fin 81) (hk : ga.preGen.content k ≠ '0') (i : Nat) (parIt mutIt : PuzzleIterator)
    (mutant : Puzzle) (s : RandState) (hp : parIt.cur = i) (hm : mutIt.cur = i) :
    (mutateLoop ga RAND_MAX chance i parIt mutIt mutant s).1.content k = mutant.content k := by
  induction i, parIt, mutIt, mutant, s using mutateLoop.induct ga RAND_MAX chance with
  | case1 i parIt mutIt mutant s hi h0 hc ih =>
    rw [mutateLoop, if_pos hi, if_pos h0, if_pos hc,
      ih (by unfold PuzzleIterator.next; rw [if_pos (by omega)]; simp [hp])
        (by unfold PuzzleIterator.next; rw [if_pos (by omega)]; simp [hm])]
    unfold Puzzle.setCell
    apply store_content_ne
    intro hki
    apply hk
    unfold Puzzle.deref at h0
    rw [hp, ← hm, ← hki, cell_eq_content _ _ k.isLt] at h0
    exact h0
  | case2 i parIt mutIt mutant s hi h0 hc hr ih =>
    rw [mutateLoop, if_pos hi, if_pos h0, if_neg hc, if_pos hr,
      ih (by unfold PuzzleIterator.next; rw [if_pos (by omega)]; simp [hp])
        (by unfold PuzzleIterator.next; rw [if_pos (by omega)]; simp [hm])]
    unfold Puzzle.setCell
    apply store_content_ne
    intro hki
    apply hk
    unfold Puzzle.deref at h0
    rw [hp, ← hm, ← hki, cell_eq_content _ _ k.isLt] at h0
    exact h0
  | case3 i parIt mutIt mutant s hi h0 hc hr ih =>
    rw [mutateLoop, if_pos hi, if_pos h0, if_neg hc, if_neg hr,
      ih (by unfold PuzzleIterator.next; rw [if_pos (by omega)]; simp [hp])
        (by unfold PuzzleIterator.next; rw [if_pos (by omega)]; simp [hm])]
  | case4 i parIt mutIt mutant s hi h0 ih =>
    rw [mutateLoop, if_pos hi, if_neg h0,
      ih (by unfold PuzzleIterator.next; rw [if_pos (by omega)]; simp [hp])
        (by unfold PuzzleIterator.next; rw [if_pos (by omega)]; simp [hm])]
  | case5 i parIt mutIt mutant s hi =>
    rw [mutateLoop, if_neg hi]

/-- Claim C10. `mutate` never rewrites a clue position: for every template, parent,
chance and stream of random draws, at each position where the template's cell is not
`'0'` the offspring's cell equals the parent's cell; so when the parent carries the
template's clues, the offspring's cell at every clue position equals the template's. -/
theorem mutate_keeps_clues (ga : GeneticAlgorithm) (RAND_MAX : Nat) (parent : Puzzle)
    (chance : ℚ) (s : RandState) (i : Fin 81) (hclue : ga.preGen.content i ≠ '0') :
    (ga.mutate RAND_MAX parent chance s).1.content i = parent.content i ∧
    ((∀ k : Fin 81, ga.preGen.content k ≠ '0' → parent.content k = ga.preGen.content k) →
      (ga.mutate RAND_MAX parent chance s).1.content i = ga.preGen.content i) := by
  have h : (ga.mutate RAND_MAX parent chance s).1.content i = parent.content i := by
    unfold GeneticAlgorithm.mutate
    exact mutateLoop_keeps_clues ga RAND_MAX chance i hclue 0 _ _ parent s rfl rfl
  exact ⟨h, fun hall => by rw [h, hall i hclue]⟩

set_option maxRecDepth 1000000 in
/-- Witness for claim C10: the classic puzzle as template, a solved grid as parent, cell 0
(a clue, `'5'`). -/
theorem mutate_keeps_clues_witness :
    classicEvolver.preGen.content ⟨0, by decide⟩ ≠ '0' ∧
    (classicEvolver.mutate 32767 solvedPuzzle MUTANTINESS (fun n => 1000 * n)).1.content
        ⟨0, by decide⟩ = solvedPuzzle.content ⟨0, by decide⟩ :=
  ⟨by decide,
    (mutate_keeps_clues classicEvolver 32767 solvedPuzzle MUTANTINESS (fun n => 1000 * n)
      ⟨0, by decide⟩ (by decide)).1⟩

/-! ## Mutation with chance 0, chance at least 1, and on a full template -/

theorem iterator_next_cur (it : PuzzleIterator) (i : Nat) (h : it.cur = i) (hi : i < 81) :
    it.next.cur = i + 1 := by
  unfold PuzzleIterator.next
  rw [if_pos (by omega)]
  simp [h]

theorem mutateLoop_chance_zero (ga : GeneticAlgorithm) (RAND_MAX : Nat) (i : Nat)
    (parIt mutIt : PuzzleIterator) (mutant : Puzzle) (s : RandState) :
    (mutateLoop ga RAND_MAX 0 i parIt mutIt mutant s).1 = mutant := by
  induction i, parIt, mutIt, mutant, s using mutateLoop.induct ga RAND_MAX 0 with
  | case1 i parIt mutIt mutant s hi h0 hc ih =>
    exact absurd hc (by norm_num)
  | case2 i parIt mutIt mutant s hi h0 hc hr ih =>
    have : (0 : ℚ) ≤ ((rand s).1 : ℚ) / (RAND_MAX : ℚ) :=
      div_nonneg (Nat.cast_nonneg _) (Nat.cast_nonneg _)
    exact absurd hr (not_lt.2 this)
  | case3 i parIt mutIt mutant s hi h0 hc hr ih =>
    rw [mutateLoop, if_pos hi, if_pos h0, if_neg hc, if_neg hr, ih]
  | case4 i parIt mutIt mutant s hi h0 ih =>
    rw [mutateLoop, if_pos hi, if_neg h0, ih]
  | case5 i parIt mutIt mutant s hi =>
    rw [mutateLoop, if_neg hi]

theorem mutateLoop_full_template (ga : GeneticAlgorithm) (RAND_MAX : Nat) (chance : ℚ)
    (hfull : ∀ k : Fin 81, ga.preGen.content k ≠ '0') (i : Nat)
    (parIt mutIt : PuzzleIterator) (mutant : Puzzle) (s : RandState) (hp : parIt.cur = i) :
    mutateLoop ga RAND_MAX chance i parIt mutIt mutant s = (mutant, s) := by
  induction i, parIt, mutIt, mutant, s using mutateLoop.induct ga RAND_MAX chance with
  | case1 i parIt mutIt mutant s hi h0 hc ih =>
    unfold Puzzle.deref at h0
    rw [hp, cell_eq_content _ _ hi] at h0
    exact absurd h0 (hfull _)
  | case2 i parIt mutIt mutant s hi h0 hc hr ih =>
    unfold Puzzle.deref at h0
    rw [hp, cell_eq_content _ _ hi] at h0
    exact absurd h0 (hfull _)
  | case3 i parIt mutIt mutant s hi h0 hc hr ih =>
    unfold Puzzle.deref at h0
    rw [hp, cell_eq_content _ _ hi] at h0
    exact absurd h0 (hfull _)
  | case4 i parIt mutIt mutant s hi h0 ih =>
    rw [mutateLoop, if_pos hi, if_neg h0, ih (iterator_next_cur _ _ hp hi)]
  | case5 i parIt mutIt mutant s hi =>
    rw [mutateLoop, if_neg hi]

theorem mutate_full_template (ga : GeneticAlgorithm) (RAND_MAX : Nat) (chance : ℚ)
    (hfull : ∀ k : Fin 81, ga.preGen.content k ≠ '0') (parent : Puzzle) (s : RandState) :
    ga.mutate RAND_MAX parent chance s = (parent, s) :=
  mutateLoop_full_template ga RAND_MAX chance hfull 0 _ _ parent s rfl

theorem mutateLoop_fields (ga : GeneticAlgorithm) (RAND_MAX : Nat) (chance : ℚ) (i : Nat)
    (parIt mutIt : PuzzleIterator) (mutant : Puzzle) (s : RandState) :
    (mutateLoop ga RAND_MAX chance i parIt mutIt mutant s).1.fitLevel = mutant.fitLevel ∧
    (mutateLoop ga RAND_MAX chance i parIt mutIt mutant s).1.notSet = mutant.notSet := by
  induction i, parIt, mutIt, mutant, s using mutateLoop.induct ga RAND_MAX chance with
  | case1 i parIt mutIt mutant s hi h0 hc ih =>
    rw [mutateLoop, if_pos hi, if_pos h0, if_pos hc]; exact ih
  | case2 i parIt mutIt mutant s hi h0 hc hr ih =>
    rw [mutateLoop, if_pos hi, if_pos h0, if_neg hc, if_pos hr]; exact ih
  | case3 i parIt mutIt mutant s hi h0 hc hr ih =>
    rw [mutateLoop, if_pos hi, if_pos h0, if_neg hc, if_neg hr]; exact ih
  | case4 i parIt mutIt mutant s hi h0 ih =>
    rw [mutateLoop, if_pos hi, if_neg h0]; exact ih
  | case5 i parIt mutIt mutant s hi =>
    rw [mutateLoop, if_neg hi]; exact ⟨rfl, rfl⟩

theorem mutate_fields (ga : GeneticAlgorithm) (RAND_MAX : Nat) (parent : Puzzle)
    (chance : ℚ) (s : RandState) :
    (ga.mutate RAND_MAX parent chance s).1.fitLevel = parent.fitLevel ∧
    (ga.mutate RAND_MAX parent chance s).1.notSet = parent.notSet :=
  mutateLoop_fields ga RAND_MAX chance 0 _ _ parent s

theorem emptyCount_self (t : Puzzle) (i : Nat) : emptyCount t i i = 0 := by
  unfold emptyCount; simp

theorem emptyCount_succ (t : Puzzle) (i k : Nat) (h : i < k) :
    emptyCount t i k = emptyCount t (i + 1) k + (if t.cell i = '0' then 1 else 0) := by
  unfold emptyCount
  rw [Finset.sum_eq_sum_Ico_succ_bot h, Nat.add_comm]

theorem randDigit_snd (ga : GeneticAlgorithm) (RAND_MAX : Nat) (s : RandState) :
    (ga.randDigit RAND_MAX s).2 = advance s 1 := rfl

theorem advance_advance (s : RandState) (a b : Nat) :
    advance (advance s a) b = advance s (b + a) := by
  funext n
  unfold advance
  rw [Nat.add_assoc]

theorem advance_zero (s : RandState) : advance s 0 = s := rfl

theorem mutateLoop_chance_one (ga : GeneticAlgorithm) (RAND_MAX : Nat) (chance : ℚ)
    (hc1 : 1 ≤ chance) (i : Nat) (parIt mutIt : PuzzleIterator) (mutant : Puzzle)
    (s : RandState) (hp : parIt.cur = i) (hm : mutIt.cur = i) :
    (∀ k : Fin 81, (mutateLoop ga RAND_MAX chance i parIt mutIt mutant s).1.content k
      = if i ≤ k.val ∧ ga.preGen.content k = '0' then
          (ga.randDigit RAND_MAX (advance s (emptyCount ga.preGen i k.val))).1
        else mutant.content k) ∧
    (mutateLoop ga RAND_MAX chance i parIt mutIt mutant s).2
      = advance s (emptyCount ga.preGen i 81) := by
  induction i, parIt, mutIt, mutant, s using mutateLoop.induct ga RAND_MAX chance with
  | case1 i parIt mutIt mutant s hi h0 hc ih =>
    obtain ⟨ih1, ih2⟩ := ih (iterator_next_cur _ _ hp hi) (iterator_next_cur _ _ hm hi)
    have h0c : ga.preGen.cell i = '0' := by
      unfold Puzzle.deref at h0; rw [hp] at h0; exact h0
    rw [mutateLoop, if_pos hi, if_pos h0, if_pos hc]
    refine ⟨?_, ?_⟩
    · intro k
      rw [ih1 k]
      by_cases hk : i + 1 ≤ k.val ∧ ga.preGen.content k = '0'
      · rw [if_pos hk, if_pos ⟨by omega, hk.2⟩, randDigit_snd, advance_advance,
          emptyCount_succ _ _ _ (by omega : i < k.val), if_pos h0c]
      · rw [if_neg hk]
        by_cases hki : k.val = i
        · have hke : ga.preGen.content k = '0' := by
            rw [← cell_eq_content _ _ k.isLt, hki]; exact h0c
          rw [if_pos ⟨by omega, hke⟩, hki, emptyCount_self, advance_zero]
          unfold Puzzle.setCell Puzzle.store
          simp only [hm, hki, if_true]
        · have : ¬ (i ≤ k.val ∧ ga.preGen.content k = '0') := by
            rintro ⟨h1, h2⟩
            exact hk ⟨by omega, h2⟩
          rw [if_neg this]
          unfold Puzzle.setCell
          exact store_content_ne _ _ _ _ (by rw [hm]; exact hki)
    · rw [ih2, randDigit_snd, advance_advance, emptyCount_succ _ _ _ hi, if_pos h0c]
  | case2 i parIt mutIt mutant s hi h0 hc hr ih =>
    exact absurd hc1 hc
  | case3 i parIt mutIt mutant s hi h0 hc hr ih =>
    exact absurd hc1 hc
  | case4 i parIt mutIt mutant s hi h0 ih =>
    obtain ⟨ih1, ih2⟩ := ih (iterator_next_cur _ _ hp hi) (iterator_next_cur _ _ hm hi)
    have h0c : ¬ ga.preGen.cell i = '0' := by
      unfold Puzzle.deref at h0; rw [hp] at h0; exact h0
    rw [mutateLoop, if_pos hi, if_neg h0]
    refine ⟨?_, ?_⟩
    · intro k
      rw [ih1 k]
      by_cases hk : i + 1 ≤ k.val ∧ ga.preGen.content k = '0'
      · rw [if_pos hk, if_pos ⟨by omega, hk.2⟩,
          emptyCount_succ _ _ _ (by omega : i < k.val), if_neg h0c]
        rfl
      · rw [if_neg hk]
        have : ¬ (i ≤ k.val ∧ ga.preGen.content k = '0') := by
          rintro ⟨h1, h2⟩
          by_cases hki : k.val = i
          · apply h0c
            rw [← hki, cell_eq_content _ _ k.isLt]; exact h2
          · exact hk ⟨by omega, h2⟩
        rw [if_neg this]
    · rw [ih2, emptyCount_succ _ _ _ hi, if_neg h0c]
      rfl
  | case5 i parIt mutIt mutant s hi =>
    rw [mutateLoop, if_neg hi]
    refine ⟨?_, ?_⟩
    · intro k
      have : ¬ (i ≤ k.val ∧ ga.preGen.content k = '0') := by
        rintro ⟨h1, _⟩
        have := k.isLt
        omega
      rw [if_neg this]
    · show s = _
      unfold emptyCount
      rw [Finset.Ico_eq_empty (by omega)]
      rfl

theorem randDigit_range (ga : GeneticAlgorithm) (RAND_MAX : Nat) (s : RandState) :
    '1' ≤ (ga.randDigit RAND_MAX s).1 ∧ (ga.randDigit RAND_MAX s).1 ≤ '9' := by
  unfold GeneticAlgorithm.randDigit
  simp only
  split_ifs <;> decide

theorem char_one_le_of_ne_zero (c : Char) (h0 : '0' ≤ c) (hne : c ≠ '0') : '1' ≤ c := by
  rw [char_le_iff] at h0 ⊢
  have hn : c.toNat ≠ ('0' : Char).toNat := fun h => hne (char_toNat_inj _ _ h)
  have e0 : ('0' : Char).toNat = 48 := rfl
  have e1 : ('1' : Char).toNat = 49 := rfl
  omega

theorem char_ne_zero_of_one_le (c : Char) (h1 : '1' ≤ c) : c ≠ '0' := by
  intro h
  rw [h] at h1
  exact absurd h1 (by decide)

/-- Claim C12. With mutation chance 0, `mutate` returns its parent: for every template,
every parent and every stream of `rand()` outputs the offspring is the parent, field by
field, so all 81 cells are the parent's. -/
theorem mutate_chance_zero (ga : GeneticAlgorithm) (RAND_MAX : Nat) (parent : Puzzle)
    (s : RandState) :
    (ga.mutate RAND_MAX parent 0 s).1 = parent ∧
      ∀ k : Fin 81, (ga.mutate RAND_MAX parent 0 s).1.content k = parent.content k := by
  have h : (ga.mutate RAND_MAX parent 0 s).1 = parent :=
    mutateLoop_chance_zero ga RAND_MAX 0 _ _ parent s
  exact ⟨h, fun k => by rw [h]⟩

theorem mutate_chance_one_content (ga : GeneticAlgorithm) (RAND_MAX : Nat) (parent : Puzzle)
    (chance : ℚ) (s : RandState) (hc : 1 ≤ chance) (k : Fin 81) :
    (ga.mutate RAND_MAX parent chance s).1.content k
      = if ga.preGen.content k = '0' then
          (ga.randDigit RAND_MAX (advance s (emptyCount ga.preGen 0 k.val))).1
        else parent.content k := by
  unfold GeneticAlgorithm.mutate
  rw [(mutateLoop_chance_one ga RAND_MAX chance hc 0 ga.preGen.begin parent.begin parent s
    rfl rfl).1 k]
  simp only [Nat.zero_le, true_and]

theorem mutate_chance_one_state (ga : GeneticAlgorithm) (RAND_MAX : Nat) (parent : Puzzle)
    (chance : ℚ) (s : RandState) (hc : 1 ≤ chance) :
    (ga.mutate RAND_MAX parent chance s).2 = advance s (emptyCount ga.preGen 0 81) :=
  (mutateLoop_chance_one ga RAND_MAX chance hc 0 ga.preGen.begin parent.begin parent s
    rfl rfl).2

/-- Claim C13. With mutation chance `c ≥ 1` (values above 1 included), `mutate` overwrites
every position whose template cell is `'0'` with the digit `randDigit` returns at that
point of the generator (one draw per empty template cell before it); `randDigit` returns
one of `'1'..'9'` for every generator; so for a template with cells in `'0'..'9'` and a
parent carrying its clues, no cell of the offspring is empty and every cell is in
`'1'..'9'`. -/
theorem mutate_chance_at_least_one (ga : GeneticAlgorithm) (RAND_MAX : Nat) (parent : Puzzle)
    (chance : ℚ) (s : RandState) (hc : 1 ≤ chance) :
    (∀ k : Fin 81, ga.preGen.content k = '0' →
      (ga.mutate RAND_MAX parent chance s).1.content k
        = (ga.randDigit RAND_MAX (advance s (emptyCount ga.preGen 0 k.val))).1) ∧
    (∀ g : RandState, '1' ≤ (ga.randDigit RAND_MAX g).1 ∧ (ga.randDigit RAND_MAX g).1 ≤ '9') ∧
    ((∀ k : Fin 81, '0' ≤ ga.preGen.content k ∧ ga.preGen.content k ≤ '9') →
      agreesOnClues ga.preGen parent →
      ∀ k : Fin 81, (ga.mutate RAND_MAX parent chance s).1.content k ≠ '0' ∧
        '1' ≤ (ga.mutate RAND_MAX parent chance s).1.content k ∧
        (ga.mutate RAND_MAX parent chance s).1.content k ≤ '9') := by
  refine ⟨?_, fun g => randDigit_range ga RAND_MAX g, ?_⟩
  · intro k hk
    rw [mutate_chance_one_content ga RAND_MAX parent chance s hc k, if_pos hk]
  · intro hdig hag k
    rw [mutate_chance_one_content ga RAND_MAX parent chance s hc k]
    by_cases hk : ga.preGen.content k = '0'
    · rw [if_pos hk]
      have := randDigit_range ga RAND_MAX (advance s (emptyCount ga.preGen 0 k.val))
      exact ⟨char_ne_zero_of_one_le _ this.1, this.1, this.2⟩
    · rw [if_neg hk, hag k hk]
      exact ⟨hk, char_one_le_of_ne_zero _ (hdig k).1 hk, (hdig k).2⟩

/-- Witness for claim C13: chance 1 on the classic puzzle. -/
theorem mutate_chance_at_least_one_witness :
    (1 : ℚ) ≤ 1 ∧
    ∀ g : RandState, '1' ≤ (classicEvolver.randDigit 32767 g).1 ∧
      (classicEvolver.randDigit 32767 g).1 ≤ '9' :=
  ⟨le_refl 1,
    (mutate_chance_at_least_one classicEvolver 32767 classicPuzzle 1 (fun n => 1000 * n)
      (le_refl 1)).2.1⟩

/-! ## Seeding and breeding -/

theorem seedList_length (ga : GeneticAlgorithm) (RAND_MAX : Nat) :
    ∀ (n : Nat) (s : RandState), (seedList ga RAND_MAX n s).length = n := by
  intro n
  induction n with
  | zero => intro s; rfl
  | succ n ih => intro s; simp [seedList, ih]

theorem seedList_mem (ga : GeneticAlgorithm) (RAND_MAX : Nat) :
    ∀ (n : Nat) (s : RandState) (p : Puzzle), p ∈ seedList ga RAND_MAX n s →
      ∃ g, p = (ga.mutate RAND_MAX ga.preGen 1 g).1 := by
  intro n
  induction n with
  | zero => intro s p hp; simp [seedList] at hp
  | succ n ih =>
    intro s p hp
    simp only [seedList, List.mem_cons] at hp
    rcases hp with rfl | hp
    · exact ⟨s, rfl⟩
    · exact ih _ p hp

theorem populateLoop_eq (ga : GeneticAlgorithm) (RAND_MAX : Nat) (i : Nat) (pop : Population)
    (s : RandState) :
    (populateLoop ga RAND_MAX i pop s).1
      = ⟨pop.elems ++ seedList ga RAND_MAX (ga.popSize - i).toNat s, pop.bestFitness⟩ := by
  induction i, pop, s using populateLoop.induct ga RAND_MAX with
  | case1 i pop s hi ih =>
    rw [populateLoop, if_pos hi, ih]
    have : (ga.popSize - (i : Int)).toNat = (ga.popSize - ((i + 1 : Nat) : Int)).toNat + 1 := by
      omega
    rw [this]
    simp [seedList]
  | case2 i pop s hi =>
    rw [populateLoop, if_neg hi]
    have : (ga.popSize - (i : Int)).toNat = 0 := by omega
    rw [this]
    simp [seedList]

theorem populate_elems (ga : GeneticAlgorithm) (RAND_MAX : Nat) (s : RandState) :
    (ga.populate RAND_MAX Population.new s).1.elems
      = seedList ga RAND_MAX ga.popSize.toNat s := by
  unfold GeneticAlgorithm.populate
  rw [populateLoop_eq]
  simp [Population.new]

theorem breedInner_spec (ga : GeneticAlgorithm) (RAND_MAX cap parent : Nat) (par : Puzzle)
    (j : Nat) (pop : Population) (s : RandState)
    (hpar : pop.elems[parent]? = some par) (hcap : pop.elems.length + (9 - j) ≤ cap) :
    ∃ extra g, breedInner ga RAND_MAX cap parent j pop s
        = some (⟨pop.elems ++ extra, pop.bestFitness⟩, g) ∧
      extra.length = 9 - j ∧
      ∀ x ∈ extra, ∃ st, x = (ga.mutate RAND_MAX par MUTANTINESS st).1 := by
  induction j, pop, s using breedInner.induct ga RAND_MAX cap parent with
  | case1 j pop s hj hnone =>
    rw [hnone] at hpar; cases hpar
  | case2 j pop s hj par2 hsome hlt ih =>
    rw [hsome] at hpar
    cases hpar
    have hlen := (List.getElem?_eq_some_iff.1 hsome).1
    obtain ⟨extra, g, h1, h2, h3⟩ := ih
      (by
        show (pop.elems ++ [_])[parent]? = some par
        rw [List.getElem?_append_left hlen]; exact hsome)
      (by
        show (pop.elems ++ [_]).length + (9 - (j + 1)) ≤ cap
        rw [List.length_append, List.length_singleton]; omega)
    refine ⟨(ga.mutate RAND_MAX par MUTANTINESS s).1 :: extra, g, ?_, ?_, ?_⟩
    · rw [breedInner, if_pos hj]
      simp only [hsome, if_pos hlt, h1]
      simp
    · rw [List.length_cons, h2]; omega
    · intro x hx
      rcases List.mem_cons.1 hx with rfl | hx
      · exact ⟨s, rfl⟩
      · exact h3 x hx
  | case3 j pop s hj par2 hsome hlt =>
    omega
  | case4 j pop s hj =>
    refine ⟨[], s, ?_, ?_, ?_⟩
    · rw [breedInner, if_neg hj]; simp
    · simp; omega
    · intro x hx; cases hx

theorem breedLoop_spec (ga : GeneticAlgorithm) (RAND_MAX cap : Nat) (orig : List Puzzle)
    (hcap : 10 * orig.length ≤ cap) :
    ∀ (i parent : Nat) (acc : List Puzzle) (bf : Int) (s : RandState),
      parent + i = orig.length → acc.length = 9 * parent →
      offspringOf ga RAND_MAX orig acc →
      ∃ acc2 g, breedLoop ga RAND_MAX cap i parent ⟨orig ++ acc, bf⟩ s
          = some (⟨orig ++ acc2, bf⟩, g) ∧
        acc2.length = 9 * orig.length ∧ offspringOf ga RAND_MAX orig acc2 := by
  intro i
  induction i with
  | zero =>
    intro parent acc bf s hp hlen hoff
    refine ⟨acc, s, rfl, ?_, hoff⟩
    rw [hlen]; omega
  | succ i ih =>
    intro parent acc bf s hp hlen hoff
    have hplt : parent < orig.length := by omega
    have hpar : (orig ++ acc)[parent]? = some (orig[parent]) := by
      rw [List.getElem?_append_left hplt]
      exact List.getElem?_eq_getElem hplt
    obtain ⟨extra, g, h1, h2, h3⟩ := breedInner_spec ga RAND_MAX cap parent (orig[parent]) 0
      ⟨orig ++ acc, bf⟩ s hpar
      (by
        show (orig ++ acc).length + (9 - 0) ≤ cap
        rw [List.length_append, hlen]; omega)
    have hoff2 : offspringOf ga RAND_MAX orig (acc ++ extra) := by
      intro n hn
      by_cases hna : n < acc.length
      · obtain ⟨par, st, e1, e2⟩ := hoff n hna
        exact ⟨par, st, e1, by rw [List.getElem?_append_left hna]; exact e2⟩
      · rw [List.length_append, h2] at hn
        have hidx : n - acc.length < extra.length := by omega
        obtain ⟨st, hst⟩ := h3 (extra[n - acc.length]) (List.getElem_mem _)
        refine ⟨orig[parent], st, ?_, ?_⟩
        · have : n / 9 = parent := by omega
          rw [this]
          exact List.getElem?_eq_getElem hplt
        · rw [List.getElem?_append_right (by omega), List.getElem?_eq_getElem hidx, hst]
    obtain ⟨acc2, g2, e1, e2, e3⟩ := ih (parent + 1) (acc ++ extra) bf g (by omega)
      (by rw [List.length_append, hlen, h2]; omega) hoff2
    refine ⟨acc2, g2, ?_, e2, e3⟩
    unfold breedLoop
    simp only [h1]
    rw [← e1, List.append_assoc]

theorem breed_spec (ga : GeneticAlgorithm) (RAND_MAX cap : Nat) (pop : Population)
    (s : RandState) (hcap : 10 * pop.elems.length ≤ cap) :
    ∃ acc g, ga.breed RAND_MAX cap pop s = some (⟨pop.elems ++ acc, pop.bestFitness⟩, g) ∧
      acc.length = 9 * pop.elems.length ∧ offspringOf ga RAND_MAX pop.elems acc := by
  obtain ⟨acc, g, h1, h2, h3⟩ := breedLoop_spec ga RAND_MAX cap pop.elems hcap
    pop.elems.length 0 [] pop.bestFitness s (by omega) rfl
    (by intro n hn; simp at hn)
  refine ⟨acc, g, ?_, h2, h3⟩
  unfold GeneticAlgorithm.breed
  rw [← h1]
  simp

theorem breedState_succ (ga : GeneticAlgorithm) (RAND_MAX : Nat) (orig : List Puzzle)
    (s : RandState) (n : Nat) (par : Puzzle) (h : orig[n / 9]? = some par) :
    breedState ga RAND_MAX orig s (n + 1)
      = (ga.mutate RAND_MAX par MUTANTINESS (breedState ga RAND_MAX orig s n)).2 := by
  rw [breedState]
  simp only [h]

theorem breedInner_threaded (ga : GeneticAlgorithm) (RAND_MAX cap : Nat) (orig : List Puzzle)
    (s0 : RandState) (parent : Nat) (hparent : parent < orig.length)
    (hcap : orig.length + 9 * parent + 9 ≤ cap) (bf : Int) :
    ∀ (m j : Nat) (acc : List Puzzle), 9 - j = m → j ≤ 9 → acc.length = 9 * parent + j →
      threadedOffspring ga RAND_MAX orig s0 acc →
      ∃ acc2, breedInner ga RAND_MAX cap parent j ⟨orig ++ acc, bf⟩
            (breedState ga RAND_MAX orig s0 acc.length)
          = some (⟨orig ++ acc2, bf⟩, breedState ga RAND_MAX orig s0 acc2.length) ∧
        acc2.length = 9 * parent + 9 ∧ threadedOffspring ga RAND_MAX orig s0 acc2 := by
  intro m
  induction m with
  | zero =>
    intro j acc hm hj hlen hoff
    have hj9 : j = 9 := by omega
    subst hj9
    refine ⟨acc, ?_, hlen, hoff⟩
    rw [breedInner, if_neg (by omega)]
  | succ m ih =>
    intro j acc hm hj hlen hoff
    have hj9 : j < 9 := by omega
    have hpar : (orig ++ acc)[parent]? = some (orig[parent]) := by
      rw [List.getElem?_append_left hparent]
      exact List.getElem?_eq_getElem hparent
    have hdiv : acc.length / 9 = parent := by omega
    have hpar2 : orig[acc.length / 9]? = some (orig[parent]) := by
      rw [hdiv]; exact List.getElem?_eq_getElem hparent
    have hoff2 : threadedOffspring ga RAND_MAX orig s0
        (acc ++ [(ga.mutate RAND_MAX (orig[parent]) MUTANTINESS
          (breedState ga RAND_MAX orig s0 acc.length)).1]) := by
      intro n hn
      rw [List.length_append, List.length_singleton] at hn
      by_cases hna : n < acc.length
      · obtain ⟨par, e1, e2⟩ := hoff n hna
        exact ⟨par, e1, by rw [List.getElem?_append_left hna]; exact e2⟩
      · have hn2 : n = acc.length := by omega
        subst hn2
        refine ⟨orig[parent], hpar2, ?_⟩
        rw [List.getElem?_append_right (le_refl _), Nat.sub_self]
        rfl
    obtain ⟨acc2, e1, e2, e3⟩ := ih (j + 1)
      (acc ++ [(ga.mutate RAND_MAX (orig[parent]) MUTANTINESS
          (breedState ga RAND_MAX orig s0 acc.length)).1])
      (by omega) (by omega)
      (by rw [List.length_append, List.length_singleton, hlen]; omega) hoff2
    refine ⟨acc2, ?_, e2, e3⟩
    rw [breedInner, if_pos hj9]
    have hroom : (orig ++ acc).length < cap := by
      rw [List.length_append, hlen]; omega
    simp only [hpar, if_pos hroom]
    rw [List.length_append, List.length_singleton,
      breedState_succ ga RAND_MAX orig s0 acc.length _ hpar2] at e1
    rw [← e1, List.append_assoc]

theorem breedLoop_threaded (ga : GeneticAlgorithm) (RAND_MAX cap : Nat) (orig : List Puzzle)
    (s0 : RandState) (hcap : 10 * orig.length ≤ cap) (bf : Int) :
    ∀ (i parent : Nat) (acc : List Puzzle),
      parent + i = orig.length → acc.length = 9 * parent →
      threadedOffspring ga RAND_MAX orig s0 acc →
      ∃ acc2, breedLoop ga RAND_MAX cap i parent ⟨orig ++ acc, bf⟩
            (breedState ga RAND_MAX orig s0 acc.length)
          = some (⟨orig ++ acc2, bf⟩, breedState ga RAND_MAX orig s0 acc2.length) ∧
        acc2.length = 9 * orig.length ∧ threadedOffspring ga RAND_MAX orig s0 acc2 := by
  intro i
  induction i with
  | zero =>
    intro parent acc hp hlen hoff
    refine ⟨acc, rfl, ?_, hoff⟩
    rw [hlen]; omega
  | succ i ih =>
    intro parent acc hp hlen hoff
    obtain ⟨acc1, h1, h2, h3⟩ := breedInner_threaded ga RAND_MAX cap orig s0 parent (by omega)
      (by omega) bf 9 0 acc rfl (by omega) (by rw [hlen]; rfl) hoff
    obtain ⟨acc2, e1, e2, e3⟩ := ih (parent + 1) acc1 (by omega) (by rw [h2]; omega) h3
    refine ⟨acc2, ?_, e2, e3⟩
    unfold breedLoop
    simp only [h1]
    exact e1

theorem breed_threaded (ga : GeneticAlgorithm) (RAND_MAX cap : Nat) (pop : Population)
    (s : RandState) (hcap : 10 * pop.elems.length ≤ cap) :
    ∃ acc, ga.breed RAND_MAX cap pop s
        = some (⟨pop.elems ++ acc, pop.bestFitness⟩,
            breedState ga RAND_MAX pop.elems s (9 * pop.elems.length)) ∧
      acc.length = 9 * pop.elems.length ∧ threadedOffspring ga RAND_MAX pop.elems s acc := by
  obtain ⟨acc, h1, h2, h3⟩ := breedLoop_threaded ga RAND_MAX cap pop.elems s hcap
    pop.bestFitness pop.elems.length 0 [] (by omega) rfl (by intro n hn; simp at hn)
  refine ⟨acc, ?_, h2, h3⟩
  unfold GeneticAlgorithm.breed
  rw [h2] at h1
  rw [← h1]
  simp [breedState]

/-- Claim C14. Breeding works on a snapshot: for a population of `k` parents in a vector
with capacity for `10 k` elements, `breed` leaves exactly `10 k` elements, the first `k`
are the parents, unchanged and in order, and for each `p < k` and `j < 9` the element at
index `k + 9 p + j` is `mutate(parent p, MUTANTINESS)` run from the generator as the
`9 p + j` calls of `mutate` before it left it: the generator starts at `s`, each call on
parent `p` of the snapshot hands its generator to the next, and the last one is the
generator `breed` leaves. The appended puzzles are thus fixed by the `k` parents and `s`
alone; no appended puzzle is the parent of another. -/
theorem breed_snapshot (ga : GeneticAlgorithm) (RAND_MAX cap : Nat) (pop : Population)
    (s : RandState) (hcap : 10 * pop.elems.length ≤ cap) :
    ∃ bred g, ga.breed RAND_MAX cap pop s = some (bred, g) ∧
      bred.elems.length = 10 * pop.elems.length ∧
      bred.elems.take pop.elems.length = pop.elems ∧
      breedState ga RAND_MAX pop.elems s 0 = s ∧
      g = breedState ga RAND_MAX pop.elems s (9 * pop.elems.length) ∧
      ∀ p j, p < pop.elems.length → j < 9 → ∃ par,
        pop.elems[p]? = some par ∧
        bred.elems[pop.elems.length + 9 * p + j]?
          = some (ga.mutate RAND_MAX par MUTANTINESS
              (breedState ga RAND_MAX pop.elems s (9 * p + j))).1 ∧
        breedState ga RAND_MAX pop.elems s (9 * p + j + 1)
          = (ga.mutate RAND_MAX par MUTANTINESS
              (breedState ga RAND_MAX pop.elems s (9 * p + j))).2 := by
  obtain ⟨acc, h1, h2, h3⟩ := breed_threaded ga RAND_MAX cap pop s hcap
  refine ⟨_, _, h1, ?_, ?_, rfl, rfl, ?_⟩
  · show (pop.elems ++ acc).length = _
    rw [List.length_append, h2]; omega
  · show (pop.elems ++ acc).take pop.elems.length = _
    exact List.take_left _ _
  · intro p j hp hj
    obtain ⟨par, e1, e2⟩ := h3 (9 * p + j) (by rw [h2]; omega)
    refine ⟨par, ?_, ?_, breedState_succ ga RAND_MAX pop.elems s _ par e1⟩
    · have : (9 * p + j) / 9 = p := by omega
      rw [this] at e1; exact e1
    · show (pop.elems ++ acc)[pop.elems.length + 9 * p + j]? = _
      rw [List.getElem?_append_right (by omega)]
      have : pop.elems.length + 9 * p + j - pop.elems.length = 9 * p + j := by omega
      rw [this]; exact e2

/-- Witness for claim C14: ten parents in a vector of capacity 100. -/
theorem breed_snapshot_witness :
    10 * lastIsBest.elems.length ≤ 100 ∧
    ∃ bred g, classicEvolver.breed 32767 100 lastIsBest (fun n => 1000 * n) = some (bred, g) ∧
      bred.elems.length = 10 * lastIsBest.elems.length ∧
      bred.elems.take lastIsBest.elems.length = lastIsBest.elems ∧
      breedState classicEvolver 32767 lastIsBest.elems (fun n => 1000 * n) 0
        = (fun n => 1000 * n) ∧
      g = breedState classicEvolver 32767 lastIsBest.elems (fun n => 1000 * n)
          (9 * lastIsBest.elems.length) ∧
      ∀ p j, p < lastIsBest.elems.length → j < 9 → ∃ par,
        lastIsBest.elems[p]? = some par ∧
        bred.elems[lastIsBest.elems.length + 9 * p + j]?
          = some (classicEvolver.mutate 32767 par MUTANTINESS
              (breedState classicEvolver 32767 lastIsBest.elems (fun n => 1000 * n)
                (9 * p + j))).1 ∧
        breedState classicEvolver 32767 lastIsBest.elems (fun n => 1000 * n) (9 * p + j + 1)
          = (classicEvolver.mutate 32767 par MUTANTINESS
              (breedState classicEvolver 32767 lastIsBest.elems (fun n => 1000 * n)
                (9 * p + j))).2 :=
  ⟨by decide, breed_snapshot classicEvolver 32767 100 lastIsBest (fun n => 1000 * n) (by decide)⟩

/-! ## The generation loop -/

theorem deleteWorst_facts (pop : Population) (hn : 10 ≤ pop.elems.length) :
    ∃ r after, pop.deleteWorst = some (r, after) ∧
      after.elems.length = pop.elems.length / 10 ∧
      (∀ x ∈ after.elems, x ∈ pop.elems) ∧
      after.elems.head?.map Puzzle.fitness = some r ∧
      (∀ x ∈ pop.elems.take (pop.elems.length - 1), r ≥ x.fitness) ∧
      (∀ x ∈ after.elems, x ∈ pop.elems.take (pop.elems.length - 1)) := by
  obtain ⟨front, rest, hk, hd⟩ := deleteWorst_eq pop hn
  have hmem : ∀ x ∈ front :: rest, x ∈ pop.elems.take (pop.elems.length - 1) := by
    intro x hx
    rw [← hk] at hx
    exact (stdSort_perm _).subset (List.mem_of_mem_take hx)
  refine ⟨front.fitness, ⟨front :: rest, front.fitness⟩, hd, ?_, ?_, rfl, ?_, hmem⟩
  · show (front :: rest).length = _
    rw [← hk, List.length_take, stdSort_length, List.length_take]
    omega
  · intro x hx
    exact List.mem_of_mem_take (hmem x hx)
  · intro x hx
    have hx2 : x ∈ stdSort (pop.elems.take (pop.elems.length - 1)) :=
      (stdSort_perm _).symm.subset hx
    have hp := stdSort_pairwise (pop.elems.take (pop.elems.length - 1))
    cases hs : stdSort (pop.elems.take (pop.elems.length - 1)) with
    | nil => rw [hs] at hx2; cases hx2
    | cons a l =>
      rw [hs] at hk hp hx2
      have hfa : front = a := by
        have h1 : 0 < pop.elems.length / 10 := by omega
        obtain ⟨m, hm⟩ : ∃ m, pop.elems.length / 10 = m + 1 := ⟨pop.elems.length / 10 - 1, by omega⟩
        rw [hm, List.take_succ_cons] at hk
        exact (List.cons.inj hk).1.symm
      rw [hfa]
      rcases List.mem_cons.1 hx2 with rfl | hx3
      · exact le_refl _
      · exact (List.pairwise_cons.1 hp).1 x hx3

/-- Witness for claim C9: a population of twenty puzzles, of which two survive; the
ordering holds between the survivor at index 0 and the survivor at index 1. -/
theorem deleteWorst_sorted_witness :
    10 ≤ twentyPuzzles.elems.length ∧
    ∃ r after, twentyPuzzles.deleteWorst = some (r, after) ∧
      after.elems.length = 2 ∧
      (∃ a b, after.elems[0]? = some a ∧ after.elems[1]? = some b ∧ a.fitness ≥ b.fitness) ∧
      ∀ (i j : Nat) (a b : Puzzle), i < j → after.elems[i]? = some a →
        after.elems[j]? = some b → a.fitness ≥ b.fitness := by
  refine ⟨by decide, ?_⟩
  obtain ⟨r, after, h1, hord⟩ := deleteWorst_sorted twentyPuzzles (by decide)
  obtain ⟨r2, after2, k1, k2, _⟩ := deleteWorst_facts twentyPuzzles (by decide)
  rw [h1] at k1
  cases k1
  have hlen : after.elems.length = 2 := k2
  have h0 : after.elems[0]? = some (after.elems.get ⟨0, by omega⟩) :=
    List.getElem?_eq_getElem _
  have h1b : after.elems[1]? = some (after.elems.get ⟨1, by omega⟩) :=
    List.getElem?_eq_getElem _
  exact ⟨r, after, h1, hlen, ⟨_, _, h0, h1b, hord 0 1 _ _ (by decide) h0 h1b⟩, hord⟩

theorem generation_step (ga : GeneticAlgorithm) (RAND_MAX cap : Nat) (cur t bred : Population)
    (b : Int) (s1 s2 : RandState) (h10 : 10 ≤ cur.elems.length) (hc : cur.elems.length ≤ cap)
    (hd : cur.deleteWorst = some (b, t)) (hb : ga.breed RAND_MAX cap t s1 = some (bred, s2)) :
    t.elems.length = cur.elems.length / 10 ∧
    (∀ x ∈ t.elems, x ∈ cur.elems) ∧
    t.elems.head?.map Puzzle.fitness = some b ∧
    (∀ x ∈ cur.elems.take (cur.elems.length - 1), b ≥ x.fitness) ∧
    (∃ acc, bred.elems = t.elems ++ acc ∧ acc.length = 9 * t.elems.length ∧
      offspringOf ga RAND_MAX t.elems acc) ∧
    bred.elems.length = 10 * (cur.elems.length / 10) ∧
    10 ≤ bred.elems.length ∧ bred.elems.length ≤ cap := by
  obtain ⟨r, after, e1, e2, e3, e4, e5, _⟩ := deleteWorst_facts cur h10
  rw [e1] at hd
  cases hd
  obtain ⟨acc, g, f1, f2, f3⟩ := breed_spec ga RAND_MAX cap t s1 (by rw [e2]; omega)
  rw [f1] at hb
  cases hb
  refine ⟨e2, e3, e4, e5, ⟨acc, rfl, f2, f3⟩, ?_, ?_, ?_⟩
  · show (t.elems ++ acc).length = _
    rw [List.length_append, f2, e2]; omega
  · show 10 ≤ (t.elems ++ acc).length
    rw [List.length_append, f2, e2]; omega
  · show (t.elems ++ acc).length ≤ cap
    rw [List.length_append, f2, e2]; omega

theorem evolveLoop_spec (ga : GeneticAlgorithm) (RAND_MAX cap : Nat) :
    ∀ (n i : Nat) (success : Bool) (current : Population) (s : RandState),
      (ga.maxGens - (i : Int)).toNat = n → 10 ≤ current.elems.length →
      current.elems.length ≤ cap →
      ∃ last g log, evolveLoop ga RAND_MAX cap i success current s = some (last, g, log) ∧
        validRun ga RAND_MAX cap current log last ∧ log.length ≤ n ∧
        (success = true → log = []) ∧
        ((i : Int) < ga.maxGens → success = false → log ≠ []) := by
  intro n
  induction n with
  | zero =>
    intro i success current s hn h10 hc
    refine ⟨current, s, [], ?_, rfl, le_refl _, fun _ => rfl, ?_⟩
    · rw [evolveLoop, if_neg (by omega)]
    · intro h; omega
  | succ n ih =>
    intro i success current s hn h10 hc
    by_cases hcond : (i : Int) < ga.maxGens ∧ success = false
    · obtain ⟨r, after, e1, e2, _⟩ := deleteWorst_facts current h10
      obtain ⟨acc, g, f1, _, _⟩ := breed_spec ga RAND_MAX cap after s (by rw [e2]; omega)
      obtain ⟨_, _, _, _, _, _, k1, k2⟩ :=
        generation_step ga RAND_MAX cap current after _ r s g h10 hc e1 f1
      obtain ⟨last, g2, log, m1, m2, m3, m4, _⟩ := ih (i + 1) (decide (r = IDEAL))
        ⟨after.elems ++ acc, after.bestFitness⟩ g (by push_cast; omega) k1 k2
      refine ⟨last, g2, ⟨current, r, after, ⟨after.elems ++ acc, after.bestFitness⟩⟩ :: log,
        ?_, ?_, ?_, ?_, ?_⟩
      · rw [evolveLoop, if_pos hcond]
        simp only [e1, f1, m1]
      · refine ⟨rfl, e1, ⟨s, g, f1⟩, ?_, m2⟩
        intro hr
        exact m4 (by simpa using hr)
      · simp only [List.length_cons]; omega
      · intro hs
        rw [hs] at hcond
        exact absurd hcond.2 (by decide)
      · intro _ _; exact List.cons_ne_nil _ _
    · refine ⟨current, s, [], ?_, rfl, Nat.zero_le _, fun _ => rfl, ?_⟩
      · rw [evolveLoop, if_neg hcond]
      · intro h1 h2; exact absurd ⟨h1, h2⟩ hcond

theorem seeded_length (ga : GeneticAlgorithm) (RAND_MAX : Nat) (s : RandState) :
    (ga.populate RAND_MAX Population.new s).1.elems.length = ga.popSize.toNat := by
  rw [populate_elems, seedList_length]

theorem evolveRun_spec (ga : GeneticAlgorithm) (RAND_MAX : Nat) (s : RandState)
    (hP : 10 ≤ ga.popSize) :
    ∃ last g log, ga.evolveRun RAND_MAX s = some (last, g, log) ∧
      validRun ga RAND_MAX ga.popSize.toNat (ga.populate RAND_MAX Population.new s).1 log last ∧
      log.length ≤ ga.maxGens.toNat ∧ (0 < ga.maxGens → log ≠ []) := by
  have hlen := seeded_length ga RAND_MAX s
  obtain ⟨last, g, log, h1, h2, h3, _, h5⟩ := evolveLoop_spec ga RAND_MAX ga.popSize.toNat
    ga.maxGens.toNat 0 false (ga.populate RAND_MAX Population.new s).1
    (ga.populate RAND_MAX Population.new s).2 (by simp) (by rw [hlen]; omega)
    (by rw [hlen])
  refine ⟨last, g, log, ?_, h2, h3, fun h => h5 (by simpa using h) rfl⟩
  unfold GeneticAlgorithm.evolveRun
  rw [if_neg (by omega), h1]

theorem validRun_inv (ga : GeneticAlgorithm) (RAND_MAX cap : Nat) (I : Population → Prop)
    (Q : Generation → Prop)
    (step : ∀ cur b t bred s1 s2, I cur → cur.deleteWorst = some (b, t) →
      ga.breed RAND_MAX cap t s1 = some (bred, s2) → Q ⟨cur, b, t, bred⟩ ∧ I bred) :
    ∀ (log : List Generation) (cur last : Population),
      validRun ga RAND_MAX cap cur log last → I cur → (∀ g ∈ log, Q g) ∧ I last := by
  intro log
  induction log with
  | nil =>
    intro cur last hv hI
    simp only [validRun] at hv
    subst hv
    exact ⟨fun g hg => absurd hg (List.not_mem_nil g), hI⟩
  | cons g rest ih =>
    intro cur last hv hI
    obtain ⟨h1, h2, ⟨s1, s2, h3⟩, _, h5⟩ := hv
    obtain ⟨hQ, hI2⟩ := step cur g.best g.truncated g.bred s1 s2 hI h2 h3
    obtain ⟨hall, hlast⟩ := ih g.bred last h5 hI2
    refine ⟨?_, hlast⟩
    intro g2 hg2
    rcases List.mem_cons.1 hg2 with rfl | hg2
    · cases g2
      simp only at h1
      subst h1
      exact hQ
    · exact hall g2 hg2

theorem agreesOnClues_self (t : Puzzle) : agreesOnClues t t := fun _ _ => rfl

theorem mutate_agrees (ga : GeneticAlgorithm) (RAND_MAX : Nat) (parent : Puzzle) (chance : ℚ)
    (s : RandState) (h : agreesOnClues ga.preGen parent) :
    agreesOnClues ga.preGen (ga.mutate RAND_MAX parent chance s).1 := by
  intro k hk
  unfold GeneticAlgorithm.mutate
  rw [mutateLoop_keeps_clues ga RAND_MAX chance k hk 0 ga.preGen.begin parent.begin parent s
    rfl rfl]
  exact h k hk

theorem seeded_agree (ga : GeneticAlgorithm) (RAND_MAX : Nat) (s : RandState) :
    ∀ p ∈ (ga.populate RAND_MAX Population.new s).1.elems, agreesOnClues ga.preGen p := by
  intro p hp
  rw [populate_elems] at hp
  obtain ⟨g, rfl⟩ := seedList_mem ga RAND_MAX _ _ p hp
  exact mutate_agrees ga RAND_MAX ga.preGen 1 g (agreesOnClues_self _)

theorem offspring_agree (ga : GeneticAlgorithm) (RAND_MAX : Nat) (orig acc : List Puzzle)
    (hoff : offspringOf ga RAND_MAX orig acc)
    (horig : ∀ p ∈ orig, agreesOnClues ga.preGen p) :
    ∀ p ∈ acc, agreesOnClues ga.preGen p := by
  intro p hp
  obtain ⟨n, hn, rfl⟩ := List.mem_iff_getElem.1 hp
  obtain ⟨par, st, e1, e2⟩ := hoff n hn
  rw [List.getElem?_eq_getElem hn] at e2
  rw [Option.some.inj e2]
  exact mutate_agrees ga RAND_MAX par MUTANTINESS st (horig par (List.getElem?_mem e1))

theorem evolve_eq_head (ga : GeneticAlgorithm) (RAND_MAX : Nat) (s : RandState)
    (last : Population) (g : RandState) (log : List Generation)
    (h : ga.evolveRun RAND_MAX s = some (last, g, log)) :
    ga.evolve RAND_MAX s = last.elems.head? := by
  unfold GeneticAlgorithm.evolve
  rw [h]

theorem head_of_length (l : List Puzzle) (h : 10 ≤ l.length) :
    ∃ x, l.head? = some x ∧ x ∈ l := by
  cases l with
  | nil => simp at h
  | cons a t => exact ⟨a, rfl, List.mem_cons_self _ _⟩

/-- Claim C11. Invariant of `evolve`: for every template, `P ≥ 10`, every `G` and every
stream of random draws, every puzzle of the population after seeding, after every
truncation and after every breeding has the template's character at every clue position;
so the puzzle `evolve` returns differs from the template only where the template is
empty. -/
theorem evolve_keeps_clues (ga : GeneticAlgorithm) (RAND_MAX : Nat) (s : RandState)
    (hP : 10 ≤ ga.popSize) :
    (∀ p ∈ (ga.populate RAND_MAX Population.new s).1.elems, agreesOnClues ga.preGen p) ∧
    ∃ last g log result, ga.evolveRun RAND_MAX s = some (last, g, log) ∧
      (∀ gen ∈ log, (∀ p ∈ gen.truncated.elems, agreesOnClues ga.preGen p) ∧
        (∀ p ∈ gen.bred.elems, agreesOnClues ga.preGen p)) ∧
      ga.evolve RAND_MAX s = some result ∧ agreesOnClues ga.preGen result ∧
      ∀ k : Fin 81, result.content k ≠ ga.preGen.content k → ga.preGen.content k = '0' := by
  refine ⟨seeded_agree ga RAND_MAX s, ?_⟩
  obtain ⟨last, g, log, h1, h2, _, _⟩ := evolveRun_spec ga RAND_MAX s hP
  have hlen := seeded_length ga RAND_MAX s
  obtain ⟨hall, hlast⟩ := validRun_inv ga RAND_MAX ga.popSize.toNat
    (fun cur => 10 ≤ cur.elems.length ∧ cur.elems.length ≤ ga.popSize.toNat ∧
      ∀ p ∈ cur.elems, agreesOnClues ga.preGen p)
    (fun gen => (∀ p ∈ gen.truncated.elems, agreesOnClues ga.preGen p) ∧
      (∀ p ∈ gen.bred.elems, agreesOnClues ga.preGen p))
    (by
      rintro cur b t bred s1 s2 ⟨i1, i2, i3⟩ hd hb
      obtain ⟨_, e2, _, _, ⟨acc, e5, _, e7⟩, _, e9, e10⟩ :=
        generation_step ga RAND_MAX _ cur t bred b s1 s2 i1 i2 hd hb
      have ht : ∀ p ∈ t.elems, agreesOnClues ga.preGen p := fun p hp => i3 p (e2 p hp)
      have hbred : ∀ p ∈ bred.elems, agreesOnClues ga.preGen p := by
        intro p hp
        rw [e5] at hp
        rcases List.mem_append.1 hp with hp | hp
        · exact ht p hp
        · exact offspring_agree ga RAND_MAX _ _ e7 ht p hp
      exact ⟨⟨ht, hbred⟩, e9, e10, hbred⟩)
    log _ last h2 ⟨by rw [hlen]; omega, by rw [hlen], seeded_agree ga RAND_MAX s⟩
  obtain ⟨x, hx1, hx2⟩ := head_of_length last.elems hlast.1
  have hag := hlast.2.2 x hx2
  refine ⟨last, g, log, x, h1, hall, ?_, hag, ?_⟩
  · rw [evolve_eq_head ga RAND_MAX s last g log h1, hx1]
  · intro k hk
    by_contra hne
    exact hk (hag k hne)

/-- Witness for claim C11: the classic puzzle with `P = 10`, `G = 1`. -/
theorem evolve_keeps_clues_witness :
    10 ≤ classicEvolver.popSize ∧
    ∀ p ∈ (classicEvolver.populate 32767 Population.new (fun n => 1000 * n)).1.elems,
      agreesOnClues classicEvolver.preGen p :=
  ⟨by decide, (evolve_keeps_clues classicEvolver 32767 (fun n => 1000 * n) (by decide)).1⟩

/-- Claim C15. Population size law in `evolve`: for every `P ≥ 10`, the population holds
exactly `P` puzzles after seeding, a tenth (rounded down) of its size after each
truncation and `10 * (P / 10)` after each breeding, and it never holds more than `P`; for
`P = 25` truncations leave 2 and breedings leave 20, so the size does not return to 25. -/
theorem population_size_law (ga : GeneticAlgorithm) (RAND_MAX : Nat) (s : RandState)
    (hP : 10 ≤ ga.popSize) :
    ((ga.populate RAND_MAX Population.new s).1.elems.length : Int) = ga.popSize ∧
    ∃ last g log, ga.evolveRun RAND_MAX s = some (last, g, log) ∧
      (∀ gen ∈ log,
        gen.truncated.elems.length = gen.before.elems.length / 10 ∧
        (gen.truncated.elems.length : Int) = ga.popSize / 10 ∧
        (gen.bred.elems.length : Int) = 10 * (ga.popSize / 10) ∧
        (gen.before.elems.length : Int) ≤ ga.popSize ∧
        (gen.bred.elems.length : Int) ≤ ga.popSize) ∧
      (last.elems.length : Int) ≤ ga.popSize ∧
      (ga.popSize = 25 → ∀ gen ∈ log,
        gen.truncated.elems.length = 2 ∧ gen.bred.elems.length = 20 ∧
        gen.bred.elems.length ≠ 25) := by
  have hlen := seeded_length ga RAND_MAX s
  refine ⟨by rw [hlen]; omega, ?_⟩
  obtain ⟨last, g, log, h1, h2, _, _⟩ := evolveRun_spec ga RAND_MAX s hP
  obtain ⟨hall, hlast⟩ := validRun_inv ga RAND_MAX ga.popSize.toNat
    (fun cur => cur.elems.length = ga.popSize.toNat ∨
      cur.elems.length = 10 * (ga.popSize.toNat / 10))
    (fun gen => gen.truncated.elems.length = gen.before.elems.length / 10 ∧
        (gen.truncated.elems.length : Int) = ga.popSize / 10 ∧
        (gen.bred.elems.length : Int) = 10 * (ga.popSize / 10) ∧
        (gen.before.elems.length : Int) ≤ ga.popSize ∧
        (gen.bred.elems.length : Int) ≤ ga.popSize)
    (by
      intro cur b t bred s1 s2 hI hd hb
      obtain ⟨e1, _, _, _, _, e6, _, _⟩ :=
        generation_step ga RAND_MAX _ cur t bred b s1 s2 (by omega) (by omega) hd hb
      refine ⟨⟨e1, ?_, ?_, ?_, ?_⟩, ?_⟩ <;> simp only <;> omega)
    log _ last h2 (Or.inl hlen)
  refine ⟨last, g, log, h1, hall, by omega, ?_⟩
  intro h25 gen hgen
  obtain ⟨_, a2, a3, _, _⟩ := hall gen hgen
  omega

/-- Witness for claim C15: the classic puzzle with `P = 10`, `G = 1`. -/
theorem population_size_law_witness :
    10 ≤ classicEvolver.popSize ∧
    ((classicEvolver.populate 32767 Population.new (fun n => 1000 * n)).1.elems.length : Int)
      = classicEvolver.popSize :=
  ⟨by decide, (population_size_law classicEvolver 32767 (fun n => 1000 * n) (by decide)).1⟩

/-- Claim C16. For every template, `P ≥ 10`, `G ≥ 0` and stream of random draws, `evolve`
runs to its `return` and yields a puzzle, after at most `G` generations (at most `G` calls
of `deleteWorst`); the loops of seeding, breeding, mutation and truncation it runs are
total functions. -/
theorem evolve_terminates (ga : GeneticAlgorithm) (RAND_MAX : Nat) (s : RandState)
    (hP : 10 ≤ ga.popSize) (hG : 0 ≤ ga.maxGens) :
    ∃ last g log result, ga.evolveRun RAND_MAX s = some (last, g, log) ∧
      (log.length : Int) ≤ ga.maxGens ∧ ga.evolve RAND_MAX s = some result := by
  obtain ⟨last, g, log, h1, h2, h3, _⟩ := evolveRun_spec ga RAND_MAX s hP
  have hlen := seeded_length ga RAND_MAX s
  obtain ⟨_, hlast⟩ := validRun_inv ga RAND_MAX ga.popSize.toNat
    (fun cur => 10 ≤ cur.elems.length ∧ cur.elems.length ≤ ga.popSize.toNat)
    (fun _ => True)
    (by
      rintro cur b t bred s1 s2 ⟨i1, i2⟩ hd hb
      obtain ⟨_, _, _, _, _, _, e9, e10⟩ :=
        generation_step ga RAND_MAX _ cur t bred b s1 s2 i1 i2 hd hb
      exact ⟨trivial, e9, e10⟩)
    log _ last h2 ⟨by rw [hlen]; omega, by rw [hlen]⟩
  obtain ⟨x, hx1, _⟩ := head_of_length last.elems hlast.1
  refine ⟨last, g, log, x, h1, by omega, ?_⟩
  rw [evolve_eq_head ga RAND_MAX s last g log h1, hx1]

/-- Witness for claim C16: the classic puzzle with `P = 10`, `G = 1`. -/
theorem evolve_terminates_witness :
    10 ≤ classicEvolver.popSize ∧ 0 ≤ classicEvolver.maxGens ∧
    ∃ last g log result, classicEvolver.evolveRun 32767 (fun n => 1000 * n)
        = some (last, g, log) ∧
      (log.length : Int) ≤ classicEvolver.maxGens ∧
      classicEvolver.evolve 32767 (fun n => 1000 * n) = some result :=
  ⟨by decide, by decide,
    evolve_terminates classicEvolver 32767 (fun n => 1000 * n) (by decide) (by decide)⟩

theorem validRun_mono (ga : GeneticAlgorithm) (RAND_MAX cap : Nat) :
    ∀ (log : List Generation) (cur last : Population),
      validRun ga RAND_MAX cap cur log last → 10 ≤ cur.elems.length →
      cur.elems.length ≤ cap →
      ∀ (n : Nat) (a b : Generation), log[n]? = some a → log[n + 1]? = some b →
        a.best ≤ b.best := by
  intro log
  induction log with
  | nil => intro cur last _ _ _ n a b ha; simp at ha
  | cons g rest ih =>
    intro cur last hv h10 hc n a b ha hb
    obtain ⟨h1, h2, ⟨s1, s2, h3⟩, _, h5⟩ := hv
    obtain ⟨e1, _, e3, _, ⟨acc, e5, e6, _⟩, _, e9, e10⟩ :=
      generation_step ga RAND_MAX cap cur g.truncated g.bred g.best s1 s2 h10 hc h2 h3
    cases n with
    | zero =>
      simp only [List.getElem?_cons_zero, Option.some.injEq] at ha
      subst ha
      simp only [List.getElem?_cons_succ] at hb
      cases rest with
      | nil => simp at hb
      | cons g2 rest2 =>
        simp only [List.getElem?_cons_zero, Option.some.injEq] at hb
        subst hb
        obtain ⟨_, k2, _⟩ := h5
        obtain ⟨r, after, d1, _, _, _, d5, _⟩ := deleteWorst_facts g.bred e9
        rw [d1] at k2
        cases k2
        cases ht : g.truncated.elems with
        | nil => rw [ht] at e1; simp at e1; omega
        | cons x tl =>
          rw [ht] at e3 e5
          simp only [List.head?_cons, Option.map_some', Option.some.injEq] at e3
          rw [← e3]
          apply d5
          rw [e5]
          have : ∃ m, (x :: tl ++ acc).length - 1 = m + 1 := by
            refine ⟨(x :: tl ++ acc).length - 2, ?_⟩
            rw [← e5]; omega
          obtain ⟨m, hm⟩ := this
          rw [hm]
          simp
    | succ n =>
      simp only [List.getElem?_cons_succ] at ha hb
      exact ih g.bred last h5 e9 e10 n a b ha hb

/-- Claim C18. The fitness `deleteWorst` returns is non-decreasing across the generations
of a run of `evolve`: for every template, `P ≥ 10`, every `G` and stream of random draws,
the value returned in generation `n + 1` is at least the value returned in generation
`n`. -/
theorem best_fitness_monotone (ga : GeneticAlgorithm) (RAND_MAX : Nat) (s : RandState)
    (hP : 10 ≤ ga.popSize) :
    ∃ last g log, ga.evolveRun RAND_MAX s = some (last, g, log) ∧
      ∀ (n : Nat) (a b : Generation), log[n]? = some a → log[n + 1]? = some b →
        a.best ≤ b.best := by
  obtain ⟨last, g, log, h1, h2, _, _⟩ := evolveRun_spec ga RAND_MAX s hP
  have hlen := seeded_length ga RAND_MAX s
  exact ⟨last, g, log, h1,
    validRun_mono ga RAND_MAX _ log _ last h2 (by rw [hlen]; omega) (by rw [hlen])⟩

theorem evolveLoop_full_template (ga : GeneticAlgorithm) (RAND_MAX cap : Nat)
    (hfull : ∀ k : Fin 81, ga.preGen.content k ≠ '0') (hfit : ga.preGen.fitness ≠ IDEAL) :
    ∀ (n i : Nat) (current : Population) (s : RandState),
      (ga.maxGens - (i : Int)).toNat = n → 10 ≤ current.elems.length →
      current.elems.length ≤ cap → (∀ x ∈ current.elems, x = ga.preGen) →
      ∃ last g log, evolveLoop ga RAND_MAX cap i false current s = some (last, g, log) ∧
        log.length = n ∧ ∀ gen ∈ log, gen.best = ga.preGen.fitness := by
  intro n
  induction n with
  | zero =>
    intro i current s hn h10 hc hall
    refine ⟨current, s, [], ?_, rfl, fun gen hg => absurd hg (List.not_mem_nil gen)⟩
    rw [evolveLoop, if_neg (by omega)]
  | succ n ih =>
    intro i current s hn h10 hc hall
    have hcond : (i : Int) < ga.maxGens ∧ false = false := ⟨by omega, rfl⟩
    obtain ⟨r, after, e1, e2, e3, e4, _, _⟩ := deleteWorst_facts current h10
    obtain ⟨acc, g, f1, f2, f3⟩ := breed_spec ga RAND_MAX cap after s (by rw [e2]; omega)
    obtain ⟨_, _, _, _, _, _, k1, k2⟩ :=
      generation_step ga RAND_MAX cap current after _ r s g h10 hc e1 f1
    have hafter : ∀ x ∈ after.elems, x = ga.preGen := fun x hx => hall x (e3 x hx)
    have hr : r = ga.preGen.fitness := by
      cases ht : after.elems with
      | nil => rw [ht] at e2; simp at e2; omega
      | cons x tl =>
        rw [ht] at e4
        simp only [List.head?_cons, Option.map_some', Option.some.injEq] at e4
        rw [← e4, hafter x (by rw [ht]; exact List.mem_cons_self _ _)]
    have hbred : ∀ x ∈ after.elems ++ acc, x = ga.preGen := by
      intro x hx
      rcases List.mem_append.1 hx with hx | hx
      · exact hafter x hx
      · obtain ⟨m, hm, rfl⟩ := List.getElem_of_mem hx
        obtain ⟨par, st, p1, p2⟩ := f3 m hm
        rw [List.getElem?_eq_getElem hm, mutate_full_template ga RAND_MAX _ hfull] at p2
        rw [Option.some.inj p2]
        exact hafter par (List.getElem?_mem p1)
    have hdec : decide (r = IDEAL) = false := by
      rw [hr]; exact decide_eq_false hfit
    obtain ⟨last, g2, log, m1, m2, m3⟩ := ih (i + 1)
      ⟨after.elems ++ acc, after.bestFitness⟩ g (by push_cast; omega) k1 k2 hbred
    refine ⟨last, g2, ⟨current, r, after, ⟨after.elems ++ acc, after.bestFitness⟩⟩ :: log,
      ?_, ?_, ?_⟩
    · rw [evolveLoop, if_pos hcond]
      simp only [e1, f1, hdec, m1]
    · simp only [List.length_cons, m2]
    · intro gen hg
      rcases List.mem_cons.1 hg with rfl | hg
      · exact hr
      · exact m3 gen hg

theorem evolveRun_full_template (ga : GeneticAlgorithm) (RAND_MAX : Nat) (s : RandState)
    (hP : 10 ≤ ga.popSize) (hfull : ∀ k : Fin 81, ga.preGen.content k ≠ '0')
    (hfit : ga.preGen.fitness ≠ IDEAL) :
    ∃ last g log, ga.evolveRun RAND_MAX s = some (last, g, log) ∧
      log.length = ga.maxGens.toNat ∧ ∀ gen ∈ log, gen.best = ga.preGen.fitness := by
  have hlen := seeded_length ga RAND_MAX s
  have hseed : ∀ p ∈ (ga.populate RAND_MAX Population.new s).1.elems, p = ga.preGen := by
    intro p hp
    rw [populate_elems] at hp
    obtain ⟨g, rfl⟩ := seedList_mem ga RAND_MAX _ _ p hp
    rw [mutate_full_template ga RAND_MAX 1 hfull]
  obtain ⟨last, g, log, h1, h2, h3⟩ := evolveLoop_full_template ga RAND_MAX ga.popSize.toNat
    hfull hfit ga.maxGens.toNat 0 (ga.populate RAND_MAX Population.new s).1
    (ga.populate RAND_MAX Population.new s).2 (by simp) (by rw [hlen]; omega)
    (by rw [hlen]) hseed
  refine ⟨last, g, log, ?_, h2, h3⟩
  unfold GeneticAlgorithm.evolveRun
  rw [if_neg (by omega), h1]

/-- Witness for claim C18: the grid of fives as template with `P = 25`, `G = 2`. The run
logs two generations, each `deleteWorst` returns -135, and the value of the second
generation is at least the value of the first. -/
theorem best_fitness_monotone_witness :
    10 ≤ fivesEvolver.popSize ∧
    ∃ last g log, fivesEvolver.evolveRun 32767 (fun n => 1000 * n) = some (last, g, log) ∧
      log.length = 2 ∧
      (∃ a b, log[0]? = some a ∧ log[1]? = some b ∧ a.best = -135 ∧ b.best = -135 ∧
        a.best ≤ b.best) ∧
      ∀ (n : Nat) (a b : Generation), log[n]? = some a → log[n + 1]? = some b →
        a.best ≤ b.best := by
  refine ⟨by decide, ?_⟩
  obtain ⟨last, g, log, h1, hmono⟩ :=
    best_fitness_monotone fivesEvolver 32767 (fun n => 1000 * n) (by decide)
  have hfit : fivesEvolver.preGen.fitness = -135 := uniform_fitness '5' (by decide)
  obtain ⟨last2, g2, log2, k1, k2, k3⟩ :=
    evolveRun_full_template fivesEvolver 32767 (fun n => 1000 * n) (by decide)
      (fun _ => show ('5' : Char) ≠ '0' by decide) (by rw [hfit]; decide)
  rw [h1] at k1
  cases k1
  have hlen : log.length = 2 := k2
  have h0 : log[0]? = some (log.get ⟨0, by omega⟩) := List.getElem?_eq_getElem _
  have h1b : log[1]? = some (log.get ⟨1, by omega⟩) := List.getElem?_eq_getElem _
  refine ⟨last, g, log, h1, hlen, ⟨_, _, h0, h1b, ?_, ?_, hmono 0 _ _ h0 h1b⟩, hmono⟩
  · rw [k3 _ (List.get_mem _ _ _), hfit]
  · rw [k3 _ (List.get_mem _ _ _), hfit]

/-- Claim C20. The ordering of puzzles is inverted on fitness: `a < b` holds exactly when
the fitness of `a` is greater than the fitness of `b`; so a sequence that is ascending
for `operator<` (no element is less than an earlier one), as `std::sort` leaves it, is in
non-increasing fitness order. -/
theorem puzzle_lt_inverted (a b : Puzzle) :
    (a.lt b = true ↔ a.fitness > b.fitness) ∧
    (∀ v : List Puzzle, v.Pairwise (fun x y => y.lt x = false) →
      v.Pairwise (fun x y => x.fitness ≥ y.fitness)) ∧
    ∀ v : List Puzzle, (stdSort v).Pairwise (fun x y => y.lt x = false) ∧
      (stdSort v).Pairwise (fun x y => x.fitness ≥ y.fitness) := by
  have himp : ∀ v : List Puzzle, v.Pairwise (fun x y => y.lt x = false) →
      v.Pairwise (fun x y => x.fitness ≥ y.fitness) := by
    intro v hv
    refine List.Pairwise.imp ?_ hv
    intro x y hxy
    simpa [Puzzle.lt] using hxy
  refine ⟨by simp [Puzzle.lt], himp, ?_⟩
  intro v
  have h : (stdSort v).Pairwise (fun x y => y.lt x = false) := by
    refine List.Pairwise.imp ?_ (stdSort_pairwise v)
    intro x y hxy
    simpa [Puzzle.lt] using hxy
  exact ⟨h, himp _ h⟩

/-- Claim C17. Already-solved input: for every template that is a valid Sudoku solution
(never computed, as every constructed puzzle is), `P ≥ 10`, `G ≥ 1` and stream of random
draws, all `P` seeded puzzles equal the template, the first `deleteWorst` returns 81, the
loop runs exactly one generation, and `evolve` returns the template, of fitness 81. -/
theorem evolve_solved_template (ga : GeneticAlgorithm) (RAND_MAX : Nat) (s : RandState)
    (hP : 10 ≤ ga.popSize) (hG : 1 ≤ ga.maxGens) (hsol : ga.preGen.isSolution)
    (hcache : 81 < ga.preGen.fitLevel) :
    ((ga.populate RAND_MAX Population.new s).1.elems.length : Int) = ga.popSize ∧
    (∀ p ∈ (ga.populate RAND_MAX Population.new s).1.elems, p = ga.preGen) ∧
    ∃ last g gen, ga.evolveRun RAND_MAX s = some (last, g, [gen]) ∧ gen.best = 81 ∧
      ga.evolve RAND_MAX s = some ga.preGen ∧ ga.preGen.fitness = 81 := by
  have hlen := seeded_length ga RAND_MAX s
  have hfull : ∀ k : Fin 81, ga.preGen.content k ≠ '0' := by
    intro k
    rw [← cell_eq_content _ _ k.isLt]
    exact hsol.1 k.val k.isLt
  have hseed : ∀ p ∈ (ga.populate RAND_MAX Population.new s).1.elems, p = ga.preGen := by
    intro p hp
    rw [populate_elems] at hp
    obtain ⟨g, rfl⟩ := seedList_mem ga RAND_MAX _ _ p hp
    rw [mutate_full_template ga RAND_MAX 1 hfull]
  have hfit : ga.preGen.fitness = 81 :=
    (fitness_eq_81_iff_empty _ hcache).2 ((isSolution_iff_empty _).1 hsol)
  refine ⟨by rw [hlen]; omega, hseed, ?_⟩
  obtain ⟨last, g, log, h1, h2, _, h4⟩ := evolveRun_spec ga RAND_MAX s hP
  cases log with
  | nil => exact absurd rfl (h4 (by omega))
  | cons gen rest =>
    obtain ⟨_, k2, ⟨s1, s2, k3⟩, k4, k5⟩ := h2
    obtain ⟨e1, e2, e3, _, ⟨acc, e5, _, _⟩, _, _, _⟩ :=
      generation_step ga RAND_MAX _ _ gen.truncated gen.bred gen.best s1 s2
        (by rw [hlen]; omega) (by rw [hlen]) k2 k3
    cases ht : gen.truncated.elems with
    | nil => rw [ht, hlen] at e1; simp at e1; omega
    | cons x tl =>
      have hx : x = ga.preGen := hseed x (e2 x (by rw [ht]; exact List.mem_cons_self _ _))
      rw [ht] at e3 e5
      simp only [List.head?_cons, Option.map_some', Option.some.injEq] at e3
      have hbest : gen.best = 81 := by rw [← e3, hx, hfit]
      have hrest : rest = [] := k4 hbest
      subst hrest
      have hlast : last = gen.bred := k5
      refine ⟨last, g, gen, h1, hbest, ?_, hfit⟩
      rw [evolve_eq_head ga RAND_MAX s last g [gen] h1, hlast, e5, hx]
      rfl

/-- Witness for claim C17: the solved grid as template, `P = 10`, `G = 1`. -/
theorem evolve_solved_template_witness :
    10 ≤ (GeneticAlgorithm.mk 10 1 solvedPuzzle).popSize ∧
    1 ≤ (GeneticAlgorithm.mk 10 1 solvedPuzzle).maxGens ∧
    (GeneticAlgorithm.mk 10 1 solvedPuzzle).preGen.isSolution ∧
    81 < (GeneticAlgorithm.mk 10 1 solvedPuzzle).preGen.fitLevel ∧
    (GeneticAlgorithm.mk 10 1 solvedPuzzle).evolve 32767 (fun n => 1000 * n)
      = some solvedPuzzle :=
  ⟨by decide, by decide, (isSolution_iff_empty _).2
      ((fitness_eq_81_iff_empty _ (by decide)).1 solved_fitness), by decide,
    (evolve_solved_template (GeneticAlgorithm.mk 10 1 solvedPuzzle) 32767 (fun n => 1000 * n)
      (by decide) (by decide)
      ((isSolution_iff_empty _).2 ((fitness_eq_81_iff_empty _ (by decide)).1 solved_fitness))
      (by decide)).2.2.elim (fun _ h => h.elim (fun _ h2 => h2.elim (fun _ h3 => h3.2.2.1)))⟩

theorem randDigit_of_zero (ga : GeneticAlgorithm) (s : RandState) (h : s 0 = 0) :
    (ga.randDigit 32767 s).1 = '1' := by
  unfold GeneticAlgorithm.randDigit rand
  simp [h]

theorem randDigit_of_max (ga : GeneticAlgorithm) (s : RandState) (h : s 0 = 32767) :
    (ga.randDigit 32767 s).1 = '9' := by
  unfold GeneticAlgorithm.randDigit rand
  simp only [h]
  norm_num

set_option maxRecDepth 1000000 in
theorem oneMissing_facts :
    (∀ k : Fin 81, oneMissing.content k = '0' ↔ k.val = 80) ∧
    emptyCount oneMissing 0 80 = 0 ∧ emptyCount oneMissing 0 81 = 1 := by
  refine ⟨?_, ?_, ?_⟩ <;> decide

set_option maxRecDepth 1000000 in
theorem filled_counts :
    ((emptyCells (oneMissing.store 80 '1')).card = 0 ∧
      (rowDupCells (oneMissing.store 80 '1')).card = 1 ∧
      (columnDupCells (oneMissing.store 80 '1')).card = 1 ∧
      (blockDupCells (oneMissing.store 80 '1')).card = 1) ∧
    ((emptyCells (oneMissing.store 80 '9')).card = 0 ∧
      (rowDupCells (oneMissing.store 80 '9')).card = 0 ∧
      (columnDupCells (oneMissing.store 80 '9')).card = 0 ∧
      (blockDupCells (oneMissing.store 80 '9')).card = 0) := by
  refine ⟨⟨?_, ?_, ?_, ?_⟩, ⟨?_, ?_, ?_, ?_⟩⟩ <;> decide

theorem puzzle_eq (p q : Puzzle) (h1 : p.fitLevel = q.fitLevel) (h2 : p.notSet = q.notSet)
    (h3 : ∀ k, p.content k = q.content k) : p = q := by
  cases p
  cases q
  simp only at h1 h2 h3
  subst h1 h2
  congr
  exact funext h3

theorem missing_mutate (s : RandState) :
    missingEvolver.mutate 32767 oneMissing 1 s
      = (oneMissing.store 80 (missingEvolver.randDigit 32767 s).1, advance s 1) := by
  obtain ⟨f1, f2, f3⟩ := oneMissing_facts
  apply Prod.ext
  · apply puzzle_eq
    · exact (mutate_fields missingEvolver 32767 oneMissing 1 s).1
    · exact (mutate_fields missingEvolver 32767 oneMissing 1 s).2
    · intro k
      rw [mutate_chance_one_content missingEvolver 32767 oneMissing 1 s (le_refl 1) k]
      show (if oneMissing.content k = '0' then _ else _)
        = if k.val = 80 then _ else oneMissing.content k
      by_cases hk : k.val = 80
      · rw [if_pos ((f1 k).2 hk), if_pos hk, hk]
        show (missingEvolver.randDigit 32767 (advance s (emptyCount oneMissing 0 80))).1 = _
        rw [f2]
        rfl
      · rw [if_neg (fun h => hk ((f1 k).1 h)), if_neg hk]
  · show (missingEvolver.mutate 32767 oneMissing 1 s).2 = advance s 1
    rw [mutate_chance_one_state missingEvolver 32767 oneMissing 1 s (le_refl 1)]
    show advance s (emptyCount oneMissing 0 81) = _
    rw [f3]

theorem missing_seed :
    ∀ (n : Nat) (s : RandState) (m : Nat), m < n →
      (seedList missingEvolver 32767 n s)[m]?
        = some (oneMissing.store 80 (missingEvolver.randDigit 32767 (advance s m)).1) := by
  intro n
  induction n with
  | zero => intro s m hm; omega
  | succ n ih =>
    intro s m hm
    have hpre : missingEvolver.preGen = oneMissing := rfl
    simp only [seedList, hpre, missing_mutate]
    cases m with
    | zero => rw [List.getElem?_cons_zero, advance_zero]
    | succ m =>
      rw [List.getElem?_cons_succ, ih (advance s 1) m (by omega), advance_advance]

theorem filled_fitness :
    (oneMissing.store 80 '1').fitness = 78 ∧ (oneMissing.store 80 '9').fitness = 81 := by
  obtain ⟨⟨a1, a2, a3, a4⟩, ⟨b1, b2, b3, b4⟩⟩ := filled_counts
  constructor
  · rw [fitness_closed _ (show (81 : Int) < 82 by decide), a1, a2, a3, a4]; rfl
  · rw [fitness_closed _ (show (81 : Int) < 82 by decide), b1, b2, b3, b4]; rfl

/-- Claim C19 fails on the code: with the one-cell-missing template, `P = 10`, `G = 1` and
draws that seed nine puzzles of fitness 78 followed by the solution (fitness 81), `evolve`
returns a puzzle of fitness 78 although the solution was a member of the population. -/
theorem evolve_misses_fittest :
    10 ≤ missingEvolver.popSize ∧ 0 ≤ missingEvolver.maxGens ∧
    ∃ result, missingEvolver.evolve 32767 lateNine = some result ∧ result.fitness = 78 ∧
      ∃ p ∈ (missingEvolver.populate 32767 Population.new lateNine).1.elems,
        p.fitness = 81 ∧ ¬ (result.fitness ≥ p.fitness) := by
  have hP : (10 : Int) ≤ missingEvolver.popSize := by decide
  have hlen := seeded_length missingEvolver 32767 lateNine
  have hn : missingEvolver.popSize.toNat = 10 := rfl
  rw [hn] at hlen
  have hS := populate_elems missingEvolver 32767 lateNine
  rw [hn] at hS
  have hbad : ∀ x ∈ (missingEvolver.populate 32767 Population.new lateNine).1.elems.take 9,
      x = oneMissing.store 80 '1' := by
    intro x hx
    obtain ⟨m, hm, rfl⟩ := List.mem_iff_getElem.1 hx
    have hm9 : m < 9 := by
      rw [List.length_take] at hm; omega
    rw [List.getElem_take]
    have h1 := missing_seed 10 lateNine m (by omega)
    rw [← hS, List.getElem?_eq_getElem (by omega)] at h1
    rw [Option.some.inj h1, randDigit_of_zero]
    show lateNine (0 + m) = 0
    simp [lateNine, hm9]
  have hgood : oneMissing.store 80 '9'
      ∈ (missingEvolver.populate 32767 Population.new lateNine).1.elems := by
    have h1 := missing_seed 10 lateNine 9 (by omega)
    rw [← hS, randDigit_of_max _ _ (by simp [advance, lateNine])] at h1
    exact List.getElem?_mem h1
  obtain ⟨last, g, log, h1, h2, h3, h4⟩ := evolveRun_spec missingEvolver 32767 lateNine hP
  cases log with
  | nil => exact absurd rfl (h4 (by decide))
  | cons gen rest =>
    have hrest : rest = [] := by
      have : missingEvolver.maxGens.toNat = 1 := rfl
      rw [this] at h3
      cases rest with
      | nil => rfl
      | cons _ _ => simp at h3
    subst hrest
    obtain ⟨_, k2, ⟨s1, s2, k3⟩, _, k5⟩ := h2
    have hlast : last = gen.bred := k5
    obtain ⟨e1, _, _, _, ⟨acc, e5, _, _⟩, _, _, _⟩ :=
      generation_step missingEvolver 32767 _ _ gen.truncated gen.bred gen.best s1 s2
        (by rw [hlen]) (by rw [hlen, hn]) k2 k3
    obtain ⟨r, after, d1, _, _, _, _, d6⟩ := deleteWorst_facts
      (missingEvolver.populate 32767 Population.new lateNine).1 (by rw [hlen])
    rw [d1] at k2
    cases k2
    rw [hlen] at d6 e1
    cases ht : gen.truncated.elems with
    | nil => rw [ht] at e1; simp at e1
    | cons x tl =>
      have hx : x = oneMissing.store 80 '1' :=
        hbad x (d6 x (by rw [ht]; exact List.mem_cons_self _ _))
      refine ⟨hP, by decide, x, ?_, by rw [hx]; exact filled_fitness.1,
        oneMissing.store 80 '9', hgood, filled_fitness.2, ?_⟩
      · rw [evolve_eq_head missingEvolver 32767 lateNine last g [gen] h1, hlast, e5, ht]
        rfl
      · rw [hx, filled_fitness.1, filled_fitness.2]; decide

/-! ## Equality, the fitness cache and parsing -/

theorem eqLoop_spec (a b : Puzzle) (i : Nat) (hi : i ≤ 81) :
    eqLoop a b i = 81 ↔ ∀ k, i ≤ k → k < 81 → b.cell k = a.cell k := by
  induction i using eqLoop.induct a b with
  | case1 i hc ih =>
    rw [eqLoop, if_pos hc, ih (by omega)]
    constructor
    · intro h k hk1 hk2
      rcases Nat.eq_or_lt_of_le hk1 with rfl | hlt
      · exact hc.2
      · exact h k hlt hk2
    · intro h k hk1 hk2
      exact h k (by omega) hk2
  | case2 i hc =>
    rw [eqLoop, if_neg hc]
    constructor
    · intro h; subst h; intro k hk1 hk2; omega
    · intro h
      by_contra hne
      exact hc ⟨by omega, h i (le_refl _) (by omega)⟩

theorem eq_iff_content (a b : Puzzle) :
    a.eq b = true ↔ ∀ k : Fin 81, a.content k = b.content k := by
  unfold Puzzle.eq
  rw [decide_eq_true_iff, eqLoop_spec a b 0 (by omega)]
  constructor
  · intro h k
    have := h k.val (Nat.zero_le _) k.isLt
    rw [cell_eq_content _ _ k.isLt, cell_eq_content _ _ k.isLt] at this
    exact this.symm
  · intro h k _ hk
    rw [cell_eq_content _ _ hk, cell_eq_content _ _ hk]
    exact (h ⟨k, hk⟩).symm

/-- Claim C21. Equality of puzzles looks at the cells only: `a == b` holds exactly when
all 81 cells are pairwise identical, whatever the fields `notSet` and `fitLevel` of the two
puzzles hold, and `a != b` is its negation. -/
theorem puzzle_eq_content_only (a b : Puzzle) :
    (a.eq b = true ↔ ∀ k : Fin 81, a.content k = b.content k) ∧
    (∀ (f1 n1 f2 n2 : Int) (c : Fin 81 → Char),
      (Puzzle.mk f1 n1 c).eq (Puzzle.mk f2 n2 c) = true) ∧
    a.ne b = !(a.eq b) ∧
    (a.ne b = true ↔ ∃ k : Fin 81, a.content k ≠ b.content k) := by
  refine ⟨eq_iff_content a b, ?_, rfl, ?_⟩
  · intro f1 n1 f2 n2 c
    exact (eq_iff_content _ _).2 (fun _ => rfl)
  · unfold Puzzle.ne
    rw [Bool.not_eq_true', ← Bool.not_eq_true, eq_iff_content]
    exact not_forall

theorem cell_congr (p q : Puzzle) (h : p.content = q.content) : p.cell = q.cell := by
  funext k
  unfold Puzzle.cell
  rw [h]

theorem fitness_congr (p q : Puzzle) (h : p.content = q.content) (hp : 81 < p.fitLevel)
    (hq : 81 < q.fitLevel) : p.fitness = q.fitness := by
  have hc := cell_congr p q h
  rw [fitness_closed p hp, fitness_closed q hq]
  have e1 : emptyCells p = emptyCells q := by
    unfold emptyCells; rw [hc]
  have e2 : rowDupCells p = rowDupCells q := by
    unfold rowDupCells
    apply Finset.filter_congr
    intro i _
    unfold rowDup; rw [hc]
  have e3 : columnDupCells p = columnDupCells q := by
    unfold columnDupCells
    apply Finset.filter_congr
    intro i _
    unfold columnDup; rw [hc]
  have e4 : blockDupCells p = blockDupCells q := by
    unfold blockDupCells
    apply Finset.filter_congr
    intro i _
    unfold blockDup; rw [hc]
  rw [e1, e2, e3, e4]

theorem refillLoop_fitLevel (t : Char) :
    ∀ (n index : Nat) (dest : Puzzle), (refillLoop t n index dest).fitLevel = dest.fitLevel := by
  intro n
  induction n with
  | zero => intro index dest; rfl
  | succ n ih =>
    intro index dest
    unfold refillLoop
    split_ifs
    · exact ih _ _
    · exact ih _ _

theorem extractLoop_fitLevel :
    ∀ (cin : List Char) (temp : Option Char) (index : Nat) (dest p : Puzzle),
      extractLoop cin temp index dest = some p → p.fitLevel = dest.fitLevel := by
  intro cin
  induction cin with
  | nil =>
    intro temp index dest p h
    unfold extractLoop at h
    split_ifs at h
    · cases temp with
      | none => cases h
      | some t =>
        simp only at h
        split_ifs at h
        cases h
        exact refillLoop_fitLevel _ _ _ _
    · cases h; rfl
  | cons c rest ih =>
    intro temp index dest p h
    unfold extractLoop at h
    split_ifs at h
    · exact ih _ _ _ _ h
    · have := ih _ _ _ _ h
      exact this
    · have := ih _ _ _ _ h
      exact this
    · exact ih _ _ _ _ h
    · cases h; rfl

theorem isspace_not_digit (c : Char) (h : isspace c = true) : c.isDigit = false := by
  unfold isspace at h
  have h2 := of_decide_eq_true h
  rcases h2 with rfl | h2
  · rfl
  · cases hd : c.isDigit
    · rfl
    · exfalso
      unfold Char.isDigit at hd
      simp only [Bool.and_eq_true, decide_eq_true_eq] at hd
      have h48 : (48 : Nat) ≤ c.val.toNat := hd.1
      have : c.toNat = c.val.toNat := rfl
      omega

theorem constructed_fitLevel (p : Puzzle) (h : Constructed p) : p.fitLevel = 82 := by
  induction h with
  | new => rfl
  | extract input dest p _ he ih =>
    unfold Puzzle.extract at he
    rw [extractLoop_fitLevel _ _ _ _ _ he]
    exact ih
  | copy orig _ ih => exact ih
  | assign this rhs _ _ _ ih => exact ih
  | setCell p loc item _ ih => exact ih
  | mutate ga RAND_MAX parent chance s _ ih =>
    rw [(mutate_fields ga RAND_MAX parent chance s).1]
    exact ih

/-- Claim C22. Fitness is a function of the grid contents: every puzzle obtained by
default construction, parsing, copying, assignment, `setCell` and `mutate` has its cache
field at the not-computed sentinel 82; so two such puzzles with identical cells have the
same fitness, and a second query on an unchanged puzzle returns the same value as the
first. -/
theorem fitness_is_function_of_cells :
    (∀ p, Constructed p → p.fitLevel = 82) ∧
    (∀ p q, Constructed p → Constructed q → p.content = q.content →
      p.fitness = q.fitness) ∧
    (∀ p, Constructed p → p.fitnessCall.2 = p ∧
      p.fitnessCall.2.fitnessCall.1 = p.fitnessCall.1) := by
  refine ⟨constructed_fitLevel, ?_, ?_⟩
  · intro p q hp hq h
    exact fitness_congr p q h (by rw [constructed_fitLevel p hp]; decide)
      (by rw [constructed_fitLevel q hq]; decide)
  · intro p _
    exact ⟨rfl, rfl⟩

/-- Claim C23 fails on the code: a call of `fitness()` assigns nothing. The puzzle read
from the classic string has `fitLevel` 82 before the call, the call returns 30, and
`fitLevel` is still 82, not 30, after it. -/
theorem fitness_leaves_cache :
    (∀ p : Puzzle, p.fitnessCall.2.fitLevel = p.fitLevel) ∧
    Puzzle.extract classicInput Puzzle.new = some classicPuzzle ∧
    classicPuzzle.fitLevel = 82 ∧ classicPuzzle.fitnessCall.1 = 30 ∧
    classicPuzzle.fitnessCall.2.fitLevel = 82 ∧
    classicPuzzle.fitnessCall.2.fitLevel ≠ classicPuzzle.fitnessCall.1 := by
  refine ⟨fun _ => rfl, extract_classic, by decide, classic_fitness_value, by decide, ?_⟩
  show classicPuzzle.fitLevel ≠ classicPuzzle.fitness
  rw [classic_fitness_value]
  decide

theorem store_content_eq (p : Puzzle) (k : Nat) (item : Char) (x : Fin 81) (h : x.val = k) :
    (p.store k item).content x = item := by
  unfold Puzzle.store
  simp only [if_pos h]

/-- Claim C26 fails on the code: on an empty population `deleteWorst` has no defined
behaviour (the sorted range would end before `begin()`, and `front()` is called on an
empty vector). -/
theorem deleteWorst_empty_undefined :
    Population.new.elems = [] ∧ Population.new.deleteWorst = none ∧
    ∀ bf : Int, (Population.mk [] bf).deleteWorst = none :=
  ⟨rfl, rfl, fun _ => rfl⟩

theorem extractLoop_spec :
    ∀ (input : List Char) (tmp : Option Char) (index : Nat) (dest : Puzzle), index ≤ 81 →
      81 - index ≤ (digitsOf input).length →
      ∃ p, extractLoop input tmp index dest = some p ∧
        (∀ k : Fin 81, k.val < index → p.content k = dest.content k) ∧
        (∀ k : Fin 81, index ≤ k.val →
          (digitsOf input)[k.val - index]? = some (p.content k)) ∧
        p.notSet = dest.notSet
          - ((((digitsOf input).take (81 - index)).countP (fun c => decide (c ≠ '0')) : Nat)
              : Int) := by
  intro input
  induction input with
  | nil =>
    intro tmp index dest hi hlen
    have h81 : index = 81 := by
      simp only [digitsOf, List.filter_nil, List.length_nil] at hlen
      omega
    subst h81
    refine ⟨dest, by simp [extractLoop], fun _ _ => rfl, ?_, by simp [digitsOf]⟩
    intro k hk
    have := k.isLt
    omega
  | cons temp rest ih =>
    intro tmp index dest hi hlen
    by_cases hlt : index < 81
    · have hstep : 81 - index = (81 - (index + 1)) + 1 := by omega
      by_cases hsp : isspace temp = true
      · have hd : digitsOf (temp :: rest) = digitsOf rest := by
          simp [digitsOf, List.filter_cons, isspace_not_digit temp hsp]
        rw [hd] at hlen ⊢
        obtain ⟨p, e1, e2, e3, e4⟩ := ih tmp index dest hi hlen
        refine ⟨p, ?_, e2, e3, e4⟩
        rw [extractLoop, if_pos hlt, if_pos hsp]; exact e1
      by_cases h0 : temp = '0'
      · subst h0
        have hd : digitsOf ('0' :: rest) = '0' :: digitsOf rest := by
          simp [digitsOf, List.filter_cons, Char.isDigit]
        rw [hd] at hlen ⊢
        obtain ⟨p, e1, e2, e3, e4⟩ := ih (some '0') (index + 1) (dest.store index '0') (by omega)
          (by simp only [List.length_cons] at hlen; omega)
        refine ⟨p, ?_, ?_, ?_, ?_⟩
        · rw [extractLoop, if_pos hlt, if_neg hsp, if_pos rfl]; exact e1
        · intro k hk
          rw [e2 k (by omega)]
          exact store_content_ne _ _ _ _ (by omega)
        · intro k hk
          rcases Nat.eq_or_lt_of_le hk with heq | hgt
          · rw [← heq, Nat.sub_self, List.getElem?_cons_zero, e2 k (by omega),
              store_content_eq _ _ _ _ heq.symm]
          · have : k.val - index = (k.val - (index + 1)) + 1 := by omega
            rw [this, List.getElem?_cons_succ]
            exact e3 k (by omega)
        · rw [e4, hstep, List.take_succ_cons, List.countP_cons_of_neg _ _ (by simp)]
          rfl
      · by_cases hdig : temp.isDigit = true
        · have hd : digitsOf (temp :: rest) = temp :: digitsOf rest := by
            simp [digitsOf, List.filter_cons, hdig]
          rw [hd] at hlen ⊢
          obtain ⟨p, e1, e2, e3, e4⟩ := ih (some temp) (index + 1)
            { (dest.store index temp) with notSet := dest.notSet - 1 } (by omega)
            (by simp only [List.length_cons] at hlen; omega)
          refine ⟨p, ?_, ?_, ?_, ?_⟩
          · rw [extractLoop, if_pos hlt, if_neg hsp, if_neg h0, if_pos hdig]; exact e1
          · intro k hk
            rw [e2 k (by omega)]
            exact store_content_ne dest _ _ _ (by omega)
          · intro k hk
            rcases Nat.eq_or_lt_of_le hk with heq | hgt
            · rw [← heq, Nat.sub_self, List.getElem?_cons_zero, e2 k (by omega)]
              exact congrArg some (store_content_eq dest _ _ _ heq.symm).symm
            · have : k.val - index = (k.val - (index + 1)) + 1 := by omega
              rw [this, List.getElem?_cons_succ]
              exact e3 k (by omega)
          · rw [e4, hstep, List.take_succ_cons, List.countP_cons_of_pos _ _ (by simpa using h0)]
            show dest.notSet - 1 - _ = dest.notSet - _
            push_cast
            ring
        · have hd : digitsOf (temp :: rest) = digitsOf rest := by
            simp [digitsOf, List.filter_cons, hdig]
          rw [hd] at hlen ⊢
          obtain ⟨p, e1, e2, e3, e4⟩ := ih (some temp) index dest hi hlen
          refine ⟨p, ?_, e2, e3, e4⟩
          rw [extractLoop, if_pos hlt, if_neg hsp, if_neg h0, if_neg hdig]; exact e1
    · have h81 : index = 81 := by omega
      subst h81
      refine ⟨dest, by rw [extractLoop, if_neg hlt], fun _ _ => rfl, ?_, by simp⟩
      intro k hk
      have := k.isLt
      omega

theorem count_zero_add (l : List Char) :
    l.count '0' + l.countP (fun c => decide (c ≠ '0')) = l.length := by
  induction l with
  | nil => rfl
  | cons a t ih =>
    by_cases h : a = '0'
    · subst h
      rw [List.count_cons_self, List.countP_cons_of_neg _ _ (by simp), List.length_cons]
      omega
    · rw [List.count_cons_of_ne (Ne.symm h), List.countP_cons_of_pos _ _ (by simpa using h),
        List.length_cons]
      omega

theorem count_map_range (f : Nat → Char) (c : Char) :
    ∀ n, ((List.range n).map f).count c = ((Finset.range n).filter (fun i => f i = c)).card := by
  intro n
  induction n with
  | zero => rfl
  | succ n ih =>
    rw [List.range_succ, List.map_append, List.count_append, ih, Finset.range_succ,
      Finset.filter_insert]
    by_cases h : f n = c
    · rw [if_pos h, Finset.card_insert_of_not_mem (by simp)]
      simp [h]
    · rw [if_neg h, List.map_singleton, List.count_cons_of_ne (Ne.symm h)]
      simp

/-- What `operator>>` leaves for every content of standard input with at least 81 ASCII
digits: the 81 cells are the first 81 digits in order (non-digits discarded), and `size()`
is the number of `'0'` digits among those 81, that is 81 minus the number of digits
`1..9`: the number of empty cells. -/
theorem extract_cells_and_size (input : List Char) (dest : Puzzle)
    (hlen : 81 ≤ (digitsOf input).length) :
    ∃ p, Puzzle.extract input dest = some p ∧
      (∀ k : Fin 81, (digitsOf input)[k.val]? = some (p.content k)) ∧
      p.size = 81 - ((((digitsOf input).take 81).countP (fun c => decide (c ≠ '0')) : Nat) : Int) ∧
      p.size = ((((digitsOf input).take 81).count '0' : Nat) : Int) ∧
      p.size = ((emptyCells p).card : Int) := by
  obtain ⟨p, e1, _, e3, e4⟩ := extractLoop_spec input none 0 { dest with notSet := 81 }
    (by omega) (by omega)
  have hcells : ∀ k : Fin 81, (digitsOf input)[k.val]? = some (p.content k) :=
    fun k => e3 k (Nat.zero_le _)
  have hsize : p.size
      = 81 - ((((digitsOf input).take 81).countP (fun c => decide (c ≠ '0')) : Nat) : Int) := e4
  have hcount := count_zero_add ((digitsOf input).take 81)
  rw [List.length_take, Nat.min_eq_left hlen] at hcount
  have hzero : p.size = ((((digitsOf input).take 81).count '0' : Nat) : Int) := by
    rw [hsize]; omega
  refine ⟨p, e1, hcells, hsize, hzero, ?_⟩
  rw [hzero]
  congr 1
  have hmap : (digitsOf input).take 81 = (List.range 81).map p.cell := by
    apply List.ext_getElem?
    intro n
    by_cases hn : n < 81
    · rw [List.getElem?_take_of_lt hn, List.getElem?_map, List.getElem?_range hn,
        Option.map_some', cell_eq_content _ _ hn]
      exact hcells ⟨n, hn⟩
    · rw [List.getElem?_eq_none (by rw [List.length_take]; omega),
        List.getElem?_eq_none (by simp; omega)]
  rw [hmap, count_map_range]
  rfl

set_option maxRecDepth 1000000 in
/-- Claim C25 fails on the code: with the classic string on standard input, the 81 cells
of the parsed puzzle are the 81 digits of the string in order, 30 of them digits `1..9`
and 51 of them `'0'`; `size()` returns 51, the number of empty cells, where the fixed
count of the claim (and the `@return` line of `size()`, the number of cells that are not
variable) is 30. The characters come from standard input whatever stream the call names:
with the classic string on standard input every stream named gives this puzzle, and with
the classic string in the stream named and nothing on standard input no puzzle is
read. -/
theorem extract_size_counts_empty :
    ∃ p, Puzzle.extract classicInput Puzzle.new = some p ∧
      (∀ k : Fin 81, (digitsOf classicInput)[k.val]? = some (p.content k)) ∧
      ((digitsOf classicInput).take 81).countP (fun c => decide (c ≠ '0')) = 30 ∧
      (emptyCells p).card = 51 ∧
      p.size = 51 ∧ p.size ≠ 81 - 51 ∧
      (∀ input, Puzzle.extractFrom input classicInput Puzzle.new = some (input, p)) ∧
      Puzzle.extractFrom classicInput [] Puzzle.new = none := by
  obtain ⟨p, h1, h2, _, _, _⟩ := extract_cells_and_size classicInput Puzzle.new (by decide)
  have hp : p = classicPuzzle := by
    rw [extract_classic] at h1
    exact (Option.some.inj h1).symm
  subst hp
  refine ⟨classicPuzzle, extract_classic, h2, by decide, classic_counts.1, by decide,
    by decide, ?_, rfl⟩
  intro input
  unfold Puzzle.extractFrom
  rw [extract_classic]
  rfl

/-! ## Early stop, the sorted range and safety of the run -/

theorem validRun_early (ga : GeneticAlgorithm) (RAND_MAX cap : Nat) :
    ∀ (log : List Generation) (cur last : Population),
      validRun ga RAND_MAX cap cur log last → 10 ≤ cur.elems.length →
      cur.elems.length ≤ cap →
      ∀ (n : Nat) (gen : Generation), log[n]? = some gen → gen.best = 81 →
        log.length = n + 1 ∧ last.elems.head? = gen.truncated.elems.head? ∧
        gen.truncated.elems.head?.map Puzzle.fitness = some 81 := by
  intro log
  induction log with
  | nil => intro cur last _ _ _ n gen hg; simp at hg
  | cons g rest ih =>
    intro cur last hv h10 hc n gen hg hbest
    obtain ⟨_, h2, ⟨s1, s2, h3⟩, h4, h5⟩ := hv
    obtain ⟨e1, _, e3, _, ⟨acc, e5, _, _⟩, _, e9, e10⟩ :=
      generation_step ga RAND_MAX cap cur g.truncated g.bred g.best s1 s2 h10 hc h2 h3
    cases n with
    | zero =>
      simp only [List.getElem?_cons_zero, Option.some.injEq] at hg
      subst hg
      have hrest : rest = [] := h4 hbest
      subst hrest
      have hlast : last = g.bred := h5
      refine ⟨rfl, ?_, by rw [e3, hbest]⟩
      rw [hlast, e5]
      cases ht : g.truncated.elems with
      | nil => rw [ht] at e1; simp at e1; omega
      | cons x tl => rfl
    | succ n =>
      simp only [List.getElem?_cons_succ] at hg
      obtain ⟨a1, a2, a3⟩ := ih g.bred last h5 e9 e10 n gen hg hbest
      exact ⟨by simp only [List.length_cons]; omega, a2, a3⟩

/-- Claim C27. Early stop on a perfect score: for every template, `P ≥ 10`, every `G` and
stream of random draws, if the `deleteWorst` of some generation returns 81 then that
generation is the last one of the run, and `evolve` returns the head puzzle of that
truncation, whose fitness is 81. -/
theorem evolve_stops_on_ideal (ga : GeneticAlgorithm) (RAND_MAX : Nat) (s : RandState)
    (hP : 10 ≤ ga.popSize) :
    ∃ last g log, ga.evolveRun RAND_MAX s = some (last, g, log) ∧
      ∀ (n : Nat) (gen : Generation), log[n]? = some gen → gen.best = IDEAL →
        log.length = n + 1 ∧
        ∃ result, ga.evolve RAND_MAX s = some result ∧
          gen.truncated.elems.head? = some result ∧ result.fitness = 81 := by
  obtain ⟨last, g, log, h1, h2, _, _⟩ := evolveRun_spec ga RAND_MAX s hP
  have hlen := seeded_length ga RAND_MAX s
  refine ⟨last, g, log, h1, ?_⟩
  intro n gen hgen hbest
  obtain ⟨a1, a2, a3⟩ := validRun_early ga RAND_MAX _ log _ last h2 (by rw [hlen]; omega)
    (by rw [hlen]) n gen hgen hbest
  refine ⟨a1, ?_⟩
  cases hh : gen.truncated.elems.head? with
  | none => rw [hh] at a3; simp at a3
  | some x =>
    rw [hh] at a3 a2
    simp only [Option.map_some', Option.some.injEq] at a3
    exact ⟨x, by rw [evolve_eq_head ga RAND_MAX s last g log h1, a2], rfl, a3⟩

/-- Witness for claim C27: the solved grid as template, `P = 10`, `G = 1`. -/
theorem evolve_stops_on_ideal_witness :
    10 ≤ (GeneticAlgorithm.mk 10 1 solvedPuzzle).popSize ∧
    ∃ last g log, (GeneticAlgorithm.mk 10 1 solvedPuzzle).evolveRun 32767 (fun n => 1000 * n)
        = some (last, g, log) ∧
      ∀ (n : Nat) (gen : Generation), log[n]? = some gen → gen.best = IDEAL →
        log.length = n + 1 ∧
        ∃ result, (GeneticAlgorithm.mk 10 1 solvedPuzzle).evolve 32767 (fun n => 1000 * n)
            = some result ∧
          gen.truncated.elems.head? = some result ∧ result.fitness = 81 :=
  ⟨by decide,
    evolve_stops_on_ideal (GeneticAlgorithm.mk 10 1 solvedPuzzle) 32767 (fun n => 1000 * n)
      (by decide)⟩

/-- Claim C28. `deleteWorst` sorts only the first `n - 1` elements: for every population
of `n ≥ 10` puzzles the survivors are the `n / 10` leading elements of the first `n - 1`
elements put in non-increasing fitness order, the returned value is the greatest fitness
among the first `n - 1` elements, and the last element is discarded whatever it is (the
result is the same with any other puzzle in its place). -/
theorem deleteWorst_sorts_first_range (pop : Population) (hn : 10 ≤ pop.elems.length) :
    ∃ (r : Int) (after : Population) (sorted : List Puzzle),
      pop.deleteWorst = some (r, after) ∧
      sorted.Perm (pop.elems.take (pop.elems.length - 1)) ∧
      sorted.Pairwise (fun a b => a.fitness ≥ b.fitness) ∧
      after.elems = sorted.take (pop.elems.length / 10) ∧
      (∀ x ∈ pop.elems.take (pop.elems.length - 1), x.fitness ≤ r) ∧
      (∃ x ∈ pop.elems.take (pop.elems.length - 1), x.fitness = r) ∧
      ∀ y : Puzzle,
        (Population.mk (pop.elems.take (pop.elems.length - 1) ++ [y]) pop.bestFitness).deleteWorst
          = some (r, after) := by
  obtain ⟨front, rest, hk, hd⟩ := deleteWorst_eq pop hn
  obtain ⟨r, after, e1, _, _, _, e5, e6⟩ := deleteWorst_facts pop hn
  rw [hd] at e1
  cases e1
  refine ⟨_, _, stdSort (pop.elems.take (pop.elems.length - 1)), hd, stdSort_perm _,
    stdSort_pairwise _, hk.symm, e5, ⟨front, e6 front (List.mem_cons_self _ _), rfl⟩, ?_⟩
  intro y
  have hlen : (pop.elems.take (pop.elems.length - 1) ++ [y]).length = pop.elems.length := by
    rw [List.length_append, List.length_take, List.length_singleton]; omega
  obtain ⟨front2, rest2, hk2, hd2⟩ := deleteWorst_eq
    (Population.mk (pop.elems.take (pop.elems.length - 1) ++ [y]) pop.bestFitness)
    (by show 10 ≤ (pop.elems.take (pop.elems.length - 1) ++ [y]).length; rw [hlen]; exact hn)
  have htake : (pop.elems.take (pop.elems.length - 1) ++ [y]).take (pop.elems.length - 1)
      = pop.elems.take (pop.elems.length - 1) :=
    List.take_left' (by rw [List.length_take]; omega)
  simp only [hlen, htake] at hk2
  rw [hk] at hk2
  obtain ⟨hf, hr⟩ := List.cons.inj hk2
  rw [hd2, ← hf, ← hr]

/-- Witness for claim C28: ten puzzles whose last one is the fittest. -/
theorem deleteWorst_sorts_first_range_witness :
    10 ≤ lastIsBest.elems.length ∧
    ∃ (r : Int) (after : Population) (sorted : List Puzzle),
      lastIsBest.deleteWorst = some (r, after) ∧
      sorted.Perm (lastIsBest.elems.take (lastIsBest.elems.length - 1)) ∧
      sorted.Pairwise (fun a b => a.fitness ≥ b.fitness) ∧
      after.elems = sorted.take (lastIsBest.elems.length / 10) :=
  ⟨by decide,
    (deleteWorst_sorts_first_range lastIsBest (by decide)).elim
      (fun r h => h.elim (fun after h2 => h2.elim (fun sorted h3 =>
        ⟨r, after, sorted, h3.1, h3.2.1, h3.2.2.1, h3.2.2.2.1⟩)))⟩

/-- Claim C30. Safety of `evolve` under `P ≥ 10`: for every template, every `G` and stream
of random draws no call of the run is undefined; every `deleteWorst` is applied to at
least 10 puzzles and leaves at least one, so `front()` is always called on a non-empty
population (in `deleteWorst` and at the end of `evolve`), and no population after a
breeding is larger than the capacity `P` reserved at the start. -/
theorem evolve_safe (ga : GeneticAlgorithm) (RAND_MAX : Nat) (s : RandState)
    (hP : 10 ≤ ga.popSize) :
    ∃ last g log result, ga.evolveRun RAND_MAX s = some (last, g, log) ∧
      (∀ gen ∈ log, 10 ≤ gen.before.elems.length ∧ 1 ≤ gen.truncated.elems.length ∧
        gen.before.deleteWorst = some (gen.best, gen.truncated) ∧
        (∃ s1 s2, ga.breed RAND_MAX ga.popSize.toNat gen.truncated s1 = some (gen.bred, s2)) ∧
        (gen.bred.elems.length : Int) ≤ ga.popSize) ∧
      1 ≤ last.elems.length ∧ last.elems.head? = some result ∧
      ga.evolve RAND_MAX s = some result := by
  obtain ⟨last, g, log, h1, h2, _, _⟩ := evolveRun_spec ga RAND_MAX s hP
  have hlen := seeded_length ga RAND_MAX s
  obtain ⟨hall, hlast⟩ := validRun_inv ga RAND_MAX ga.popSize.toNat
    (fun cur => 10 ≤ cur.elems.length ∧ cur.elems.length ≤ ga.popSize.toNat)
    (fun gen => 10 ≤ gen.before.elems.length ∧ 1 ≤ gen.truncated.elems.length ∧
        gen.before.deleteWorst = some (gen.best, gen.truncated) ∧
        (∃ s1 s2, ga.breed RAND_MAX ga.popSize.toNat gen.truncated s1 = some (gen.bred, s2)) ∧
        (gen.bred.elems.length : Int) ≤ ga.popSize)
    (by
      rintro cur b t bred s1 s2 ⟨i1, i2⟩ hd hb
      obtain ⟨e1, _, _, _, _, _, e9, e10⟩ :=
        generation_step ga RAND_MAX _ cur t bred b s1 s2 i1 i2 hd hb
      refine ⟨⟨i1, ?_, hd, ⟨s1, s2, hb⟩, ?_⟩, e9, e10⟩
      · simp only; omega
      · simp only; omega)
    log _ last h2 ⟨by rw [hlen]; omega, by rw [hlen]⟩
  obtain ⟨x, hx1, _⟩ := head_of_length last.elems hlast.1
  refine ⟨last, g, log, x, h1, hall, by omega, hx1, ?_⟩
  rw [evolve_eq_head ga RAND_MAX s last g log h1, hx1]

/-- Witness for claim C30: the classic puzzle with `P = 10`, `G = 1`. -/
theorem evolve_safe_witness :
    10 ≤ classicEvolver.popSize ∧
    ∃ last g log result, classicEvolver.evolveRun 32767 (fun n => 1000 * n)
        = some (last, g, log) ∧
      1 ≤ last.elems.length ∧ classicEvolver.evolve 32767 (fun n => 1000 * n) = some result :=
  ⟨by decide,
    (evolve_safe classicEvolver 32767 (fun n => 1000 * n) (by decide)).imp
      (fun _ h => h.imp (fun _ h2 => h2.imp (fun _ h3 => h3.imp
        (fun _ h4 => ⟨h4.1, h4.2.2.1, h4.2.2.2.2⟩))))⟩

/-! ## The fitness by units -/

theorem card_later_dup (U : Finset Nat) (f : Nat → Char) :
    (U.filter (fun i => ∃ j ∈ U, i < j ∧ f j = f i)).card + (U.image f).card = U.card := by
  have hsplit := Finset.filter_card_add_filter_neg_card_eq_card (s := U)
    (fun i => ∃ j ∈ U, i < j ∧ f j = f i)
  have himage : (U.filter (fun i => ¬ ∃ j ∈ U, i < j ∧ f j = f i)).image f = U.image f := by
    apply Finset.Subset.antisymm
    · exact Finset.image_subset_image (Finset.filter_subset _ _)
    · intro c hc
      obtain ⟨i, hi, rfl⟩ := Finset.mem_image.1 hc
      have hne : (U.filter (fun k => f k = f i)).Nonempty := ⟨i, Finset.mem_filter.2 ⟨hi, rfl⟩⟩
      obtain ⟨m, hm, hmax⟩ := Finset.exists_max_image (U.filter (fun k => f k = f i)) id hne
      obtain ⟨hmU, hmf⟩ := Finset.mem_filter.1 hm
      refine Finset.mem_image.2 ⟨m, Finset.mem_filter.2 ⟨hmU, ?_⟩, hmf⟩
      rintro ⟨j, hj, hlt, hjf⟩
      have := hmax j (Finset.mem_filter.2 ⟨hj, by rw [hjf, hmf]⟩)
      simp only [id] at this
      omega
  have hinj : Set.InjOn f (U.filter (fun i => ¬ ∃ j ∈ U, i < j ∧ f j = f i) : Finset Nat) := by
    intro a ha b hb hab
    obtain ⟨haU, hna⟩ := Finset.mem_filter.1 (Finset.mem_coe.1 ha)
    obtain ⟨hbU, hnb⟩ := Finset.mem_filter.1 (Finset.mem_coe.1 hb)
    by_contra hne
    rcases Nat.lt_or_gt_of_ne hne with h | h
    · exact hna ⟨b, hbU, h, hab.symm⟩
    · exact hnb ⟨a, haU, h, hab⟩
  rw [← himage, Finset.card_image_of_injOn hinj]
  exact hsplit

theorem dupBy_unit (p : Puzzle) (key : Nat → Nat) (u : Nat) :
    ((Finset.range 81).filter (fun i => dupBy p key i)).filter (fun i => key i = u)
      = (unitFilled p ((Finset.range 81).filter (fun i => key i = u))).filter
          (fun i => ∃ j ∈ unitFilled p ((Finset.range 81).filter (fun i => key i = u)),
            i < j ∧ p.cell j = p.cell i) := by
  ext i
  simp only [Finset.mem_filter, Finset.mem_range, unitFilled, dupBy]
  constructor
  · rintro ⟨⟨hi, h0, j, hj, hlt, hk, hc⟩, hu⟩
    exact ⟨⟨⟨hi, hu⟩, h0⟩, j, ⟨⟨hj, by rw [← hk, hu]⟩, by rw [hc]; exact h0⟩, hlt, hc⟩
  · rintro ⟨⟨⟨hi, hu⟩, h0⟩, j, ⟨⟨hj, hju⟩, _⟩, hlt, hc⟩
    exact ⟨⟨hi, h0, j, hj, hlt, by rw [hu, hju], hc⟩, hu⟩

theorem dup_card_by_unit (p : Puzzle) (key : Nat → Nat) (hkey : ∀ i, i < 81 → key i < 9) :
    ((Finset.range 81).filter (fun i => dupBy p key i)).card
      + ∑ u in Finset.range 9,
          (unitValues p ((Finset.range 81).filter (fun i => key i = u))).card
      = ∑ u in Finset.range 9,
          (unitFilled p ((Finset.range 81).filter (fun i => key i = u))).card := by
  rw [Finset.card_eq_sum_card_fiberwise (f := key) (t := Finset.range 9)
    (fun i hi => Finset.mem_range.2 (hkey i (Finset.mem_range.1 (Finset.mem_filter.1 hi).1))),
    ← Finset.sum_add_distrib]
  apply Finset.sum_congr rfl
  intro u _
  rw [dupBy_unit]
  exact card_later_dup _ p.cell

theorem filled_card_by_unit (p : Puzzle) (key : Nat → Nat) (hkey : ∀ i, i < 81 → key i < 9) :
    ∑ u in Finset.range 9,
        (unitFilled p ((Finset.range 81).filter (fun i => key i = u))).card
      = (unitFilled p (Finset.range 81)).card := by
  unfold unitFilled
  rw [Finset.card_eq_sum_card_fiberwise
    (s := (Finset.range 81).filter (fun i => p.cell i ≠ '0')) (f := key) (t := Finset.range 9)
    (fun i hi => Finset.mem_range.2 (hkey i (Finset.mem_range.1 (Finset.mem_filter.1 hi).1)))]
  apply Finset.sum_congr rfl
  intro u _
  rw [Finset.filter_comm]

theorem filled_add_empty (p : Puzzle) :
    (unitFilled p (Finset.range 81)).card + (emptyCells p).card = 81 := by
  have := Finset.filter_card_add_filter_neg_card_eq_card (s := Finset.range 81)
    (fun i => p.cell i = '0')
  rw [Finset.card_range] at this
  unfold unitFilled emptyCells
  simp only [ne_eq]
  omega

theorem rowDupCells_eq (p : Puzzle) :
    rowDupCells p = (Finset.range 81).filter (fun i => dupBy p (fun i => i / 9) i) := rfl

theorem columnDupCells_eq (p : Puzzle) :
    columnDupCells p = (Finset.range 81).filter (fun i => dupBy p (fun i => i % 9) i) := rfl

theorem blockDupCells_eq (p : Puzzle) :
    blockDupCells p = (Finset.range 81).filter (fun i => dupBy p blockKey i) := by
  unfold blockDupCells
  apply Finset.filter_congr
  intro i _
  unfold blockDup dupBy sameBlock blockKey
  constructor
  · rintro ⟨h0, j, hj, hlt, hs, hc⟩
    exact ⟨h0, j, hj, hlt, by omega, hc⟩
  · rintro ⟨h0, j, hj, hlt, hs, hc⟩
    exact ⟨h0, j, hj, hlt, by omega, hc⟩

theorem blockCells_eq (b : Nat) :
    blockCells b = (Finset.range 81).filter (fun i => blockKey i = b) := by
  unfold blockCells
  apply Finset.filter_congr
  intro i _
  unfold blockKey
  omega

theorem unit_sums (p : Puzzle) :
    ((rowDupCells p).card + ∑ u in Finset.range 9, (unitValues p (rowCells u)).card
      = (unitFilled p (Finset.range 81)).card) ∧
    ((columnDupCells p).card + ∑ u in Finset.range 9, (unitValues p (columnCells u)).card
      = (unitFilled p (Finset.range 81)).card) ∧
    ((blockDupCells p).card + ∑ u in Finset.range 9, (unitValues p (blockCells u)).card
      = (unitFilled p (Finset.range 81)).card) ∧
    (∑ u in Finset.range 9, (unitFilled p (rowCells u)).card
      = (unitFilled p (Finset.range 81)).card) ∧
    (∑ u in Finset.range 9, (unitFilled p (columnCells u)).card
      = (unitFilled p (Finset.range 81)).card) ∧
    (∑ u in Finset.range 9, (unitFilled p (blockCells u)).card
      = (unitFilled p (Finset.range 81)).card) := by
  have kr : ∀ i, i < 81 → (fun i => i / 9) i < 9 := fun i hi => by simp only; omega
  have kc : ∀ i, i < 81 → (fun i => i % 9) i < 9 := fun i hi => by simp only; omega
  have kb : ∀ i, i < 81 → blockKey i < 9 := fun i hi => by unfold blockKey; omega
  have hb : ∀ u, blockCells u = (Finset.range 81).filter (fun i => blockKey i = u) :=
    blockCells_eq
  refine ⟨?_, ?_, ?_, ?_, ?_, ?_⟩
  · rw [← filled_card_by_unit p _ kr, rowDupCells_eq]
    exact dup_card_by_unit p _ kr
  · rw [← filled_card_by_unit p _ kc, columnDupCells_eq]
    exact dup_card_by_unit p _ kc
  · rw [← filled_card_by_unit p _ kb, blockDupCells_eq]
    simp only [hb]
    exact dup_card_by_unit p _ kb
  · exact filled_card_by_unit p _ kr
  · exact filled_card_by_unit p _ kc
  · simp only [hb]
    exact filled_card_by_unit p _ kb

/-- Claim C29. Closed form of the fitness: for every grid whose cache is not computed,
`fitness()` is 81 minus the number of empty cells minus the sum, over the 9 rows, 9
columns and 9 blocks, of the number of non-empty cells of the unit minus the number of
distinct non-empty values in it; equivalently, the sum over the 27 units of the number of
distinct non-empty values, minus twice the number of non-empty cells. -/
theorem fitness_by_units (p : Puzzle) (hcache : 81 < p.fitLevel) :
    p.fitness = 81 - ((emptyCells p).card : Int)
      - (∑ u in Finset.range 9,
            (((unitFilled p (rowCells u)).card : Int) - ((unitValues p (rowCells u)).card : Int))
        + ∑ u in Finset.range 9,
            (((unitFilled p (columnCells u)).card : Int)
              - ((unitValues p (columnCells u)).card : Int))
        + ∑ u in Finset.range 9,
            (((unitFilled p (blockCells u)).card : Int)
              - ((unitValues p (blockCells u)).card : Int))) ∧
    p.fitness = (∑ u in Finset.range 9, ((unitValues p (rowCells u)).card : Int)
        + ∑ u in Finset.range 9, ((unitValues p (columnCells u)).card : Int)
        + ∑ u in Finset.range 9, ((unitValues p (blockCells u)).card : Int))
      - 2 * ((unitFilled p (Finset.range 81)).card : Int) ∧
    (unitFilled p (Finset.range 81)).card + (emptyCells p).card = 81 := by
  obtain ⟨r1, c1, b1, r2, c2, b2⟩ := unit_sums p
  have he := filled_add_empty p
  rw [fitness_closed p hcache]
  simp only [Finset.sum_sub_distrib, ← Nat.cast_sum]
  rw [r2, c2, b2]
  refine ⟨?_, ?_, he⟩ <;> omega

/-- Witness for claim C29: the classic puzzle. -/
theorem fitness_by_units_witness :
    81 < classicPuzzle.fitLevel ∧
    (unitFilled classicPuzzle (Finset.range 81)).card + (emptyCells classicPuzzle).card = 81 :=
  ⟨by decide, (fitness_by_units classicPuzzle (by decide)).2.2⟩

/-! ## Safety and termination of the block walk -/

theorem nonetReads_initial (p : Puzzle) (i : Nat) :
    ∀ (fuel temp : Nat) (l : List Nat), nonetWalk i fuel temp = some l →
      ∃ rest, nonetReads p i temp ++ rest = l := by
  intro fuel
  induction fuel with
  | zero => intro temp l h; simp [nonetWalk] at h
  | succ n ih =>
    intro temp l h
    rw [nonetReads]
    simp only [nonetWalk] at h
    by_cases hc : temp - i < 3 ∨ (temp / 9) % 3 > (i / 9) % 3
    · simp only [hc, if_true] at h ⊢
      cases hw : nonetWalk i n (if temp % 3 > 1 then temp + 7 else temp + 1) with
      | none => simp [hw] at h
      | some l2 =>
        simp only [hw, Option.map_some', Option.some.injEq] at h
        subst h
        obtain ⟨rest, hrest⟩ := ih _ _ hw
        by_cases he : p.cell temp = p.cell i
        · rw [if_pos he]
          exact ⟨l2, rfl⟩
        · rw [if_neg he]
          by_cases h3 : temp % 3 > 1
          · simp only [h3, if_true] at hrest ⊢
            exact ⟨rest, by rw [List.cons_append, hrest]⟩
          · simp only [h3, if_false] at hrest ⊢
            exact ⟨rest, by rw [List.cons_append, hrest]⟩
    · simp only [hc, if_false, Option.some.injEq] at h ⊢
      exact ⟨l, by simp [h]⟩

theorem nonetScan_iff_reads (p : Puzzle) (i temp : Nat) :
    nonetScan p i temp = true ↔ ∃ t ∈ nonetReads p i temp, p.cell t = p.cell i := by
  induction temp using nonetScan.induct p i with
  | case1 temp hc he =>
    rw [nonetScan, if_pos hc, if_pos he, nonetReads, if_pos hc, if_pos he]
    simp only [true_iff]
    exact ⟨temp, List.mem_singleton.2 rfl, he⟩
  | case2 temp hc he h3 ih =>
    have e : nonetReads p i temp = temp :: nonetReads p i (temp + 7) := by
      rw [nonetReads, if_pos hc, if_neg he, if_pos h3]
    rw [nonetScan, if_pos hc, if_neg he, if_pos h3, ih, e]
    constructor
    · rintro ⟨t, ht, hm⟩
      exact ⟨t, List.mem_cons_of_mem _ ht, hm⟩
    · rintro ⟨t, ht, hm⟩
      rcases List.mem_cons.1 ht with rfl | ht
      · exact absurd hm he
      · exact ⟨t, ht, hm⟩
  | case3 temp hc he h3 ih =>
    have e : nonetReads p i temp = temp :: nonetReads p i (temp + 1) := by
      rw [nonetReads, if_pos hc, if_neg he, if_neg h3]
    rw [nonetScan, if_pos hc, if_neg he, if_neg h3, ih, e]
    constructor
    · rintro ⟨t, ht, hm⟩
      exact ⟨t, List.mem_cons_of_mem _ ht, hm⟩
    · rintro ⟨t, ht, hm⟩
      rcases List.mem_cons.1 ht with rfl | ht
      · exact absurd hm he
      · exact ⟨t, ht, hm⟩
  | case4 temp hc =>
    rw [nonetScan, if_neg hc, nonetReads, if_neg hc]
    simp

set_option maxRecDepth 100000 in
theorem block_later_count : ∀ i, i < 80 →
    ((List.range 81).filter (fun j => decide (i < j ∧ sameBlock i j))).length ≤ 8 := by
  decide

/-- Claim C31. Safety and termination of the block walk: for every grid and every start
cell `i` in `0..79`, every index `temp` at which the `while` loop of `fitNonet` reads
`content[temp]` satisfies `i < temp ≤ 80` and lies in the 3x3 block of `i`; the loop
makes at most 8 passes (it reads at most 8 cells, an initial part of the later cells of
the block in row-major order) and then ends, its result being whether a read cell held
the character of cell `i`. -/
theorem nonet_walk_safe (p : Puzzle) (i : Nat) (hi : i < 80) :
    (∀ t ∈ nonetReads p i (if i % 3 > 1 then i - 2 + 9 else i + 1),
      i < t ∧ t ≤ 80 ∧ sameBlock i t) ∧
    (nonetReads p i (if i % 3 > 1 then i - 2 + 9 else i + 1)).length ≤ 8 ∧
    (∃ rest, nonetReads p i (if i % 3 > 1 then i - 2 + 9 else i + 1) ++ rest
      = (List.range 81).filter (fun j => decide (i < j ∧ sameBlock i j))) ∧
    (nonetScan p i (if i % 3 > 1 then i - 2 + 9 else i + 1) = true ↔
      ∃ t ∈ nonetReads p i (if i % 3 > 1 then i - 2 + 9 else i + 1), p.cell t = p.cell i) := by
  obtain ⟨rest, hrest⟩ := nonetReads_initial p i 9 _ _ (nonetWalk_block i hi)
  refine ⟨?_, ?_, ⟨rest, hrest⟩, nonetScan_iff_reads p i _⟩
  · intro t ht
    have hmem : t ∈ (List.range 81).filter (fun j => decide (i < j ∧ sameBlock i j)) := by
      rw [← hrest]
      exact List.mem_append_left _ ht
    obtain ⟨h1, h2⟩ := List.mem_filter.1 hmem
    have h3 := List.mem_range.1 h1
    have h4 := of_decide_eq_true h2
    exact ⟨h4.1, by omega, h4.2⟩
  · have h1 := block_later_count i hi
    rw [← hrest, List.length_append] at h1
    omega

/-- Witness for claim C31: start cell 0 of the classic puzzle. -/
theorem nonet_walk_safe_witness :
    0 < 80 ∧
    (∀ t ∈ nonetReads classicPuzzle 0 (if 0 % 3 > 1 then 0 - 2 + 9 else 0 + 1),
      0 < t ∧ t ≤ 80 ∧ sameBlock 0 t) ∧
    (nonetReads classicPuzzle 0 (if 0 % 3 > 1 then 0 - 2 + 9 else 0 + 1)).length ≤ 8 :=
  ⟨by decide, (nonet_walk_safe classicPuzzle 0 (by decide)).1,
    (nonet_walk_safe classicPuzzle 0 (by decide)).2.1⟩
